import Mathlib

/-! embedded-gcov: registry, emission driver and text helper

A shallow embedding of `src/code/gcov_public.c` (registry and emission driver, fixed-pool
build, that is with `GCOV_OPT_USE_MALLOC` undefined), of the macros of `src/code/gcov_gcc.h`
and of `src/code/gcov_printf.c`.

Conventions.
* Unsigned 32-bit objects are natural numbers, reduced modulo 2^32 = 4294967296, where the C code computes.
* A pointer into the pool `gcov_GcovInfo` is `some k` for `gcov_GcovInfo + k`, `none` for NULL.
* A `struct gcov_info *` is its address, a natural number.
* A C string is the list of the memory cells from the pointer on; a reader stops at the first
  cell that is zero modulo 256 (or at the end of the list). A NULL string pointer is `none`.
* The three functions declared in `gcov_gcc.h`, whose bodies are not part of the sources
  embedded here, are the fields of `GcovGcc`.
* What a function does to the outside (macro invocations, stores into the memory block, calls
  of the serializer) is returned as a list of `Event`s, in program order.
-/

namespace EmbeddedGcov

/-- Build-time options of `gcov_public.h` that select code in `gcov_public.c`, together with
the byte order of the host, which decides how the words of `gcov_buf` read as bytes. -/
structure Options where
  GCOV_OPT_USE_STDLIB : Bool
  GCOV_OPT_PRINT_STATUS : Bool
  GCOV_OPT_OUTPUT_BINARY_FILE : Bool
  GCOV_OPT_OUTPUT_BINARY_MEMORY : Bool
  GCOV_OPT_OUTPUT_SERIAL_HEXDUMP : Bool
  big_endian : Bool
deriving DecidableEq, Repr

/-- One entry of the registry, `struct tagGcovInfo`. -/
structure GcovInfo where
  info : Nat
  next : Option Nat
deriving DecidableEq, Repr

/-- Observable actions, named after the macro or function the C code invokes. -/
inductive Event where
  | GCOV_PRINT_STR (str : Option (List Nat))
  | GCOV_PRINT_NUM (num : Nat)
  | GCOV_PRINT_HEXDUMP_ADDR (num : Nat)
  | GCOV_PRINT_HEXDUMP_DATA (num : Nat)
  | fflush_stdout
  | GCOV_OPEN_FILE
  | GCOV_WRITE_BYTE (bf : Nat)
  | GCOV_CLOSE_FILE
  | store (index : Nat) (byte : Nat)
  | gcov_convert_to_gcda (fill : Bool) (info : Nat)
  | gcov_clear_counters (info : Nat)
  | exit_call (status : Nat)
deriving DecidableEq, Repr

/-- How a call ends: it returns to its caller, or it ends the process through `exit(1)`. -/
inductive Outcome where
  | returned
  | exited
deriving DecidableEq, Repr

/-- The interface of `gcov_gcc.h` over a descriptor memory `μ`.
`gcov_convert_to_gcda_null m info` is the value of `gcov_convert_to_gcda(NULL, info)`;
`gcov_convert_to_gcda m buffer info` is the buffer after `gcov_convert_to_gcda(buffer, info)`
and the value the call returns. -/
structure GcovGcc (μ : Type) where
  gcov_info_filename : μ → Nat → Option (List Nat)
  gcov_convert_to_gcda_null : μ → Nat → Nat
  gcov_convert_to_gcda : μ → (Nat → Nat) → Nat → (Nat → Nat) × Nat
  gcov_clear_counters : μ → Nat → μ

/-- The static variables of `gcov_public.c` and the descriptor memory they point into. -/
structure State (μ : Type) where
  gcov_headGcov : Option Nat
  gcov_GcovInfo : Nat → GcovInfo
  gcov_GcovIndex : Nat
  gcov_buf : Nat → Nat
  gcov_output_index : Nat
  descriptors : μ

/-- The result of a call: the state it leaves, what it did, how it ended. -/
structure Result (μ : Type) where
  state : State μ
  events : List Event
  outcome : Outcome

/-- The state at program start: every static variable is zero. -/
def State.initial {μ : Type} (m : μ) : State μ :=
  { gcov_headGcov := none
    gcov_GcovInfo := fun _ => { info := 0, next := none }
    gcov_GcovIndex := 0
    gcov_buf := fun _ => 0
    gcov_output_index := 0
    descriptors := m }

/-- The cells of a string literal. -/
def lit (s : String) : List Nat := s.toList.map Char.toNat

/-- `GCOV_PRINT_STR` of a string literal. -/
def print_lit (s : String) : Event := Event.GCOV_PRINT_STR (some (lit s))

/-- `sizeof(gcov_GcovInfo)/sizeof(gcov_GcovInfo[0])`. -/
def gcov_GcovInfo_count : Nat := 100

/-- `sizeof(gcov_buf)/sizeof(char)` for `gcov_unsigned_t gcov_buf[8192]` with 32-bit words. -/
def gcov_buf_bytes : Nat := 8192 * 4

/-- What the failure branch `if (!newHead)` and `if (!buffer)` does. -/
def out_of_memory (o : Options) : List Event × Outcome :=
  ((if o.GCOV_OPT_PRINT_STATUS then [print_lit "Out of memory!", print_lit "\n"] else []) ++
    (if o.GCOV_OPT_USE_STDLIB then [Event.exit_call 1] else []),
   if o.GCOV_OPT_USE_STDLIB then Outcome.exited else Outcome.returned)

/-- Embedding of `__gcov_init`. -/
def __gcov_init {μ : Type} (o : Options) (G : GcovGcc μ) (info : Nat) (s : State μ) :
    Result μ :=
  let status : List Event :=
    if o.GCOV_OPT_PRINT_STATUS then
      [print_lit "__gcov_init called for ",
       Event.GCOV_PRINT_STR (G.gcov_info_filename s.descriptors info),
       print_lit "\n"] ++ (if o.GCOV_OPT_USE_STDLIB then [Event.fflush_stdout] else [])
    else []
  let newHead : Option Nat :=
    if s.gcov_GcovIndex ≥ gcov_GcovInfo_count then none else some s.gcov_GcovIndex
  match newHead with
  | none =>
    { state := s, events := status ++ (out_of_memory o).1, outcome := (out_of_memory o).2 }
  | some k =>
    { state :=
        { s with
          gcov_GcovInfo := Function.update s.gcov_GcovInfo k
            { info := info, next := s.gcov_headGcov }
          gcov_headGcov := some k
          gcov_GcovIndex := (s.gcov_GcovIndex + 1) % 4294967296 }
      events := status
      outcome := Outcome.returned }

/-- A sequence of calls, each made only when the one before has returned. -/
def run_calls {μ : Type} : List (State μ → Result μ) → State μ → Result μ
  | [], s => { state := s, events := [], outcome := Outcome.returned }
  | f :: fs, s =>
    match (f s).outcome with
    | Outcome.exited => f s
    | Outcome.returned =>
      { state := (run_calls fs (f s).state).state
        events := (f s).events ++ (run_calls fs (f s).state).events
        outcome := (run_calls fs (f s).state).outcome }

/-- Embedding of `__gcov_call_constructors`: the static variables are reinitialised, then the
functions between `__ctor_list` and `__ctor_end` are called in order. -/
def __gcov_call_constructors {μ : Type} (ctors : List (State μ → Result μ)) (s : State μ) :
    Result μ :=
  run_calls ctors { s with gcov_headGcov := none, gcov_GcovIndex := 0 }

/-- The registry read from a list pointer: the `info` fields met by following `next` until
NULL, `none` when NULL is not reached within `fuel` steps. -/
def registry_walk (pool : Nat → GcovInfo) : Nat → Option Nat → Option (List Nat)
  | _, none => some []
  | 0, some _ => none
  | fuel + 1, some k => (registry_walk pool fuel (pool k).next).map (fun l => (pool k).info :: l)

/-- The bytes that `while (p && (*p)) { ... (*p++) }` visits, as `unsigned char`. -/
def cstr : Option (List Nat) → List Nat
  | none => []
  | some p => (p.map (fun c => c % 256)).takeWhile (fun c => decide (c ≠ 0))

/-- The four bytes stored for the data byte count, in the order they are written:
`(unsigned char)(bytesNeeded / 16777216)`, `/ 65536`, `/ 256`, and `bytesNeeded` itself. -/
def length_bytes (bytesNeeded : Nat) : List Nat :=
  [(bytesNeeded / 16777216) % 256, (bytesNeeded / 65536) % 256,
   (bytesNeeded / 256) % 256, bytesNeeded % 256]

/-- The value of `((unsigned char *)buffer)[i]` for a buffer of 32-bit words. -/
def buffer_byte (big_endian : Bool) (buffer : Nat → Nat) (i : Nat) : Nat :=
  if big_endian then (buffer (i / 4) / 256 ^ (3 - i % 4)) % 256
  else (buffer (i / 4) / 256 ^ (i % 4)) % 256

/-- The bytes `((unsigned char *)buffer)[i]` for `i = 0 .. n-1`. -/
def buffer_bytes (big_endian : Bool) (buffer : Nat → Nat) (n : Nat) : List Nat :=
  (List.range n).map (buffer_byte big_endian buffer)

/-- The end marker, the characters 'G' 'c' 'o' 'v' ' ' 'E' 'n' 'd' and a null. -/
def gcov_end_marker : List Nat := lit "Gcov End" ++ [0]

/-- Successive `gcov_output_buffer[gcov_output_index++] = b`: the stores made and the index
left, which is a `gcov_unsigned_t`. -/
def store_bytes : Nat → List Nat → List Event × Nat
  | index, [] => ([], index)
  | index, b :: bs =>
    (Event.store index b :: (store_bytes ((index + 1) % 4294967296) bs).1,
     (store_bytes ((index + 1) % 4294967296) bs).2)

/-- The name, the byte count and the data as one descriptor sends them to a binary sink. -/
def envelope (name : Option (List Nat)) (bytesNeeded : Nat) (data : List Nat) : List Nat :=
  cstr name ++ [0] ++ length_bytes bytesNeeded ++ data

/-- The hex dump loop of `__gcov_exit` with the two lines that follow it. -/
def hexdump (big_endian : Bool) (buffer : Nat → Nat) (bytesNeeded : Nat)
    (name : Option (List Nat)) : List Event :=
  (List.range bytesNeeded).flatMap (fun i =>
    (if i % 16 = 0 then [Event.GCOV_PRINT_HEXDUMP_ADDR i] else []) ++
    [Event.GCOV_PRINT_HEXDUMP_DATA (buffer_byte big_endian buffer i)] ++
    (if i % 16 = 15 then [print_lit "\n"] else [])) ++
  [print_lit "\n", Event.GCOV_PRINT_STR name, print_lit "\n"]

/-- The part of the loop body of `__gcov_exit` after the real conversion: status line, file
sink, memory sink, hex dump. Returns the events and the output index left. -/
def emit_descriptor (o : Options) (name : Option (List Nat)) (bytesNeeded : Nat)
    (buffer : Nat → Nat) (index : Nat) : List Event × Nat :=
  let data := buffer_bytes o.big_endian buffer bytesNeeded
  let status : List Event :=
    if o.GCOV_OPT_PRINT_STATUS || o.GCOV_OPT_OUTPUT_SERIAL_HEXDUMP then
      [print_lit "Emitting ", Event.GCOV_PRINT_NUM bytesNeeded, print_lit " bytes for ",
       Event.GCOV_PRINT_STR name, print_lit "\n"]
    else []
  let file : List Event :=
    if o.GCOV_OPT_OUTPUT_BINARY_FILE then
      (envelope name bytesNeeded data).map Event.GCOV_WRITE_BYTE
    else []
  let memory : List Event × Nat :=
    if o.GCOV_OPT_OUTPUT_BINARY_MEMORY then store_bytes index (envelope name bytesNeeded data)
    else ([], index)
  let dump : List Event :=
    if o.GCOV_OPT_OUTPUT_SERIAL_HEXDUMP then hexdump o.big_endian buffer bytesNeeded name
    else []
  (status ++ file ++ memory.1 ++ dump, memory.2)

/-- What the loop `while (listptr)` of `__gcov_exit` leaves: the scratch buffer, the output
index, the events, and whether the loop ran to its end (`true`) or took the failure branch
`if (!buffer)` (`false`). -/
structure LoopResult where
  buf : Nat → Nat
  index : Nat
  events : List Event
  finished : Bool

/-- The loop `while (listptr)` of `__gcov_exit`; `none` when `fuel` iterations do not reach
NULL. -/
def gcov_exit_loop {μ : Type} (o : Options) (G : GcovGcc μ) (m : μ) (pool : Nat → GcovInfo) :
    Nat → Option Nat → (Nat → Nat) → Nat → Option LoopResult
  | _, none, buf, index => some { buf := buf, index := index, events := [], finished := true }
  | 0, some _, _, _ => none
  | fuel + 1, some k, buf, index =>
    let info := (pool k).info
    let bytesNeeded := G.gcov_convert_to_gcda_null m info % 4294967296
    if bytesNeeded > gcov_buf_bytes then
      some { buf := buf, index := index
             events := [Event.gcov_convert_to_gcda false info], finished := false }
    else
      let buffer := (G.gcov_convert_to_gcda m buf info).1
      let out := emit_descriptor o (G.gcov_info_filename m info) bytesNeeded buffer index
      match gcov_exit_loop o G m pool fuel (pool k).next buffer out.2 with
      | none => none
      | some r =>
        some { buf := r.buf, index := r.index
               events := [Event.gcov_convert_to_gcda false info,
                          Event.gcov_convert_to_gcda true info] ++ out.1 ++ r.events
               finished := r.finished }

/-- The end of `__gcov_exit`, after the loop: the marker to the file and its closing, the
marker to the memory block, the closing status line. -/
def emit_end (o : Options) (index : Nat) : List Event × Nat :=
  let file : List Event :=
    if o.GCOV_OPT_OUTPUT_BINARY_FILE then
      gcov_end_marker.map Event.GCOV_WRITE_BYTE ++ [Event.GCOV_CLOSE_FILE]
    else []
  let memory : List Event × Nat :=
    if o.GCOV_OPT_OUTPUT_BINARY_MEMORY then store_bytes index gcov_end_marker else ([], index)
  let status : List Event :=
    if o.GCOV_OPT_PRINT_STATUS || o.GCOV_OPT_OUTPUT_SERIAL_HEXDUMP then
      [print_lit "Gcov End", print_lit "\n"]
    else []
  (file ++ memory.1 ++ status, memory.2)

/-- Embedding of `__gcov_exit`. `open_ok` tells whether `GCOV_OPEN_FILE` succeeds, should the
file sink be enabled. `none` when the list is not exhausted within `fuel` iterations. -/
def __gcov_exit {μ : Type} (o : Options) (G : GcovGcc μ) (open_ok : Bool) (fuel : Nat)
    (s : State μ) : Option (Result μ) :=
  let index0 := if o.GCOV_OPT_OUTPUT_BINARY_MEMORY then 0 else s.gcov_output_index
  let status : List Event :=
    if o.GCOV_OPT_PRINT_STATUS then [print_lit "gcov_exit", print_lit "\n"] else []
  let opening : List Event :=
    if o.GCOV_OPT_OUTPUT_BINARY_FILE then [Event.GCOV_OPEN_FILE] else []
  if o.GCOV_OPT_OUTPUT_BINARY_FILE && !open_ok then
    some { state := { s with gcov_output_index := index0 }
           events := status ++ opening ++
             (if o.GCOV_OPT_PRINT_STATUS then
                [print_lit "Unable to open gcov output file!", print_lit "\n"] else []) ++
             (if o.GCOV_OPT_USE_STDLIB then [Event.exit_call 1] else [])
           outcome := if o.GCOV_OPT_USE_STDLIB then Outcome.exited else Outcome.returned }
  else
    match gcov_exit_loop o G s.descriptors s.gcov_GcovInfo fuel s.gcov_headGcov s.gcov_buf
        index0 with
    | none => none
    | some r =>
      if r.finished then
        some { state := { s with gcov_buf := r.buf, gcov_output_index := (emit_end o r.index).2 }
               events := status ++ opening ++ r.events ++ (emit_end o r.index).1
               outcome := Outcome.returned }
      else
        some { state := { s with gcov_buf := r.buf, gcov_output_index := r.index }
               events := status ++ opening ++ r.events ++ (out_of_memory o).1
               outcome := (out_of_memory o).2 }

/-- The store an event makes into the memory block, as index and byte. -/
def store_of : Event → Option (Nat × Nat)
  | Event.store i b => some (i, b)
  | _ => none

/-- The byte an event passes to `GCOV_WRITE_BYTE`. -/
def file_byte_of : Event → Option Nat
  | Event.GCOV_WRITE_BYTE b => some b
  | _ => none

/-- The call of `gcov_convert_to_gcda` an event makes: `(false, info)` with a NULL buffer,
`(true, info)` with a buffer. -/
def convert_call_of : Event → Option (Bool × Nat)
  | Event.gcov_convert_to_gcda f i => some (f, i)
  | _ => none

/-- Whether an event is one of the text-output macros. -/
def is_text : Event → Bool
  | Event.GCOV_PRINT_STR _ => true
  | Event.GCOV_PRINT_NUM _ => true
  | Event.GCOV_PRINT_HEXDUMP_ADDR _ => true
  | Event.GCOV_PRINT_HEXDUMP_DATA _ => true
  | _ => false

/-- The stores into the memory block among some events, in order. -/
def stores (es : List Event) : List (Nat × Nat) := es.filterMap store_of

/-- The bytes passed to `GCOV_WRITE_BYTE` among some events, in order. -/
def file_bytes (es : List Event) : List Nat := es.filterMap file_byte_of

/-- The calls of `gcov_convert_to_gcda` among some events, in order. -/
def convert_calls (es : List Event) : List (Bool × Nat) := es.filterMap convert_call_of

/-- The text-output macro invocations among some events, in order. -/
def text_events (es : List Event) : List Event := es.filter is_text

/-- Bytes placed at successive 32-bit indices from `start` on. -/
def at_offsets : Nat → List Nat → List (Nat × Nat)
  | _, [] => []
  | start, b :: bs => (start, b) :: at_offsets ((start + 1) % 4294967296) bs

/-- The memory block after some stores. -/
def apply_stores (mem : Nat → Nat) : List (Nat × Nat) → Nat → Nat
  | [] => mem
  | (i, b) :: rest => apply_stores (Function.update mem i b) rest

/-- The bytes the binary sinks receive for the descriptors `l`, visited in this order from
the scratch buffer `buf` on, when each of them fits the scratch buffer. -/
def stream {μ : Type} (o : Options) (G : GcovGcc μ) (m : μ) : List Nat → (Nat → Nat) → List Nat
  | [], _ => []
  | d :: l, buf =>
    envelope (G.gcov_info_filename m d) (G.gcov_convert_to_gcda_null m d)
      (buffer_bytes o.big_endian (G.gcov_convert_to_gcda m buf d).1
        (G.gcov_convert_to_gcda_null m d)) ++
    stream o G m l (G.gcov_convert_to_gcda m buf d).1

/-- The scratch buffer after the descriptors `l` have been converted into it in turn. -/
def buf_after {μ : Type} (G : GcovGcc μ) (m : μ) : List Nat → (Nat → Nat) → (Nat → Nat)
  | [], buf => buf
  | d :: l, buf => buf_after G m l (G.gcov_convert_to_gcda m buf d).1

/-! ### The format serializer

The constants below are the macros of `gcov_gcc.h`. The descriptor type and the three
functions are declared there (`struct gcov_info` is opaque) and implemented in a source file
that is not among the embedded ones; they are modelled from the specification. -/

/-- The macro `GCOV_COUNTERS` as a function of `__GNUC__` and `__GNUC_MINOR__`. -/
def GCOV_COUNTERS (gnuc gnuc_minor : Nat) : Nat :=
  if gnuc ≥ 10 then 8
  else if gnuc ≥ 5 ∨ (gnuc = 4 ∧ gnuc_minor ≥ 9) then 9
  else 8

/-- The macro `GCOV_DATA_MAGIC`. -/
def GCOV_DATA_MAGIC : Nat := 0x67636461

/-- The macro `GCOV_TAG_FUNCTION`. -/
def GCOV_TAG_FUNCTION : Nat := 0x01000000

/-- The macro `GCOV_TAG_FUNCTION_LENGTH`. -/
def GCOV_TAG_FUNCTION_LENGTH : Nat := 3

/-- The macro `GCOV_TAG_COUNTER_BASE`. -/
def GCOV_TAG_COUNTER_BASE : Nat := 0x01a10000

/-- The macro `GCOV_TAG_COUNTER_LENGTH(NUM)`, `((NUM) * 2)`, for a count `NUM` of type
`gcov_unsigned_t`: the product is taken in 32-bit unsigned arithmetic. -/
def GCOV_TAG_COUNTER_LENGTH (NUM : Nat) : Nat := (NUM % 4294967296 * 2) % 4294967296

/-- The macro `GCOV_TAG_FOR_COUNTER(count)`,
`(GCOV_TAG_COUNTER_BASE + ((gcov_unsigned_t) (count) << 17))`, in 32-bit unsigned
arithmetic. -/
def GCOV_TAG_FOR_COUNTER (count : Nat) : Nat :=
  (GCOV_TAG_COUNTER_BASE + (count % 4294967296 * 2 ^ 17) % 4294967296) % 4294967296

/-- Modelled from the spec: the function record of a descriptor, which `gcov_gcc.h` leaves
opaque. It has three identifying words and, for each counter kind (the position in `ctrs` is
the kind index), either no counters (`none`, the kind is absent) or its array of 64-bit
counters. -/
structure gcov_fn_info where
  ident : Nat
  lineno_checksum : Nat
  cfg_checksum : Nat
  ctrs : List (Option (List Nat))
deriving DecidableEq, Repr

/-- Modelled from the spec: the coverage descriptor `struct gcov_info`, which `gcov_gcc.h`
leaves opaque: a display name and the function records. -/
structure gcov_info where
  filename : Option (List Nat)
  functions : List gcov_fn_info
deriving DecidableEq, Repr

/-- Modelled from the spec: one 32-bit word of the record. With a buffer the word is stored at
byte offset `pos`; without one nothing is stored. The byte offset advances by 4 either way. -/
def store_gcov_u32 (buffer : Option (Nat → Nat)) (pos : Nat) (v : Nat) :
    Option (Nat → Nat) × Nat :=
  (buffer.map (fun b => Function.update b (pos / 4) (v % 4294967296)), pos + 4)

/-- Modelled from the spec: one counter as a 64-bit value, two words of the record (the spec
does not fix their order; the low word is put first). -/
def store_gcov_u64 (buffer : Option (Nat → Nat)) (pos : Nat) (v : Nat) :
    Option (Nat → Nat) × Nat :=
  store_gcov_u32 (store_gcov_u32 buffer pos (v % 4294967296)).1
    (store_gcov_u32 buffer pos (v % 4294967296)).2 (v / 4294967296)

/-- Modelled from the spec: the counters of one block, each as a 64-bit value. -/
def convert_values : List Nat → Option (Nat → Nat) → Nat → Option (Nat → Nat) × Nat
  | [], buffer, pos => (buffer, pos)
  | v :: vs, buffer, pos =>
    convert_values vs (store_gcov_u64 buffer pos v).1 (store_gcov_u64 buffer pos v).2

/-- Modelled from the spec: the walk over the counter kinds of one function, from kind index
`ct_idx` on and below the counter-kind count `counters`: for each kind present a tag that
encodes the kind index, a length of twice the counter count, then the counters. -/
def convert_kinds (counters : Nat) :
    Nat → List (Option (List Nat)) → Option (Nat → Nat) → Nat → Option (Nat → Nat) × Nat
  | _, [], buffer, pos => (buffer, pos)
  | ct_idx, c :: cs, buffer, pos =>
    if ct_idx ≥ counters then (buffer, pos)
    else
      match c with
      | none => convert_kinds counters (ct_idx + 1) cs buffer pos
      | some values =>
        let r1 := store_gcov_u32 buffer pos (GCOV_TAG_FOR_COUNTER ct_idx)
        let r2 := store_gcov_u32 r1.1 r1.2 (GCOV_TAG_COUNTER_LENGTH values.length)
        let r3 := convert_values values r2.1 r2.2
        convert_kinds counters (ct_idx + 1) cs r3.1 r3.2

/-- Modelled from the spec: the walk over the functions: per function the function tag, the
fixed length of 3 words, the three identifying words, then the counter blocks. -/
def convert_functions (counters : Nat) :
    List gcov_fn_info → Option (Nat → Nat) → Nat → Option (Nat → Nat) × Nat
  | [], buffer, pos => (buffer, pos)
  | f :: fs, buffer, pos =>
    let r1 := store_gcov_u32 buffer pos GCOV_TAG_FUNCTION
    let r2 := store_gcov_u32 r1.1 r1.2 GCOV_TAG_FUNCTION_LENGTH
    let r3 := store_gcov_u32 r2.1 r2.2 f.ident
    let r4 := store_gcov_u32 r3.1 r3.2 f.lineno_checksum
    let r5 := store_gcov_u32 r4.1 r4.2 f.cfg_checksum
    let r6 := convert_kinds counters 0 f.ctrs r5.1 r5.2
    convert_functions counters fs r6.1 r6.2

/-- Modelled from the spec: `gcov_convert_to_gcda(buffer, info)`, declared in `gcov_gcc.h`
(the spec's `compute_size` with a NULL buffer, `fill` with a buffer): the magic header, then
the walk over functions, counter kinds and counters. Returns the buffer after the call and the
byte count. -/
def gcov_convert_to_gcda (counters : Nat) (buffer : Option (Nat → Nat)) (info : gcov_info) :
    Option (Nat → Nat) × Nat :=
  convert_functions counters info.functions
    (store_gcov_u32 buffer 0 GCOV_DATA_MAGIC).1 (store_gcov_u32 buffer 0 GCOV_DATA_MAGIC).2

/-- Modelled from the spec: the counter kinds of one function with every counter of the kinds
below `counters` set to zero, from kind index `ct_idx` on. -/
def clear_kinds (counters : Nat) : Nat → List (Option (List Nat)) → List (Option (List Nat))
  | _, [] => []
  | ct_idx, c :: cs =>
    if ct_idx ≥ counters then c :: cs
    else (c.map (fun values => values.map (fun _ => 0))) :: clear_kinds counters (ct_idx + 1) cs

/-- Modelled from the spec: `gcov_clear_counters(gi_ptr)`, declared in `gcov_gcc.h` (the
spec's `clear_counters`): the same walk, setting every counter to zero. -/
def gcov_clear_counters (counters : Nat) (gi : gcov_info) : gcov_info :=
  { gi with
    functions := gi.functions.map (fun f => { f with ctrs := clear_kinds counters 0 f.ctrs }) }

/-- Modelled from the spec: `gcov_info_filename(info)`, declared in `gcov_gcc.h` (the spec's
`display_name`). -/
def gcov_info_filename (info : gcov_info) : Option (List Nat) := info.filename

/-- The modelled functions of `gcov_gcc.h` over a descriptor memory that maps an address to
the descriptor stored there. -/
def gcov_gcc (counters : Nat) : GcovGcc (Nat → gcov_info) where
  gcov_info_filename := fun m a => gcov_info_filename (m a)
  gcov_convert_to_gcda_null := fun m a => (gcov_convert_to_gcda counters none (m a)).2
  gcov_convert_to_gcda := fun m buf a =>
    (((gcov_convert_to_gcda counters (some buf) (m a)).1).getD buf,
     (gcov_convert_to_gcda counters (some buf) (m a)).2)
  gcov_clear_counters := fun m a => Function.update m a (gcov_clear_counters counters (m a))

/-- The words of a record: what the walk of `gcov_convert_to_gcda` stores, in order. -/
def values_words : List Nat → List Nat
  | [] => []
  | v :: vs => (v % 4294967296) % 4294967296 :: (v / 4294967296) % 4294967296 :: values_words vs

/-- The words of the counter blocks of one function, from kind index `ct_idx` on. -/
def kinds_words (counters : Nat) : Nat → List (Option (List Nat)) → List Nat
  | _, [] => []
  | ct_idx, c :: cs =>
    if ct_idx ≥ counters then []
    else
      match c with
      | none => kinds_words counters (ct_idx + 1) cs
      | some values =>
        GCOV_TAG_FOR_COUNTER ct_idx % 4294967296 ::
          GCOV_TAG_COUNTER_LENGTH values.length % 4294967296 ::
          (values_words values ++ kinds_words counters (ct_idx + 1) cs)

/-- The words of the function blocks. -/
def functions_words (counters : Nat) : List gcov_fn_info → List Nat
  | [] => []
  | f :: fs =>
    [GCOV_TAG_FUNCTION % 4294967296, GCOV_TAG_FUNCTION_LENGTH % 4294967296,
     f.ident % 4294967296, f.lineno_checksum % 4294967296, f.cfg_checksum % 4294967296] ++
    kinds_words counters 0 f.ctrs ++ functions_words counters fs

/-- The words of the whole record of a descriptor. -/
def gcda_words (counters : Nat) (info : gcov_info) : List Nat :=
  GCOV_DATA_MAGIC % 4294967296 :: functions_words counters info.functions

/-- A buffer with the words `ws` stored from word index `start` on. -/
def write_words (b : Nat → Nat) : Nat → List Nat → (Nat → Nat)
  | _, [] => b
  | start, w :: ws => write_words (Function.update b start w) (start + 1) ws

/-- The loop of `__gcov_exit` run over the descriptors `l` themselves, for a registry whose
list reads `l`: what `gcov_exit_loop` computes once the pointers are followed. -/
def loop_on_list {μ : Type} (o : Options) (G : GcovGcc μ) (m : μ) :
    List Nat → (Nat → Nat) → Nat → LoopResult
  | [], buf, index => { buf := buf, index := index, events := [], finished := true }
  | info :: l, buf, index =>
    let bytesNeeded := G.gcov_convert_to_gcda_null m info % 4294967296
    if bytesNeeded > gcov_buf_bytes then
      { buf := buf, index := index
        events := [Event.gcov_convert_to_gcda false info], finished := false }
    else
      let buffer := (G.gcov_convert_to_gcda m buf info).1
      let out := emit_descriptor o (G.gcov_info_filename m info) bytesNeeded buffer index
      let r := loop_on_list o G m l buffer out.2
      { buf := r.buf, index := r.index
        events := [Event.gcov_convert_to_gcda false info,
                   Event.gcov_convert_to_gcda true info] ++ out.1 ++ r.events
        finished := r.finished }

/-- The run of `__gcov_exit` past the opening of the file, for a registry whose list reads
`l`: what `__gcov_exit` computes once the pointers are followed. -/
def exit_on_list {μ : Type} (o : Options) (G : GcovGcc μ) (l : List Nat) (s : State μ) :
    Result μ :=
  let index0 := if o.GCOV_OPT_OUTPUT_BINARY_MEMORY then 0 else s.gcov_output_index
  let status : List Event :=
    if o.GCOV_OPT_PRINT_STATUS then [print_lit "gcov_exit", print_lit "\n"] else []
  let opening : List Event :=
    if o.GCOV_OPT_OUTPUT_BINARY_FILE then [Event.GCOV_OPEN_FILE] else []
  let r := loop_on_list o G s.descriptors l s.gcov_buf index0
  if r.finished then
    { state := { s with gcov_buf := r.buf, gcov_output_index := (emit_end o r.index).2 }
      events := status ++ opening ++ r.events ++ (emit_end o r.index).1
      outcome := Outcome.returned }
  else
    { state := { s with gcov_buf := r.buf, gcov_output_index := r.index }
      events := status ++ opening ++ r.events ++ (out_of_memory o).1
      outcome := (out_of_memory o).2 }

/-- The pointer to the pool slot below slot `k`: NULL for slot 0. -/
def pool_ptr : Nat → Option Nat
  | 0 => none
  | k + 1 => some k

/-- The `info` fields of the pool slots `n-1, n-2, ..., 0`, in this order. -/
def pool_infos (pool : Nat → GcovInfo) : Nat → List Nat
  | 0 => []
  | k + 1 => (pool k).info :: pool_infos pool k

/-- The registry invariant of the fixed-pool build: the cursor is at most 100, the head points
to the slot below the cursor, and each slot below the cursor links to the slot below it. -/
def registry_inv {μ : Type} (s : State μ) : Prop :=
  s.gcov_GcovIndex ≤ gcov_GcovInfo_count ∧
  s.gcov_headGcov = pool_ptr s.gcov_GcovIndex ∧
  ∀ k, k < s.gcov_GcovIndex → (s.gcov_GcovInfo k).next = pool_ptr k

/-- Calls of `__gcov_init` on the descriptors `ds`, in order. -/
def gcov_init_calls {μ : Type} (o : Options) (G : GcovGcc μ) (ds : List Nat) :
    List (State μ → Result μ) :=
  ds.map (fun d => __gcov_init o G d)

/-- An example descriptor memory: at every address `a` a descriptor named `a.c` with one
function and one counter kind that holds the counts `a, 0, 5`. -/
def example_descriptors : Nat → gcov_info := fun a =>
  { filename := some (lit "a.c")
    functions := [{ ident := 7, lineno_checksum := 8, cfg_checksum := 9,
                    ctrs := [some [a, 0, 5]] }] }

/-- Example options: the memory-block sink alone, little-endian host, no stdlib. -/
def example_memory_only : Options :=
  { GCOV_OPT_USE_STDLIB := false, GCOV_OPT_PRINT_STATUS := false
    GCOV_OPT_OUTPUT_BINARY_FILE := false, GCOV_OPT_OUTPUT_BINARY_MEMORY := true
    GCOV_OPT_OUTPUT_SERIAL_HEXDUMP := false, big_endian := false }

/-- Example options: the file sink and the memory-block sink together, no stdlib. -/
def example_file_and_memory : Options :=
  { GCOV_OPT_USE_STDLIB := false, GCOV_OPT_PRINT_STATUS := false
    GCOV_OPT_OUTPUT_BINARY_FILE := true, GCOV_OPT_OUTPUT_BINARY_MEMORY := true
    GCOV_OPT_OUTPUT_SERIAL_HEXDUMP := false, big_endian := false }

/-- Example state: the descriptors at addresses 1 and 2 registered, in this order, from the
initial state. -/
def example_state : State (Nat → gcov_info) :=
  (run_calls (gcov_init_calls example_memory_only (gcov_gcc 8) [1, 2])
    (State.initial example_descriptors)).state

/-- Example state: a full pool, the descriptors at addresses 0 to 99 registered from the
initial state. -/
def example_full_state : State (Nat → gcov_info) :=
  (run_calls (gcov_init_calls example_memory_only (gcov_gcc 8) (List.range 100))
    (State.initial example_descriptors)).state

/-- The value `__gcov_exit` keeps in `u32 bytesNeeded` for the descriptor at `info`: the
result of the size-only call, converted to 32 bits. -/
def bytesNeeded {μ : Type} (G : GcovGcc μ) (m : μ) (info : Nat) : Nat :=
  G.gcov_convert_to_gcda_null m info % 4294967296

/-- The descriptors of `l` that come before the first one whose `bytesNeeded` exceeds the
scratch buffer. -/
def fitting_head {μ : Type} (G : GcovGcc μ) (m : μ) : List Nat → List Nat
  | [] => []
  | d :: l => if bytesNeeded G m d > gcov_buf_bytes then [] else d :: fitting_head G m l

/-- The bytes the loop of `__gcov_exit` sends to a binary sink for the descriptors `l`: the
name, length and record of each descriptor, up to the first one whose `bytesNeeded` exceeds
the scratch buffer. -/
def emitted {μ : Type} (o : Options) (G : GcovGcc μ) (m : μ) : List Nat → (Nat → Nat) → List Nat
  | [], _ => []
  | d :: l, buf =>
    if bytesNeeded G m d > gcov_buf_bytes then []
    else
      envelope (G.gcov_info_filename m d) (bytesNeeded G m d)
        (buffer_bytes o.big_endian (G.gcov_convert_to_gcda m buf d).1 (bytesNeeded G m d)) ++
      emitted o G m l (G.gcov_convert_to_gcda m buf d).1

/-- The serializer calls of the loop of `__gcov_exit` for the descriptors `l`: a size-only
call and a fill call for each descriptor, until a size-only call gives a `bytesNeeded` that
exceeds the scratch buffer. -/
def loop_calls {μ : Type} (G : GcovGcc μ) (m : μ) : List Nat → List (Bool × Nat)
  | [] => []
  | d :: l =>
    if bytesNeeded G m d > gcov_buf_bytes then [(false, d)]
    else (false, d) :: (true, d) :: loop_calls G m l

/-- A stand-in for the serializer at concrete inputs where only sizes matter: the size pass
returns the descriptor's address, the fill pass leaves the buffer as it is. -/
def address_sized : GcovGcc Unit where
  gcov_info_filename := fun _ _ => some (lit "u")
  gcov_convert_to_gcda_null := fun _ a => a
  gcov_convert_to_gcda := fun _ b a => (b, a)
  gcov_clear_counters := fun m _ => m

/-- Example state for `address_sized`: descriptors of sizes 40000 and 8 registered in this
order, so that the list reads 8, 40000. -/
def example_oversize_state : State Unit :=
  (run_calls (gcov_init_calls example_memory_only address_sized [40000, 8])
    (State.initial ())).state

/-- The loop `while (listptr)` of `__gcov_clear`: the descriptor memory after the calls of
`gcov_clear_counters` and the calls made; `none` when `fuel` iterations do not reach NULL. -/
def gcov_clear_loop {μ : Type} (G : GcovGcc μ) (pool : Nat → GcovInfo) :
    Nat → Option Nat → μ → Option (μ × List Event)
  | _, none, m => some (m, [])
  | 0, some _, _ => none
  | fuel + 1, some k, m =>
    (gcov_clear_loop G pool fuel (pool k).next (G.gcov_clear_counters m (pool k).info)).map
      (fun r => (r.1, Event.gcov_clear_counters (pool k).info :: r.2))

/-- Embedding of `__gcov_clear` (present when `GCOV_OPT_PROVIDE_CLEAR_COUNTERS` is defined).
`none` when the list is not exhausted within `fuel` iterations. -/
def __gcov_clear {μ : Type} (o : Options) (G : GcovGcc μ) (fuel : Nat) (s : State μ) :
    Option (Result μ) :=
  let status : List Event :=
    if o.GCOV_OPT_PRINT_STATUS then [print_lit "gcov_clear", print_lit "\n"] else []
  (gcov_clear_loop G s.gcov_GcovInfo fuel s.gcov_headGcov s.descriptors).map
    (fun r =>
      { state := { s with descriptors := r.1 }
        events := status ++ r.2
        outcome := Outcome.returned })

/-- The descriptor a `gcov_clear_counters` event is called on. -/
def clear_call_of : Event → Option Nat
  | Event.gcov_clear_counters i => some i
  | _ => none

/-- The calls of `gcov_clear_counters` among some events, in order. -/
def clear_calls (es : List Event) : List Nat := es.filterMap clear_call_of

/-- Whether an event is a line of the hex dump (an address or a data byte). -/
def is_hexdump : Event → Bool
  | Event.GCOV_PRINT_HEXDUMP_ADDR _ => true
  | Event.GCOV_PRINT_HEXDUMP_DATA _ => true
  | _ => false

/-- Every counter of the kinds below `counters` of a descriptor is zero. -/
def all_counters_zero (counters : Nat) (gi : gcov_info) : Prop :=
  ∀ f ∈ gi.functions, ∀ k, k < counters → ∀ vs, f.ctrs[k]? = some (some vs) → ∀ v ∈ vs, v = 0

/-! ### The text helper `gcov_printf.c`

Characters are bytes, natural numbers below 256. A routine that can divide by zero, read an
argument of the wrong kind or fail to end within the fuel returns a `Run`. -/

/-- How a run of a routine of `gcov_printf.c` ends. -/
inductive Run (α : Type) where
  | done (a : α)
  | div_by_zero
  | undefined
  | out_of_fuel
deriving DecidableEq, Repr

/-- The value of a 32-bit pattern read as `int`. -/
def to_int32 (x : Nat) : Int :=
  if x % 4294967296 < 2147483648 then ((x % 4294967296 : Nat) : Int)
  else ((x % 4294967296 : Nat) : Int) - 4294967296

/-- The character `dgt+(dgt<10 ? '0' : (uc ? 'A' : 'a')-10)` stored through `*bf++`. -/
def digit_char (dgt : Int) (uc : Int) : Nat :=
  ((dgt + (if dgt < 10 then 48 else (if uc ≠ 0 then 65 else 97) - 10)) % 256).toNat

/-- The loop `while (num/d >= base) d*=base;` of `gcov_ui2a` and `gcov_uli2a`, from the value
`d` on; `d` and `base` are `unsigned int`. -/
def a2_scale (num base : Nat) : Nat → Nat → Run Nat
  | 0, _ => Run.out_of_fuel
  | fuel + 1, d =>
    if d = 0 then Run.div_by_zero
    else if num / d ≥ base then a2_scale num base fuel (d * base % 4294967296)
    else Run.done d

/-- The loop `while (d!=0) { ... }` of `gcov_ui2a` and `gcov_uli2a`: the characters stored
through `*bf++`; `n` counts the characters stored so far. -/
def a2_digits (base : Nat) (uc : Int) : Nat → Nat → Nat → Nat → Run (List Nat)
  | 0, _, d, _ => if d = 0 then Run.done [] else Run.out_of_fuel
  | fuel + 1, num, d, n =>
    if d = 0 then Run.done []
    else if base = 0 then Run.div_by_zero
    else if n ≠ 0 ∨ to_int32 (num / d) > 0 ∨ d / base = 0 then
      match a2_digits base uc fuel (num % d) (d / base) (n + 1) with
      | Run.done cs => Run.done (digit_char (to_int32 (num / d)) uc :: cs)
      | e => e
    else a2_digits base uc fuel (num % d) (d / base) n

/-- The common body of `gcov_ui2a` and `gcov_uli2a` for a `num` already reduced to its type:
the bytes stored in `bf`, the terminating null included. -/
def a2_body (num base : Nat) (uc : Int) (fuel : Nat) : Run (List Nat) :=
  match a2_scale num (base % 4294967296) fuel 1 with
  | Run.done d =>
    match a2_digits (base % 4294967296) uc fuel num d 0 with
    | Run.done cs => Run.done (cs ++ [0])
    | e => e
  | Run.div_by_zero => Run.div_by_zero
  | Run.undefined => Run.undefined
  | Run.out_of_fuel => Run.out_of_fuel

/-- Embedding of `gcov_ui2a`: `num` is an `unsigned int`. Returns the bytes stored in `bf`. -/
def gcov_ui2a (num base : Nat) (uc : Int) (fuel : Nat) : Run (List Nat) :=
  a2_body (num % 4294967296) base uc fuel

/-- Embedding of `gcov_uli2a`: `num` is an `unsigned long int` of `long_bits` bits, while `d`
and `base` are `unsigned int`. Returns the bytes stored in `bf`. -/
def gcov_uli2a (long_bits : Nat) (num base : Nat) (uc : Int) (fuel : Nat) : Run (List Nat) :=
  a2_body (num % 2 ^ long_bits) base uc fuel

/-- A byte put in front of the bytes a run stores. -/
def Run.cons (c : Nat) : Run (List Nat) → Run (List Nat)
  | Run.done cs => Run.done (c :: cs)
  | e => e

/-- Embedding of `gcov_i2a`: `num` is the value of an `int`; the negation is taken modulo
2^32, as is the conversion to `unsigned int` of the call of `gcov_ui2a`. -/
def gcov_i2a (num : Int) (fuel : Nat) : Run (List Nat) :=
  if num < 0 then Run.cons 45 (gcov_ui2a ((-num) % 4294967296).toNat 10 0 fuel)
  else gcov_ui2a (num % 4294967296).toNat 10 0 fuel

/-- Embedding of `gcov_li2a`: `num` is the value of a `long` of `long_bits` bits. -/
def gcov_li2a (long_bits : Nat) (num : Int) (fuel : Nat) : Run (List Nat) :=
  if num < 0 then
    Run.cons 45 (gcov_uli2a long_bits ((-num) % (2 ^ long_bits : Nat)).toNat 10 0 fuel)
  else gcov_uli2a long_bits (num % (2 ^ long_bits : Nat)).toNat 10 0 fuel

/-- Embedding of `gcov_a2d`. -/
def gcov_a2d (ch : Nat) : Int :=
  if 48 ≤ ch ∧ ch ≤ 57 then (ch : Int) - 48
  else if 97 ≤ ch ∧ ch ≤ 102 then (ch : Int) - 97 + 10
  else if 65 ≤ ch ∧ ch ≤ 70 then (ch : Int) - 65 + 10
  else -1

/-- Embedding of `gcov_a2i` reading the string `src` from index `i` on: the character
returned, `*nump` and `*numc`. The arithmetic on `num` is that of `int`, taken modulo 2^32. -/
def gcov_a2i (src : List Nat) (base : Int) : Nat → Nat → Nat → Int → Nat → Run (Nat × Int × Nat)
  | 0, _, _, _, _ => Run.out_of_fuel
  | fuel + 1, ch, i, num, n =>
    if gcov_a2d ch ≥ 0 then
      if gcov_a2d ch > base then Run.done (ch, num, n)
      else
        gcov_a2i src base fuel (src.getD i 0 % 256) (i + 1)
          (to_int32 ((num * base + gcov_a2d ch) % 4294967296).toNat) (n + 1)
    else Run.done (ch, num, n)

/-- The first loop of `gcov_putchw`, `while (*p++ && n > 0) n--;`: the value of `n` left. -/
def putchw_skip : Int → List Nat → Int
  | n, [] => n
  | n, c :: cs => if c % 256 ≠ 0 ∧ n > 0 then putchw_skip (n - 1) cs else n

/-- Embedding of `gcov_putchw`: the bytes passed to `write_bytes`. -/
def gcov_putchw (n : Int) (z : Nat) (bf : List Nat) : List Nat :=
  List.replicate (putchw_skip n bf).toNat (if z % 256 ≠ 0 then 48 else 32) ++ cstr (some bf)

/-- An argument of `gcov_printf` after the format: an `int` or `unsigned int` (its 32 bits),
a `long` or `unsigned long` (its bits), or a `char *`. -/
inductive Arg where
  | int (v : Nat)
  | long (v : Nat)
  | str (p : Option (List Nat))
deriving DecidableEq, Repr

/-- What `gcov_format` has done: the bytes passed to `write_bytes` and the indices at which
the format was read, both in order. -/
structure Formatted where
  out : List Nat
  reads : List Nat
deriving DecidableEq, Repr

/-- The bytes of a run added in front of what follows. -/
def Run.emit (bytes : List Nat) (reads : List Nat) : Run Formatted → Run Formatted
  | Run.done r => Run.done { out := bytes ++ r.out, reads := reads ++ r.reads }
  | e => e

/-- The value of a pattern of `bits` bits read as a signed integer of that width. -/
def to_int_bits (bits : Nat) (x : Nat) : Int :=
  if x % 2 ^ bits < 2 ^ (bits - 1) then ((x % 2 ^ bits : Nat) : Int)
  else ((x % 2 ^ bits : Nat) : Int) - ((2 ^ bits : Nat) : Int)

/-- What `gcov_format` has read of a conversion specification after the '%': the flag `lz`,
the flag `lng`, the width `w`, the conversion character `ch`, the index `next` of the
character that follows it, and the indices read. -/
structure Conversion where
  lz : Nat
  lng : Nat
  w : Int
  ch : Nat
  next : Nat
  reads : List Nat
deriving DecidableEq, Repr

/-- The step `if (ch=='l') { ch=*(fmt++); lng=1; }` of `gcov_format`, with `i` the index of
the next character of the format. -/
def parse_long (fmt : List Nat) (lz : Nat) (w : Int) (ch : Nat) (i : Nat) (reads : List Nat) :
    Conversion :=
  if ch = 108 then
    { lz := lz, lng := 1, w := w, ch := fmt.getD i 0 % 256, next := i + 1, reads := reads ++ [i] }
  else { lz := lz, lng := 0, w := w, ch := ch, next := i, reads := reads }

/-- The part of the loop body of `gcov_format` from the '%' (read at index `i - 1`) to the
test `if(ch==0)`: the optional '0', the optional width read by `gcov_a2i`, the optional 'l'. -/
def parse_conversion (fmt : List Nat) (fuel : Nat) (i : Nat) : Run Conversion :=
  let ch1 := fmt.getD i 0 % 256
  let lz := if ch1 = 48 then 1 else 0
  let ch2 := if ch1 = 48 then fmt.getD (i + 1) 0 % 256 else ch1
  let i2 := if ch1 = 48 then i + 2 else i + 1
  let reads2 := if ch1 = 48 then [i, i + 1] else [i]
  if 48 ≤ ch2 ∧ ch2 ≤ 57 then
    match gcov_a2i fmt 10 fuel ch2 i2 0 0 with
    | Run.done (ch3, w, n) =>
      Run.done (parse_long fmt lz w ch3 (i2 + n)
        (reads2 ++ (List.range n).map (fun j => i2 + j)))
    | Run.div_by_zero => Run.div_by_zero
    | Run.undefined => Run.undefined
    | Run.out_of_fuel => Run.out_of_fuel
  else Run.done (parse_long fmt lz 0 ch2 i2 reads2)

/-- The bytes stored in `bf` padded and written by `gcov_putchw`, with the arguments left. -/
def put_number (w : Int) (lz : Nat) (rest : List Arg) : Run (List Nat) → Run (List Nat × List Arg)
  | Run.done bf => Run.done (gcov_putchw w lz bf, rest)
  | Run.div_by_zero => Run.div_by_zero
  | Run.undefined => Run.undefined
  | Run.out_of_fuel => Run.out_of_fuel

/-- The `switch (ch)` of `gcov_format`: the bytes written and the arguments left. An argument
that is missing or not of the kind `va_arg` asks for, and a NULL string, are undefined. -/
def convert (long_bits : Nat) (c : Conversion) (fuel : Nat) :
    List Arg → Run (List Nat × List Arg)
  | va =>
    if c.ch = 117 then
      if c.lng ≠ 0 then
        match va with
        | Arg.long v :: rest => put_number c.w c.lz rest (gcov_uli2a long_bits v 10 0 fuel)
        | _ => Run.undefined
      else
        match va with
        | Arg.int v :: rest => put_number c.w c.lz rest (gcov_ui2a v 10 0 fuel)
        | _ => Run.undefined
    else if c.ch = 100 then
      if c.lng ≠ 0 then
        match va with
        | Arg.long v :: rest =>
          put_number c.w c.lz rest (gcov_li2a long_bits (to_int_bits long_bits v) fuel)
        | _ => Run.undefined
      else
        match va with
        | Arg.int v :: rest => put_number c.w c.lz rest (gcov_i2a (to_int32 v) fuel)
        | _ => Run.undefined
    else if c.ch = 120 ∨ c.ch = 88 then
      if c.lng ≠ 0 then
        match va with
        | Arg.long v :: rest =>
          put_number c.w c.lz rest
            (gcov_uli2a long_bits v 16 (if c.ch = 88 then 1 else 0) fuel)
        | _ => Run.undefined
      else
        match va with
        | Arg.int v :: rest =>
          put_number c.w c.lz rest (gcov_ui2a v 16 (if c.ch = 88 then 1 else 0) fuel)
        | _ => Run.undefined
    else if c.ch = 99 then
      match va with
      | Arg.int v :: rest => Run.done ([v % 256], rest)
      | _ => Run.undefined
    else if c.ch = 115 then
      match va with
      | Arg.str (some p) :: rest => Run.done (gcov_putchw c.w 0 p, rest)
      | _ => Run.undefined
    else if c.ch = 37 then Run.done ([37], va)
    else Run.done ([], va)

/-- Embedding of `gcov_format`, reading the format from index `i` on. The format is the list
of its cells, the terminating null included; a cell beyond the list reads as 0 and its index
is recorded in `reads` like any other. -/
def gcov_format (long_bits : Nat) (fmt : List Nat) : Nat → Nat → List Arg → Run Formatted
  | 0, _, _ => Run.out_of_fuel
  | fuel + 1, i, va =>
    if fmt.getD i 0 % 256 = 0 then Run.done { out := [], reads := [i] }
    else if fmt.getD i 0 % 256 ≠ 37 then
      Run.emit [fmt.getD i 0 % 256] [i] (gcov_format long_bits fmt fuel (i + 1) va)
    else
      match parse_conversion fmt (fuel + 1) (i + 1) with
      | Run.done c =>
        if c.ch = 0 then Run.done { out := [], reads := [i] ++ c.reads ++ [c.next] }
        else
          match convert long_bits c (fuel + 1) va with
          | Run.done r =>
            Run.emit r.1 ([i] ++ c.reads) (gcov_format long_bits fmt fuel c.next r.2)
          | Run.div_by_zero => Run.div_by_zero
          | Run.undefined => Run.undefined
          | Run.out_of_fuel => Run.out_of_fuel
      | Run.div_by_zero => Run.div_by_zero
      | Run.undefined => Run.undefined
      | Run.out_of_fuel => Run.out_of_fuel

/-- The cells of a string literal used as a format: its characters and the null. -/
def c_string (s : String) : List Nat := lit s ++ [0]

/-- Embedding of `gcov_printf`: the bytes passed to `write_bytes`. -/
def gcov_printf (long_bits : Nat) (fuel : Nat) (fmt : List Nat) (va : List Arg) :
    Run (List Nat) :=
  match gcov_format long_bits fmt fuel 0 va with
  | Run.done r => Run.done r.out
  | Run.div_by_zero => Run.div_by_zero
  | Run.undefined => Run.undefined
  | Run.out_of_fuel => Run.out_of_fuel

/-- The text a text-output event prints with the macros shipped in `gcov_public.h`:
`GCOV_PRINT_STR(str)` is `gcov_printf("%s", str)`, `GCOV_PRINT_NUM(num)` is
`gcov_printf("%d", (num))`, `GCOV_PRINT_HEXDUMP_ADDR(num)` is `gcov_printf("%08x: ", (num))`
and `GCOV_PRINT_HEXDUMP_DATA(num)` is `gcov_printf("%02x ", (num))`. Other events print
nothing. -/
def render (long_bits : Nat) (fuel : Nat) : Event → Run (List Nat)
  | Event.GCOV_PRINT_STR str => gcov_printf long_bits fuel (c_string "%s") [Arg.str str]
  | Event.GCOV_PRINT_NUM num => gcov_printf long_bits fuel (c_string "%d") [Arg.int num]
  | Event.GCOV_PRINT_HEXDUMP_ADDR num =>
    gcov_printf long_bits fuel (c_string "%08x: ") [Arg.int num]
  | Event.GCOV_PRINT_HEXDUMP_DATA num =>
    gcov_printf long_bits fuel (c_string "%02x ") [Arg.int num]
  | _ => Run.done []

/-- The text some events print, one after the other. -/
def render_all (long_bits : Nat) (fuel : Nat) : List Event → Run (List Nat)
  | [] => Run.done []
  | e :: es =>
    match render long_bits fuel e with
    | Run.done a =>
      match render_all long_bits fuel es with
      | Run.done b => Run.done (a ++ b)
      | x => x
    | x => x

/-- The digits of `num` in base `b` at the `k` positions `b^(k-1), ..., b, 1`, most
significant first, by repeated division. -/
def msd_digits (b : Nat) : Nat → Nat → List Nat
  | 0, _ => []
  | k + 1, num => num / b ^ k :: msd_digits b k (num % b ^ k)

/-- The number a list of digits denotes in base `b`, most significant digit first. -/
def read_digits (b : Nat) (ds : List Nat) : Nat := ds.foldl (fun acc d => acc * b + d) 0

/-- A list of digits is the canonical base-`b` numeral of `n`: every digit is below `b`, the
list denotes `n`, it is the single digit 0 when `n` is 0 and has no leading zero otherwise. -/
def canonical_numeral (b n : Nat) (ds : List Nat) : Prop :=
  ds ≠ [] ∧ (∀ d ∈ ds, d < b) ∧ read_digits b ds = n ∧
  (n = 0 → ds = [0]) ∧ (n ≠ 0 → ds.head? ≠ some 0)

/-- The character for a digit value: '0' to '9', then 'a' to 'f', or 'A' to 'F' when `uc` is
not zero. -/
def digit_glyph (uc : Int) (d : Nat) : Nat :=
  if d < 10 then 48 + d else (if uc ≠ 0 then 65 else 97) + (d - 10)

/-- The `width` hexadecimal digits of `n`, lower case, most significant first: the digit at
position `j` from the left is `n / 16 ^ (width - 1 - j) % 16`. -/
def hex_field (width n : Nat) : List Nat :=
  (List.range width).map (fun j => digit_glyph 0 (n / 16 ^ (width - 1 - j) % 16))

/-- The text of the hex dump of a record and a name, as the specification words it: for each
byte in order, the offset as eight hexadecimal digits followed by ": " when the offset is a
multiple of 16, the byte as two hexadecimal digits followed by a space, a newline when the
offset is 15 modulo 16; after the last byte a newline, the name and a newline. -/
def hexdump_text (bytes : List Nat) (name : List Nat) : List Nat :=
  ((List.range bytes.length).flatMap (fun i =>
      (if i % 16 = 0 then hex_field 8 i ++ [58, 32] else []) ++
      (hex_field 2 (bytes.getD i 0) ++ [32]) ++
      (if i % 16 = 15 then [10] else []))) ++
  ([10] ++ name ++ [10])

/-- The text of one text-output event with the shipped macros, when its argument is in
range. -/
def text_of : Event → List Nat
  | Event.GCOV_PRINT_STR (some p) => cstr (some p)
  | Event.GCOV_PRINT_HEXDUMP_ADDR num => hex_field 8 num ++ [58, 32]
  | Event.GCOV_PRINT_HEXDUMP_DATA num => hex_field 2 num ++ [32]
  | _ => []

/-- The number an address event of the hex dump prints. -/
def hexdump_addr_of : Event → Option Nat
  | Event.GCOV_PRINT_HEXDUMP_ADDR num => some num
  | _ => none

/-- The number a data event of the hex dump prints. -/
def hexdump_data_of : Event → Option Nat
  | Event.GCOV_PRINT_HEXDUMP_DATA num => some num
  | _ => none

/-- Example options: the hex dump sink alone, little-endian host, no stdlib. -/
def example_hexdump : Options :=
  { GCOV_OPT_USE_STDLIB := false, GCOV_OPT_PRINT_STATUS := false
    GCOV_OPT_OUTPUT_BINARY_FILE := false, GCOV_OPT_OUTPUT_BINARY_MEMORY := false
    GCOV_OPT_OUTPUT_SERIAL_HEXDUMP := true, big_endian := false }

/-- Example scratch buffer: the magic word, then each word holds its own index. -/
def example_buffer : Nat → Nat := fun w => if w = 0 then GCOV_DATA_MAGIC else w

/-- Embedding of `__gcov_merge_add`; `counters` is the address of the counter array. Both
parameters are cast to `void` and not used. -/
def __gcov_merge_add {μ : Type} (o : Options) (counters : Nat) (n_counters : Nat)
    (s : State μ) : Result μ :=
  let _ := (counters, n_counters)
  { state := s
    events :=
      (if o.GCOV_OPT_PRINT_STATUS then
         [print_lit "__gcov_merge_add isn\x27t called, right? Right? RIGHT?"] else []) ++
      (if o.GCOV_OPT_USE_STDLIB then [Event.fflush_stdout, Event.exit_call 1] else [])
    outcome := if o.GCOV_OPT_USE_STDLIB then Outcome.exited else Outcome.returned }

/-- A step that changes the registry: a call of `__gcov_init` for a descriptor, or the
reinitialisation of the static variables with which `__gcov_call_constructors` starts. -/
inductive RegistryStep where
  | init (info : Nat)
  | reset
deriving DecidableEq, Repr

/-- The call that makes a registry step: `__gcov_init`, or `__gcov_call_constructors` up to
its first constructor (the constructors that follow are further `init` steps). -/
def registry_call {μ : Type} (o : Options) (G : GcovGcc μ) : RegistryStep → State μ → Result μ
  | RegistryStep.init info => __gcov_init o G info
  | RegistryStep.reset => __gcov_call_constructors []

/-- The state reached from `s` by a sequence of registry steps; a step is made only when the
one before has returned. -/
def registry_steps {μ : Type} (o : Options) (G : GcovGcc μ) (steps : List RegistryStep)
    (s : State μ) : State μ :=
  (run_calls (steps.map (registry_call o G)) s).state

/-- The pool slots met by following `next` from a list pointer until NULL, `none` when NULL
is not reached within `fuel` steps. -/
def registry_nodes (pool : Nat → GcovInfo) : Nat → Option Nat → Option (List Nat)
  | _, none => some []
  | 0, some _ => none
  | fuel + 1, some k => (registry_nodes pool fuel (pool k).next).map (fun l => k :: l)

/-- The number four bytes denote, most significant byte first. -/
def read_length (b3 b2 b1 b0 : Nat) : Nat := ((b3 * 256 + b2) * 256 + b1) * 256 + b0

/-- The decoder of the memory-block stream, as the specification words it: at a group
boundary it stops when the next nine bytes are the end marker; otherwise it reads a name up
to its null, four length bytes, most significant first, and that many record bytes, and goes
on at the next boundary. `none` when the bytes run out before a group is complete or when
`fuel` boundaries do not reach the marker. -/
def decode_stream : Nat → List Nat → Option (List (List Nat × List Nat))
  | 0, _ => none
  | fuel + 1, bytes =>
    if bytes.take 9 = gcov_end_marker then some []
    else
      match bytes.dropWhile (fun c => decide (c ≠ 0)) with
      | _ :: b3 :: b2 :: b1 :: b0 :: rest =>
        if read_length b3 b2 b1 b0 ≤ rest.length then
          (decode_stream fuel (rest.drop (read_length b3 b2 b1 b0))).map
            (fun groups =>
              (bytes.takeWhile (fun c => decide (c ≠ 0)),
               rest.take (read_length b3 b2 b1 b0)) :: groups)
        else none
      | _ => none

/-- The name and the record of each of the descriptors `l`, visited in this order from the
scratch buffer `buf` on: the name as the bytes up to its null, the record as the
`bytesNeeded` bytes of the scratch buffer after the fill call. -/
def records {μ : Type} (o : Options) (G : GcovGcc μ) (m : μ) :
    List Nat → (Nat → Nat) → List (List Nat × List Nat)
  | [], _ => []
  | d :: l, buf =>
    (cstr (G.gcov_info_filename m d),
     buffer_bytes o.big_endian (G.gcov_convert_to_gcda m buf d).1 (bytesNeeded G m d)) ::
    records o G m l (G.gcov_convert_to_gcda m buf d).1

/-! ## Theorems -/

section helpers

theorem registry_walk_length (pool : Nat → GcovInfo) :
    ∀ (n : Nat) (p : Option Nat) (l : List Nat), registry_walk pool n p = some l → l.length ≤ n := by
  intro n
  induction n with
  | zero =>
    intro p l h
    cases p with
    | none => simp [registry_walk] at h; subst h; simp
    | some k => simp [registry_walk] at h
  | succ n ih =>
    intro p l h
    cases p with
    | none => simp [registry_walk] at h; subst h; simp
    | some k =>
      simp only [registry_walk, Option.map_eq_some'] at h
      obtain ⟨l', hl', rfl⟩ := h
      have := ih _ _ hl'
      simp
      omega

theorem registry_walk_fuel (pool : Nat → GcovInfo) :
    ∀ (n : Nat) (p : Option Nat) (l : List Nat), registry_walk pool n p = some l →
      ∀ fuel, l.length ≤ fuel → registry_walk pool fuel p = some l := by
  intro n
  induction n with
  | zero =>
    intro p l h fuel _
    cases p with
    | none => simp [registry_walk] at h; subst h; cases fuel <;> simp [registry_walk]
    | some k => simp [registry_walk] at h
  | succ n ih =>
    intro p l h fuel hf
    cases p with
    | none => simp [registry_walk] at h; subst h; cases fuel <;> simp [registry_walk]
    | some k =>
      simp only [registry_walk, Option.map_eq_some'] at h
      obtain ⟨l', hl', rfl⟩ := h
      cases fuel with
      | zero => simp at hf
      | succ fuel =>
        simp only [List.length_cons, Nat.add_le_add_iff_right] at hf
        simp [registry_walk, ih _ _ hl' fuel hf]

theorem gcov_exit_loop_eq {μ : Type} (o : Options) (G : GcovGcc μ) (m : μ)
    (pool : Nat → GcovInfo) :
    ∀ (n : Nat) (p : Option Nat) (l : List Nat), registry_walk pool n p = some l →
      ∀ (fuel : Nat) (buf : Nat → Nat) (index : Nat), l.length ≤ fuel →
        gcov_exit_loop o G m pool fuel p buf index = some (loop_on_list o G m l buf index) := by
  intro n
  induction n with
  | zero =>
    intro p l h fuel buf index _
    cases p with
    | none =>
      simp [registry_walk] at h; subst h
      cases fuel <;> simp [gcov_exit_loop, loop_on_list]
    | some k => simp [registry_walk] at h
  | succ n ih =>
    intro p l h fuel buf index hf
    cases p with
    | none =>
      simp [registry_walk] at h; subst h
      cases fuel <;> simp [gcov_exit_loop, loop_on_list]
    | some k =>
      simp only [registry_walk, Option.map_eq_some'] at h
      obtain ⟨l', hl', rfl⟩ := h
      cases fuel with
      | zero => simp at hf
      | succ fuel =>
        simp only [List.length_cons, Nat.add_le_add_iff_right] at hf
        simp only [gcov_exit_loop, loop_on_list]
        split
        · rfl
        · rw [ih _ _ hl' fuel _ _ hf]

theorem hexdump_is_text (be : Bool) (buffer : Nat → Nat) (n : Nat) (name : Option (List Nat)) :
    ∀ e ∈ hexdump be buffer n name, is_text e = true := by
  intro e he
  simp only [hexdump, List.mem_append, List.mem_flatMap, List.mem_range] at he
  rcases he with ⟨i, _, hi⟩ | he
  · rcases hi with (hi | hi) | hi
    · split at hi
      · simp at hi; subst hi; rfl
      · simp at hi
    · simp at hi; subst hi; rfl
    · split at hi
      · simp at hi; subst hi; rfl
      · simp at hi
  · simp at he
    rcases he with rfl | rfl | rfl <;> rfl

theorem filterMap_text_nil {β : Type} (g : Event → Option β)
    (hg : ∀ e, is_text e = true → g e = none) (es : List Event)
    (h : ∀ e ∈ es, is_text e = true) : es.filterMap g = [] := by
  rw [List.filterMap_eq_nil_iff]
  intro e he
  exact hg e (h e he)

theorem store_of_text (e : Event) (h : is_text e = true) : store_of e = none := by
  cases e <;> simp_all [is_text, store_of]

theorem file_byte_of_text (e : Event) (h : is_text e = true) : file_byte_of e = none := by
  cases e <;> simp_all [is_text, file_byte_of]

theorem convert_call_of_text (e : Event) (h : is_text e = true) : convert_call_of e = none := by
  cases e <;> simp_all [is_text, convert_call_of]

theorem stores_append (a b : List Event) : stores (a ++ b) = stores a ++ stores b := by
  simp [stores]

theorem file_bytes_append (a b : List Event) : file_bytes (a ++ b) = file_bytes a ++ file_bytes b := by
  simp [file_bytes]

theorem convert_calls_append (a b : List Event) :
    convert_calls (a ++ b) = convert_calls a ++ convert_calls b := by
  simp [convert_calls]

theorem stores_hexdump (be : Bool) (buffer : Nat → Nat) (n : Nat) (name : Option (List Nat)) :
    stores (hexdump be buffer n name) = [] :=
  filterMap_text_nil _ store_of_text _ (hexdump_is_text be buffer n name)

theorem file_bytes_hexdump (be : Bool) (buffer : Nat → Nat) (n : Nat) (name : Option (List Nat)) :
    file_bytes (hexdump be buffer n name) = [] :=
  filterMap_text_nil _ file_byte_of_text _ (hexdump_is_text be buffer n name)

theorem convert_calls_hexdump (be : Bool) (buffer : Nat → Nat) (n : Nat)
    (name : Option (List Nat)) : convert_calls (hexdump be buffer n name) = [] :=
  filterMap_text_nil _ convert_call_of_text _ (hexdump_is_text be buffer n name)

theorem stores_write (bs : List Nat) : stores (bs.map Event.GCOV_WRITE_BYTE) = [] := by
  induction bs with
  | nil => rfl
  | cons b bs ih => simp [stores, store_of]

theorem file_bytes_write (bs : List Nat) : file_bytes (bs.map Event.GCOV_WRITE_BYTE) = bs := by
  induction bs with
  | nil => rfl
  | cons b bs ih => simpa [file_bytes, file_byte_of] using ih

theorem convert_calls_write (bs : List Nat) :
    convert_calls (bs.map Event.GCOV_WRITE_BYTE) = [] := by
  induction bs with
  | nil => rfl
  | cons b bs ih => simp [convert_calls, convert_call_of]

theorem stores_store_bytes : ∀ (bs : List Nat) (index : Nat),
    stores (store_bytes index bs).1 = at_offsets index bs := by
  intro bs
  induction bs with
  | nil => intro index; rfl
  | cons b bs ih =>
    intro index
    have := ih ((index + 1) % 4294967296)
    simp only [stores] at this
    simp only [store_bytes, stores, List.filterMap_cons, store_of, at_offsets, this]

theorem file_bytes_store_bytes : ∀ (bs : List Nat) (index : Nat),
    file_bytes (store_bytes index bs).1 = [] := by
  intro bs
  induction bs with
  | nil => intro index; rfl
  | cons b bs ih =>
    intro index
    have := ih ((index + 1) % 4294967296)
    simp only [file_bytes] at this
    simp only [store_bytes, file_bytes, List.filterMap_cons, file_byte_of, this]

theorem convert_calls_store_bytes : ∀ (bs : List Nat) (index : Nat),
    convert_calls (store_bytes index bs).1 = [] := by
  intro bs
  induction bs with
  | nil => intro index; rfl
  | cons b bs ih =>
    intro index
    have := ih ((index + 1) % 4294967296)
    simp only [convert_calls] at this
    simp only [store_bytes, convert_calls, List.filterMap_cons, convert_call_of, this]

theorem store_bytes_index : ∀ (bs : List Nat) (index : Nat), index < 4294967296 →
    (store_bytes index bs).2 = (index + bs.length) % 4294967296 := by
  intro bs
  induction bs with
  | nil => intro index h; simp only [store_bytes, List.length_nil]; omega
  | cons b bs ih =>
    intro index _
    simp only [store_bytes, List.length_cons]
    rw [ih _ (Nat.mod_lt _ (by norm_num))]
    omega

theorem store_bytes_index_lt (bs : List Nat) (index : Nat) (h : index < 4294967296) :
    (store_bytes index bs).2 < 4294967296 := by
  rw [store_bytes_index bs index h]
  exact Nat.mod_lt _ (by norm_num)

theorem at_offsets_append : ∀ (a b : List Nat) (start : Nat), start < 4294967296 →
    at_offsets start (a ++ b) = at_offsets start a ++ at_offsets ((start + a.length) % 4294967296) b := by
  intro a
  induction a with
  | nil =>
    intro b start h
    simp only [List.nil_append, at_offsets, List.length_nil, Nat.add_zero, Nat.mod_eq_of_lt h]
  | cons x a ih =>
    intro b start _
    have e : ((start + 1) % 4294967296 + a.length) % 4294967296
        = (start + (a.length + 1)) % 4294967296 := by omega
    simp only [List.cons_append, at_offsets, List.length_cons]
    have := ih b _ (Nat.mod_lt (start + 1) (by norm_num : 0 < 4294967296))
    rw [e] at this
    exact congrArg _ this

theorem stores_emit_descriptor (o : Options) (name : Option (List Nat)) (n : Nat)
    (buffer : Nat → Nat) (index : Nat) :
    stores (emit_descriptor o name n buffer index).1 =
      if o.GCOV_OPT_OUTPUT_BINARY_MEMORY then
        at_offsets index (envelope name n (buffer_bytes o.big_endian buffer n))
      else [] := by
  simp only [emit_descriptor, stores_append]
  have h1 : ∀ (c : Bool), stores (if c then
      [print_lit "Emitting ", Event.GCOV_PRINT_NUM n, print_lit " bytes for ",
       Event.GCOV_PRINT_STR name, print_lit "\n"] else []) = [] := by
    intro c; cases c <;> simp [stores, store_of, print_lit]
  have h2 : ∀ (c : Bool) (bs : List Nat),
      stores (if c then bs.map Event.GCOV_WRITE_BYTE else []) = [] := by
    intro c bs; cases c
    · simp [stores]
    · simpa using stores_write bs
  have h3 : ∀ (c : Bool), stores (if c then hexdump o.big_endian buffer n name else []) = [] := by
    intro c; cases c
    · simp [stores]
    · simpa using stores_hexdump _ _ _ _
  rw [h1, h2, h3]
  cases o.GCOV_OPT_OUTPUT_BINARY_MEMORY
  · simp [stores]
  · simp [stores_store_bytes]

theorem file_bytes_emit_descriptor (o : Options) (name : Option (List Nat)) (n : Nat)
    (buffer : Nat → Nat) (index : Nat) :
    file_bytes (emit_descriptor o name n buffer index).1 =
      if o.GCOV_OPT_OUTPUT_BINARY_FILE then
        envelope name n (buffer_bytes o.big_endian buffer n)
      else [] := by
  simp only [emit_descriptor, file_bytes_append]
  have h1 : ∀ (c : Bool), file_bytes (if c then
      [print_lit "Emitting ", Event.GCOV_PRINT_NUM n, print_lit " bytes for ",
       Event.GCOV_PRINT_STR name, print_lit "\n"] else []) = [] := by
    intro c; cases c <;> simp [file_bytes, file_byte_of, print_lit]
  have h2 : ∀ (c : Bool) (bs : List Nat),
      file_bytes (if c then (store_bytes index bs) else ([], index)).1 = [] := by
    intro c bs; cases c
    · simp [file_bytes]
    · simpa using file_bytes_store_bytes bs index
  have h3 : ∀ (c : Bool),
      file_bytes (if c then hexdump o.big_endian buffer n name else []) = [] := by
    intro c; cases c
    · simp [file_bytes]
    · simpa using file_bytes_hexdump _ _ _ _
  rw [h1, h2, h3]
  cases o.GCOV_OPT_OUTPUT_BINARY_FILE
  · simp [file_bytes]
  · simp [file_bytes_write]

theorem convert_calls_emit_descriptor (o : Options) (name : Option (List Nat)) (n : Nat)
    (buffer : Nat → Nat) (index : Nat) :
    convert_calls (emit_descriptor o name n buffer index).1 = [] := by
  simp only [emit_descriptor, convert_calls_append]
  have h1 : ∀ (c : Bool), convert_calls (if c then
      [print_lit "Emitting ", Event.GCOV_PRINT_NUM n, print_lit " bytes for ",
       Event.GCOV_PRINT_STR name, print_lit "\n"] else []) = [] := by
    intro c; cases c <;> simp [convert_calls, convert_call_of, print_lit]
  have h2 : ∀ (c : Bool) (bs : List Nat),
      convert_calls (if c then (store_bytes index bs) else ([], index)).1 = [] := by
    intro c bs; cases c
    · simp [convert_calls]
    · simpa using convert_calls_store_bytes bs index
  have h3 : ∀ (c : Bool),
      convert_calls (if c then hexdump o.big_endian buffer n name else []) = [] := by
    intro c; cases c
    · simp [convert_calls]
    · simpa using convert_calls_hexdump _ _ _ _
  have h4 : ∀ (c : Bool) (bs : List Nat),
      convert_calls (if c then bs.map Event.GCOV_WRITE_BYTE else []) = [] := by
    intro c bs; cases c
    · simp [convert_calls]
    · simpa using convert_calls_write bs
  rw [h1, h2, h3, h4]
  rfl

theorem emit_descriptor_index (o : Options) (name : Option (List Nat)) (n : Nat)
    (buffer : Nat → Nat) (index : Nat)
    (h : o.GCOV_OPT_OUTPUT_BINARY_MEMORY = true → index < 4294967296) :
    (emit_descriptor o name n buffer index).2 =
      if o.GCOV_OPT_OUTPUT_BINARY_MEMORY then
        (index + (envelope name n (buffer_bytes o.big_endian buffer n)).length) % 4294967296
      else index := by
  simp only [emit_descriptor]
  by_cases hm : o.GCOV_OPT_OUTPUT_BINARY_MEMORY = true
  · simp only [hm, if_true, store_bytes_index _ _ (h hm)]
  · simp [hm]

theorem emit_descriptor_index_lt (o : Options) (name : Option (List Nat)) (n : Nat)
    (buffer : Nat → Nat) (index : Nat)
    (h : o.GCOV_OPT_OUTPUT_BINARY_MEMORY = true → index < 4294967296) :
    o.GCOV_OPT_OUTPUT_BINARY_MEMORY = true →
      (emit_descriptor o name n buffer index).2 < 4294967296 := by
  intro hm
  rw [emit_descriptor_index o name n buffer index h]
  simp only [hm, if_true]
  exact Nat.mod_lt _ (by norm_num)

theorem loop_on_list_fits {μ : Type} (o : Options) (G : GcovGcc μ) (m : μ) :
    ∀ (l : List Nat) (buf : Nat → Nat) (index : Nat),
      (∀ d ∈ l, G.gcov_convert_to_gcda_null m d ≤ gcov_buf_bytes) →
      (o.GCOV_OPT_OUTPUT_BINARY_MEMORY = true → index < 4294967296) →
      (loop_on_list o G m l buf index).finished = true ∧
      (loop_on_list o G m l buf index).buf = buf_after G m l buf ∧
      convert_calls (loop_on_list o G m l buf index).events
        = l.flatMap (fun d => [(false, d), (true, d)]) ∧
      stores (loop_on_list o G m l buf index).events
        = (if o.GCOV_OPT_OUTPUT_BINARY_MEMORY then at_offsets index (stream o G m l buf)
           else []) ∧
      (loop_on_list o G m l buf index).index
        = (if o.GCOV_OPT_OUTPUT_BINARY_MEMORY then
             (index + (stream o G m l buf).length) % 4294967296
           else index) ∧
      file_bytes (loop_on_list o G m l buf index).events
        = (if o.GCOV_OPT_OUTPUT_BINARY_FILE then stream o G m l buf else []) := by
  intro l
  induction l with
  | nil =>
    intro buf index _ hi
    simp only [loop_on_list, buf_after, stream, at_offsets, List.length_nil, Nat.add_zero,
      List.flatMap_nil, ite_self]
    refine ⟨trivial, trivial, by simp [convert_calls], by simp [stores], ?_, by simp [file_bytes]⟩
    by_cases hm : o.GCOV_OPT_OUTPUT_BINARY_MEMORY = true
    · simp only [hm, if_true, Nat.mod_eq_of_lt (hi hm)]
    · simp [hm]
  | cons d l ih =>
    intro buf index hfit hi
    have hd : G.gcov_convert_to_gcda_null m d ≤ gcov_buf_bytes := hfit d (List.mem_cons_self _ _)
    have hd' : G.gcov_convert_to_gcda_null m d % 4294967296 = G.gcov_convert_to_gcda_null m d := by
      apply Nat.mod_eq_of_lt
      have : gcov_buf_bytes = 32768 := rfl
      omega
    have hl : ∀ d ∈ l, G.gcov_convert_to_gcda_null m d ≤ gcov_buf_bytes :=
      fun x hx => hfit x (List.mem_cons_of_mem _ hx)
    have hnot : ¬ (G.gcov_convert_to_gcda_null m d > gcov_buf_bytes) := by omega
    simp only [loop_on_list, hd', hnot, if_false]
    have hi' := emit_descriptor_index_lt o (G.gcov_info_filename m d)
      (G.gcov_convert_to_gcda_null m d) (G.gcov_convert_to_gcda m buf d).1 index hi
    obtain ⟨h1, h2, h3, h4, h5, h6⟩ := ih (G.gcov_convert_to_gcda m buf d).1
      (emit_descriptor o (G.gcov_info_filename m d) (G.gcov_convert_to_gcda_null m d)
        (G.gcov_convert_to_gcda m buf d).1 index).2 hl hi'
    refine ⟨h1, h2, ?_, ?_, ?_, ?_⟩
    · rw [convert_calls_append, convert_calls_append, h3, convert_calls_emit_descriptor]
      simp [convert_calls, convert_call_of]
    · rw [stores_append, stores_append, h4, stores_emit_descriptor,
        emit_descriptor_index _ _ _ _ _ hi]
      by_cases hm : o.GCOV_OPT_OUTPUT_BINARY_MEMORY = true
      · simp only [hm, if_true, stream]
        rw [at_offsets_append _ _ _ (hi hm)]
        simp [stores, store_of]
      · simp [hm, stores, store_of]
    · rw [h5, emit_descriptor_index _ _ _ _ _ hi]
      by_cases hm : o.GCOV_OPT_OUTPUT_BINARY_MEMORY = true
      · simp only [hm, if_true, stream, List.length_append]
        omega
      · simp [hm]
    · rw [file_bytes_append, file_bytes_append, h6, file_bytes_emit_descriptor]
      cases o.GCOV_OPT_OUTPUT_BINARY_FILE
      · simp [file_bytes, file_byte_of]
      · simp [file_bytes, file_byte_of, stream]

theorem write_words_append (ws vs : List Nat) :
    ∀ (b : Nat → Nat) (start : Nat),
      write_words b start (ws ++ vs) = write_words (write_words b start ws) (start + ws.length) vs := by
  induction ws with
  | nil => intro b start; simp [write_words]
  | cons w ws ih =>
    intro b start
    have e : start + 1 + ws.length = start + (ws.length + 1) := by omega
    have := ih (Function.update b start w) (start + 1)
    rw [e] at this
    simpa only [List.cons_append, write_words, List.length_cons] using this

theorem write_words_outside (ws : List Nat) :
    ∀ (b : Nat → Nat) (start i : Nat), (i < start ∨ start + ws.length ≤ i) →
      write_words b start ws i = b i := by
  induction ws with
  | nil => intro b start i _; rfl
  | cons w ws ih =>
    intro b start i h
    simp only [write_words]
    simp only [List.length_cons] at h
    rw [ih _ _ _ (by omega)]
    have : i ≠ start := by omega
    simp [Function.update, this]

theorem write_words_inside (ws : List Nat) :
    ∀ (b : Nat → Nat) (start i : Nat), start ≤ i → i < start + ws.length →
      write_words b start ws i = ws.getD (i - start) 0 := by
  induction ws with
  | nil => intro b start i h1 h2; simp at h2; omega
  | cons w ws ih =>
    intro b start i h1 h2
    simp only [write_words]
    simp only [List.length_cons] at h2
    by_cases hi : i = start
    · subst hi
      rw [write_words_outside _ _ _ _ (by omega)]
      simp
    · rw [ih _ _ _ (by omega) (by omega)]
      have : i - start = (i - (start + 1)) + 1 := by omega
      rw [this]
      simp

theorem store_gcov_u32_words (buffer : Option (Nat → Nat)) (pos v : Nat) :
    store_gcov_u32 buffer pos v
      = (buffer.map (fun b => write_words b (pos / 4) [v % 4294967296]), pos + 4 * 1) := by
  cases buffer <;> simp [store_gcov_u32, write_words]

theorem words_then (W1 W2 : Option (Nat → Nat) → Nat → Option (Nat → Nat) × Nat)
    (ws1 ws2 : List Nat)
    (h1 : ∀ buffer pos, pos % 4 = 0 → W1 buffer pos
      = (buffer.map (fun b => write_words b (pos / 4) ws1), pos + 4 * ws1.length))
    (h2 : ∀ buffer pos, pos % 4 = 0 → W2 buffer pos
      = (buffer.map (fun b => write_words b (pos / 4) ws2), pos + 4 * ws2.length))
    (buffer : Option (Nat → Nat)) (pos : Nat) (hp : pos % 4 = 0) :
    W2 (W1 buffer pos).1 (W1 buffer pos).2
      = (buffer.map (fun b => write_words b (pos / 4) (ws1 ++ ws2)),
         pos + 4 * (ws1 ++ ws2).length) := by
  rw [h1 buffer pos hp]
  simp only
  rw [h2 _ _ (by omega)]
  have e : (pos + 4 * ws1.length) / 4 = pos / 4 + ws1.length := by omega
  rw [e]
  cases buffer with
  | none => simp; omega
  | some b => simp [write_words_append]; omega

theorem store_gcov_u64_words (buffer : Option (Nat → Nat)) (pos v : Nat) (hp : pos % 4 = 0) :
    store_gcov_u64 buffer pos v
      = (buffer.map (fun b => write_words b (pos / 4)
          [(v % 4294967296) % 4294967296, (v / 4294967296) % 4294967296]), pos + 4 * 2) := by
  have := words_then (fun b p => store_gcov_u32 b p (v % 4294967296))
    (fun b p => store_gcov_u32 b p (v / 4294967296))
    [(v % 4294967296) % 4294967296] [(v / 4294967296) % 4294967296]
    (fun b p _ => store_gcov_u32_words b p _) (fun b p _ => store_gcov_u32_words b p _)
    buffer pos hp
  simpa [store_gcov_u64] using this

theorem convert_values_words (vs : List Nat) :
    ∀ (buffer : Option (Nat → Nat)) (pos : Nat), pos % 4 = 0 →
      convert_values vs buffer pos
        = (buffer.map (fun b => write_words b (pos / 4) (values_words vs)),
           pos + 4 * (values_words vs).length) := by
  induction vs with
  | nil => intro buffer pos _; cases buffer <;> simp [convert_values, values_words, write_words]
  | cons v vs ih =>
    intro buffer pos hp
    have := words_then (fun b p => store_gcov_u64 b p v) (convert_values vs)
      [(v % 4294967296) % 4294967296, (v / 4294967296) % 4294967296]
      (values_words vs)
      (fun b p h => store_gcov_u64_words b p v h) ih buffer pos hp
    simpa [convert_values, values_words] using this

theorem convert_kinds_words (counters : Nat) (cs : List (Option (List Nat))) :
    ∀ (ct_idx : Nat) (buffer : Option (Nat → Nat)) (pos : Nat), pos % 4 = 0 →
      convert_kinds counters ct_idx cs buffer pos
        = (buffer.map (fun b => write_words b (pos / 4) (kinds_words counters ct_idx cs)),
           pos + 4 * (kinds_words counters ct_idx cs).length) := by
  induction cs with
  | nil =>
    intro ct_idx buffer pos _
    cases buffer <;> simp [convert_kinds, kinds_words, write_words]
  | cons c cs ih =>
    intro ct_idx buffer pos hp
    by_cases hc : ct_idx ≥ counters
    · cases buffer <;> simp [convert_kinds, kinds_words, write_words, hc]
    · cases c with
      | none =>
        simp only [convert_kinds, kinds_words, hc, if_false]
        exact ih _ _ _ hp
      | some values =>
        have a1 := words_then
          (fun b p => store_gcov_u32 b p (GCOV_TAG_FOR_COUNTER ct_idx))
          (fun b p => store_gcov_u32 b p (GCOV_TAG_COUNTER_LENGTH values.length)) _ _
          (fun b p _ => store_gcov_u32_words b p _) (fun b p _ => store_gcov_u32_words b p _)
        have a2 := words_then
          (fun b p => store_gcov_u32
            (store_gcov_u32 b p (GCOV_TAG_FOR_COUNTER ct_idx)).1
            (store_gcov_u32 b p (GCOV_TAG_FOR_COUNTER ct_idx)).2
            (GCOV_TAG_COUNTER_LENGTH values.length))
          (convert_values values) _ _ a1 (convert_values_words values)
        have a3 := words_then _ (convert_kinds counters (ct_idx + 1) cs) _ _ a2
          (ih (ct_idx + 1)) buffer pos hp
        simpa [convert_kinds, kinds_words, hc] using a3

theorem convert_functions_words (counters : Nat) (fs : List gcov_fn_info) :
    ∀ (buffer : Option (Nat → Nat)) (pos : Nat), pos % 4 = 0 →
      convert_functions counters fs buffer pos
        = (buffer.map (fun b => write_words b (pos / 4) (functions_words counters fs)),
           pos + 4 * (functions_words counters fs).length) := by
  induction fs with
  | nil =>
    intro buffer pos _
    cases buffer <;> simp [convert_functions, functions_words, write_words]
  | cons f fs ih =>
    intro buffer pos hp
    have a1 := words_then
      (fun b p => store_gcov_u32 b p GCOV_TAG_FUNCTION)
      (fun b p => store_gcov_u32 b p GCOV_TAG_FUNCTION_LENGTH) _ _
      (fun b p _ => store_gcov_u32_words b p _) (fun b p _ => store_gcov_u32_words b p _)
    have a2 := words_then _ (fun b p => store_gcov_u32 b p f.ident) _ _ a1
      (fun b p _ => store_gcov_u32_words b p _)
    have a3 := words_then _ (fun b p => store_gcov_u32 b p f.lineno_checksum) _ _ a2
      (fun b p _ => store_gcov_u32_words b p _)
    have a4 := words_then _ (fun b p => store_gcov_u32 b p f.cfg_checksum) _ _ a3
      (fun b p _ => store_gcov_u32_words b p _)
    have a5 := words_then _ (convert_kinds counters 0 f.ctrs) _ _ a4
      (convert_kinds_words counters f.ctrs 0)
    have a6 := words_then _ (convert_functions counters fs) _ _ a5 ih buffer pos hp
    simpa [convert_functions, functions_words] using a6

theorem gcov_convert_to_gcda_words (counters : Nat) (buffer : Option (Nat → Nat))
    (info : gcov_info) :
    gcov_convert_to_gcda counters buffer info
      = (buffer.map (fun b => write_words b 0 (gcda_words counters info)),
         4 * (gcda_words counters info).length) := by
  have a := words_then (fun b p => store_gcov_u32 b p GCOV_DATA_MAGIC)
    (convert_functions counters info.functions) _ _
    (fun b p _ => store_gcov_u32_words b p _) (convert_functions_words counters info.functions)
    buffer 0 rfl
  simpa [gcov_convert_to_gcda, gcda_words] using a

theorem gcov_exit_eq {μ : Type} (o : Options) (G : GcovGcc μ) (open_ok : Bool) (s : State μ)
    (n : Nat) (l : List Nat)
    (hopen : o.GCOV_OPT_OUTPUT_BINARY_FILE = false ∨ open_ok = true)
    (hl : registry_walk s.gcov_GcovInfo n s.gcov_headGcov = some l)
    (fuel : Nat) (hf : l.length ≤ fuel) :
    __gcov_exit o G open_ok fuel s = some (exit_on_list o G l s) := by
  have hc : (o.GCOV_OPT_OUTPUT_BINARY_FILE && !open_ok) = false := by
    rcases hopen with h | h <;> simp [h]
  simp only [__gcov_exit, hc, exit_on_list]
  rw [gcov_exit_loop_eq o G s.descriptors s.gcov_GcovInfo n _ l hl fuel _ _ hf]
  simp only [Bool.false_eq_true, if_false]
  exact (apply_ite some _ _ _).symm

theorem stores_status (c : Bool) (a b : String) :
    stores (if c then [print_lit a, print_lit b] else []) = [] := by
  cases c <;> simp [stores, store_of, print_lit]

theorem file_bytes_status (c : Bool) (a b : String) :
    file_bytes (if c then [print_lit a, print_lit b] else []) = [] := by
  cases c <;> simp [file_bytes, file_byte_of, print_lit]

theorem convert_calls_status (c : Bool) (a b : String) :
    convert_calls (if c then [print_lit a, print_lit b] else []) = [] := by
  cases c <;> simp [convert_calls, convert_call_of, print_lit]

theorem stores_opening (c : Bool) : stores (if c then [Event.GCOV_OPEN_FILE] else []) = [] := by
  cases c <;> simp [stores, store_of]

theorem file_bytes_opening (c : Bool) :
    file_bytes (if c then [Event.GCOV_OPEN_FILE] else []) = [] := by
  cases c <;> simp [file_bytes, file_byte_of]

theorem convert_calls_opening (c : Bool) :
    convert_calls (if c then [Event.GCOV_OPEN_FILE] else []) = [] := by
  cases c <;> simp [convert_calls, convert_call_of]

theorem stores_emit_end (o : Options) (index : Nat) :
    stores (emit_end o index).1 =
      if o.GCOV_OPT_OUTPUT_BINARY_MEMORY then at_offsets index gcov_end_marker else [] := by
  simp only [emit_end, stores_append, stores_status]
  have h2 : stores (if o.GCOV_OPT_OUTPUT_BINARY_FILE then
      gcov_end_marker.map Event.GCOV_WRITE_BYTE ++ [Event.GCOV_CLOSE_FILE] else []) = [] := by
    cases o.GCOV_OPT_OUTPUT_BINARY_FILE
    · simp [stores]
    · simp only [if_true, stores_append, stores_write]
      simp [stores, store_of]
  rw [h2]
  cases o.GCOV_OPT_OUTPUT_BINARY_MEMORY
  · simp [stores]
  · simp [stores_store_bytes]

theorem file_bytes_emit_end (o : Options) (index : Nat) :
    file_bytes (emit_end o index).1 =
      if o.GCOV_OPT_OUTPUT_BINARY_FILE then gcov_end_marker else [] := by
  simp only [emit_end, file_bytes_append, file_bytes_status]
  have h2 : file_bytes (if o.GCOV_OPT_OUTPUT_BINARY_MEMORY then
      store_bytes index gcov_end_marker else ([], index)).1 = [] := by
    cases o.GCOV_OPT_OUTPUT_BINARY_MEMORY
    · simp [file_bytes]
    · simp [file_bytes_store_bytes]
  rw [h2]
  cases o.GCOV_OPT_OUTPUT_BINARY_FILE
  · simp [file_bytes]
  · simp only [if_true, file_bytes_append, file_bytes_write]
    simp [file_bytes, file_byte_of]

theorem convert_calls_emit_end (o : Options) (index : Nat) :
    convert_calls (emit_end o index).1 = [] := by
  simp only [emit_end, convert_calls_append, convert_calls_status]
  have h1 : convert_calls (if o.GCOV_OPT_OUTPUT_BINARY_MEMORY then
      store_bytes index gcov_end_marker else ([], index)).1 = [] := by
    cases o.GCOV_OPT_OUTPUT_BINARY_MEMORY
    · simp [convert_calls]
    · simp [convert_calls_store_bytes]
  have h2 : convert_calls (if o.GCOV_OPT_OUTPUT_BINARY_FILE then
      gcov_end_marker.map Event.GCOV_WRITE_BYTE ++ [Event.GCOV_CLOSE_FILE] else []) = [] := by
    cases o.GCOV_OPT_OUTPUT_BINARY_FILE
    · simp [convert_calls]
    · simp only [if_true, convert_calls_append, convert_calls_write]
      simp [convert_calls, convert_call_of]
  rw [h1, h2]
  rfl

theorem emit_end_index (o : Options) (index : Nat)
    (h : o.GCOV_OPT_OUTPUT_BINARY_MEMORY = true → index < 4294967296) :
    (emit_end o index).2 =
      if o.GCOV_OPT_OUTPUT_BINARY_MEMORY then (index + 9) % 4294967296 else index := by
  simp only [emit_end]
  by_cases hm : o.GCOV_OPT_OUTPUT_BINARY_MEMORY = true
  · simp only [hm, if_true, store_bytes_index _ _ (h hm)]
    rfl
  · simp [hm]

theorem exit_on_list_fits {μ : Type} (o : Options) (G : GcovGcc μ) (l : List Nat) (s : State μ)
    (hfit : ∀ d ∈ l, G.gcov_convert_to_gcda_null s.descriptors d ≤ gcov_buf_bytes) :
    (exit_on_list o G l s).outcome = Outcome.returned ∧
    (exit_on_list o G l s).state =
      { s with
        gcov_buf := buf_after G s.descriptors l s.gcov_buf
        gcov_output_index :=
          if o.GCOV_OPT_OUTPUT_BINARY_MEMORY then
            ((stream o G s.descriptors l s.gcov_buf).length + 9) % 4294967296
          else s.gcov_output_index } ∧
    convert_calls (exit_on_list o G l s).events = l.flatMap (fun d => [(false, d), (true, d)]) ∧
    stores (exit_on_list o G l s).events =
      (if o.GCOV_OPT_OUTPUT_BINARY_MEMORY then
         at_offsets 0 (stream o G s.descriptors l s.gcov_buf ++ gcov_end_marker)
       else []) ∧
    file_bytes (exit_on_list o G l s).events =
      (if o.GCOV_OPT_OUTPUT_BINARY_FILE then
         stream o G s.descriptors l s.gcov_buf ++ gcov_end_marker
       else []) := by
  have hi : o.GCOV_OPT_OUTPUT_BINARY_MEMORY = true →
      (if o.GCOV_OPT_OUTPUT_BINARY_MEMORY then 0 else s.gcov_output_index) < 4294967296 := by
    intro hm; simp [hm]
  obtain ⟨h1, h2, h3, h4, h5, h6⟩ := loop_on_list_fits o G s.descriptors l s.gcov_buf
    (if o.GCOV_OPT_OUTPUT_BINARY_MEMORY then 0 else s.gcov_output_index) hfit hi
  have hi2 : o.GCOV_OPT_OUTPUT_BINARY_MEMORY = true →
      (loop_on_list o G s.descriptors l s.gcov_buf
        (if o.GCOV_OPT_OUTPUT_BINARY_MEMORY then 0 else s.gcov_output_index)).index
        < 4294967296 := by
    intro hm
    rw [h5]
    simp only [hm, if_true]
    exact Nat.mod_lt _ (by norm_num)
  simp only [exit_on_list, h1, if_true]
  refine ⟨trivial, ?_, ?_, ?_, ?_⟩
  · rw [emit_end_index _ _ hi2, h2, h5]
    by_cases hm : o.GCOV_OPT_OUTPUT_BINARY_MEMORY = true
    · simp only [hm, if_true]
      congr 1
      omega
    · simp [hm]
  · simp only [convert_calls_append, convert_calls_status, convert_calls_opening, h3,
      convert_calls_emit_end]
    simp
  · simp only [stores_append, stores_status, stores_opening, h4, stores_emit_end, h5]
    by_cases hm : o.GCOV_OPT_OUTPUT_BINARY_MEMORY = true
    · simp only [hm, if_true]
      rw [at_offsets_append _ _ 0 (by norm_num)]
      simp
    · simp [hm]
  · simp only [file_bytes_append, file_bytes_status, file_bytes_opening, h6, file_bytes_emit_end]
    cases o.GCOV_OPT_OUTPUT_BINARY_FILE <;> simp

theorem registry_walk_chain (pool : Nat → GcovInfo) :
    ∀ (n : Nat), (∀ k, k < n → (pool k).next = pool_ptr k) →
      ∀ fuel, n ≤ fuel → registry_walk pool fuel (pool_ptr n) = some (pool_infos pool n) := by
  intro n
  induction n with
  | zero => intro _ fuel _; cases fuel <;> rfl
  | succ n ih =>
    intro h fuel hf
    cases fuel with
    | zero => omega
    | succ fuel =>
      simp only [pool_ptr, registry_walk, pool_infos]
      rw [h n (by omega), ih (fun k hk => h k (by omega)) fuel (by omega)]
      rfl

theorem pool_infos_update (pool : Nat → GcovInfo) (k : Nat) (e : GcovInfo) :
    ∀ n, n ≤ k → pool_infos (Function.update pool k e) n = pool_infos pool n := by
  intro n
  induction n with
  | zero => intro _; rfl
  | succ n ih =>
    intro h
    simp only [pool_infos]
    rw [ih (by omega)]
    have : n ≠ k := by omega
    simp [Function.update, this]

theorem gcov_init_inv {μ : Type} (o : Options) (G : GcovGcc μ) (d : Nat) (s : State μ)
    (hinv : registry_inv s) (hlt : s.gcov_GcovIndex < gcov_GcovInfo_count) :
    (__gcov_init o G d s).outcome = Outcome.returned ∧
    registry_inv (__gcov_init o G d s).state ∧
    (__gcov_init o G d s).state.gcov_GcovIndex = s.gcov_GcovIndex + 1 ∧
    pool_infos (__gcov_init o G d s).state.gcov_GcovInfo
        (__gcov_init o G d s).state.gcov_GcovIndex
      = d :: pool_infos s.gcov_GcovInfo s.gcov_GcovIndex ∧
    (__gcov_init o G d s).state.gcov_buf = s.gcov_buf ∧
    (__gcov_init o G d s).state.gcov_output_index = s.gcov_output_index ∧
    (__gcov_init o G d s).state.descriptors = s.descriptors := by
  obtain ⟨h1, h2, h3⟩ := hinv
  have hc : gcov_GcovInfo_count = 100 := rfl
  have hnot : ¬ (s.gcov_GcovIndex ≥ gcov_GcovInfo_count) := by omega
  have hmod : (s.gcov_GcovIndex + 1) % 4294967296 = s.gcov_GcovIndex + 1 := by
    apply Nat.mod_eq_of_lt; omega
  simp only [__gcov_init, hnot, if_false, hmod, registry_inv]
  refine ⟨trivial, ⟨by omega, rfl, ?_⟩, trivial, ?_, trivial, trivial, trivial⟩
  · intro k hk
    by_cases hks : k = s.gcov_GcovIndex
    · subst hks
      simp [Function.update, h2]
    · simp only [Function.update, hks, dite_false]
      exact h3 k (by omega)
  · simp only [pool_infos]
    rw [pool_infos_update _ _ _ _ (le_refl _)]
    simp [Function.update]

theorem gcov_init_calls_inv {μ : Type} (o : Options) (G : GcovGcc μ) (ds : List Nat) :
    ∀ (s : State μ), registry_inv s → s.gcov_GcovIndex + ds.length ≤ gcov_GcovInfo_count →
      (run_calls (gcov_init_calls o G ds) s).outcome = Outcome.returned ∧
      registry_inv (run_calls (gcov_init_calls o G ds) s).state ∧
      (run_calls (gcov_init_calls o G ds) s).state.gcov_GcovIndex
        = s.gcov_GcovIndex + ds.length ∧
      pool_infos (run_calls (gcov_init_calls o G ds) s).state.gcov_GcovInfo
          (run_calls (gcov_init_calls o G ds) s).state.gcov_GcovIndex
        = ds.reverse ++ pool_infos s.gcov_GcovInfo s.gcov_GcovIndex ∧
      (run_calls (gcov_init_calls o G ds) s).state.gcov_buf = s.gcov_buf ∧
      (run_calls (gcov_init_calls o G ds) s).state.gcov_output_index = s.gcov_output_index ∧
      (run_calls (gcov_init_calls o G ds) s).state.descriptors = s.descriptors := by
  induction ds with
  | nil =>
    intro s hinv _
    simp only [gcov_init_calls, List.map_nil, run_calls, List.length_nil, Nat.add_zero,
      List.reverse_nil, List.nil_append]
    exact ⟨trivial, hinv, trivial, trivial, trivial, trivial, trivial⟩
  | cons d ds ih =>
    intro s hinv hlen
    simp only [List.length_cons] at hlen
    obtain ⟨a1, a2, a3, a4, a5, a6, a7⟩ := gcov_init_inv o G d s hinv (by omega)
    obtain ⟨b1, b2, b3, b4, b5, b6, b7⟩ := ih (__gcov_init o G d s).state a2 (by omega)
    simp only [gcov_init_calls] at b1 b2 b3 b4 b5 b6 b7
    simp only [gcov_init_calls, List.map_cons, run_calls, a1]
    refine ⟨b1, b2, ?_, ?_, ?_, ?_, ?_⟩
    · rw [b3, a3, List.length_cons]; omega
    · rw [b4, a4]; simp
    · rw [b5, a5]
    · rw [b6, a6]
    · rw [b7, a7]

theorem registry_inv_walk {μ : Type} (s : State μ) (h : registry_inv s) (fuel : Nat)
    (hf : s.gcov_GcovIndex ≤ fuel) :
    registry_walk s.gcov_GcovInfo fuel s.gcov_headGcov
      = some (pool_infos s.gcov_GcovInfo s.gcov_GcovIndex) := by
  obtain ⟨_, h2, h3⟩ := h
  rw [h2]
  exact registry_walk_chain _ _ h3 fuel hf

theorem registry_inv_empty {μ : Type} (s : State μ) (h1 : s.gcov_headGcov = none)
    (h2 : s.gcov_GcovIndex = 0) : registry_inv s := by
  refine ⟨by rw [h2]; exact Nat.zero_le _, by rw [h1, h2]; rfl, ?_⟩
  intro k hk
  omega

theorem apply_stores_at_offsets (bs : List Nat) :
    ∀ (start : Nat) (mem : Nat → Nat) (i : Nat), start + bs.length ≤ 4294967296 →
      apply_stores mem (at_offsets start bs) i
        = if start ≤ i ∧ i < start + bs.length then bs.getD (i - start) 0 else mem i := by
  induction bs with
  | nil =>
    intro start mem i _
    have : ¬ (start ≤ i ∧ i < start) := by omega
    simp [at_offsets, apply_stores, this]
  | cons b bs ih =>
    intro start mem i h
    simp only [List.length_cons] at h
    simp only [at_offsets, apply_stores, List.length_cons]
    cases bs with
    | nil =>
      simp only [at_offsets, apply_stores, List.length_nil]
      by_cases hi : i = start
      · subst hi; simp
      · have : ¬ (start ≤ i ∧ i < start + (0 + 1)) := by omega
        simp [Function.update, hi, this]
    | cons c cs =>
      simp only [List.length_cons] at h
      have hm : (start + 1) % 4294967296 = start + 1 := Nat.mod_eq_of_lt (by omega)
      rw [hm, ih (start + 1) _ i (by simp only [List.length_cons]; omega)]
      simp only [List.length_cons]
      by_cases hi : i = start
      · subst hi
        have : ¬ (i + 1 ≤ i ∧ i < i + 1 + (cs.length + 1)) := by omega
        simp [this]
      · by_cases hr : start + 1 ≤ i ∧ i < start + 1 + (cs.length + 1)
        · have hr' : start ≤ i ∧ i < start + (cs.length + 1 + 1) := by omega
          have e : i - start = (i - (start + 1)) + 1 := by omega
          simp only [hr, hr', and_self, if_true]
          rw [e]
          simp
        · have hr' : ¬ (start ≤ i ∧ i < start + (cs.length + 1 + 1)) := by omega
          simp [hr, hr', Function.update, hi]

theorem gcov_init_calls_from_empty {μ : Type} (o : Options) (G : GcovGcc μ) (s : State μ)
    (hhead : s.gcov_headGcov = none) (hidx : s.gcov_GcovIndex = 0) (es : List Nat)
    (hes : es.length ≤ 100) :
    (run_calls (gcov_init_calls o G es) s).outcome = Outcome.returned ∧
    (run_calls (gcov_init_calls o G es) s).state.gcov_GcovIndex = es.length ∧
    ∀ fuel, es.length ≤ fuel →
      registry_walk (run_calls (gcov_init_calls o G es) s).state.gcov_GcovInfo fuel
        (run_calls (gcov_init_calls o G es) s).state.gcov_headGcov = some es.reverse := by
  have hinv := registry_inv_empty s hhead hidx
  have hc : gcov_GcovInfo_count = 100 := rfl
  obtain ⟨b1, b2, b3, b4, _⟩ := gcov_init_calls_inv o G es s hinv (by rw [hidx, hc]; omega)
  rw [hidx] at b3 b4
  simp only [Nat.zero_add, pool_infos, List.append_nil] at b3 b4
  refine ⟨b1, b3, ?_⟩
  intro fuel hf
  rw [registry_inv_walk _ b2 fuel (by rw [b3]; exact hf), b4]

theorem gcov_init_full {μ : Type} (o : Options) (G : GcovGcc μ) (d : Nat) (s : State μ)
    (hfull : s.gcov_GcovIndex ≥ 100) (hstd : o.GCOV_OPT_USE_STDLIB = false) :
    (__gcov_init o G d s).state = s ∧ (__gcov_init o G d s).outcome = Outcome.returned := by
  have hc : s.gcov_GcovIndex ≥ gcov_GcovInfo_count := hfull
  simp [__gcov_init, hc, out_of_memory, hstd]

theorem loop_on_list_emitted {μ : Type} (o : Options) (G : GcovGcc μ) (m : μ) :
    ∀ (l : List Nat) (buf : Nat → Nat) (index : Nat),
      (o.GCOV_OPT_OUTPUT_BINARY_MEMORY = true → index < 4294967296) →
      ((loop_on_list o G m l buf index).finished = true ↔ fitting_head G m l = l) ∧
      (loop_on_list o G m l buf index).buf = buf_after G m (fitting_head G m l) buf ∧
      convert_calls (loop_on_list o G m l buf index).events = loop_calls G m l ∧
      stores (loop_on_list o G m l buf index).events
        = (if o.GCOV_OPT_OUTPUT_BINARY_MEMORY then at_offsets index (emitted o G m l buf)
           else []) ∧
      (loop_on_list o G m l buf index).index
        = (if o.GCOV_OPT_OUTPUT_BINARY_MEMORY then
             (index + (emitted o G m l buf).length) % 4294967296
           else index) ∧
      file_bytes (loop_on_list o G m l buf index).events
        = (if o.GCOV_OPT_OUTPUT_BINARY_FILE then emitted o G m l buf else []) := by
  intro l
  induction l with
  | nil =>
    intro buf index hi
    simp only [loop_on_list, buf_after, emitted, at_offsets, List.length_nil, Nat.add_zero,
      loop_calls, fitting_head, ite_self]
    refine ⟨by simp, trivial, by simp [convert_calls], by simp [stores], ?_,
      by simp [file_bytes]⟩
    by_cases hm : o.GCOV_OPT_OUTPUT_BINARY_MEMORY = true
    · simp only [hm, if_true, Nat.mod_eq_of_lt (hi hm)]
    · simp [hm]
  | cons d l ih =>
    intro buf index hi
    by_cases hbig : bytesNeeded G m d > gcov_buf_bytes
    · have hbig' : G.gcov_convert_to_gcda_null m d % 4294967296 > gcov_buf_bytes := hbig
      simp only [loop_on_list, hbig', if_true, fitting_head, hbig, emitted, loop_calls,
        buf_after, at_offsets, List.length_nil, Nat.add_zero, ite_self]
      refine ⟨by simp, trivial, by simp [convert_calls, convert_call_of],
        by simp [stores, store_of], ?_, by simp [file_bytes, file_byte_of]⟩
      by_cases hm : o.GCOV_OPT_OUTPUT_BINARY_MEMORY = true
      · simp only [hm, if_true, Nat.mod_eq_of_lt (hi hm)]
      · simp [hm]
    · have hbig' : ¬ (G.gcov_convert_to_gcda_null m d % 4294967296 > gcov_buf_bytes) := hbig
      simp only [loop_on_list, hbig', if_false, fitting_head, hbig, emitted, loop_calls,
        buf_after]
      have hb : G.gcov_convert_to_gcda_null m d % 4294967296 = bytesNeeded G m d := rfl
      rw [hb]
      have hi' := emit_descriptor_index_lt o (G.gcov_info_filename m d)
        (bytesNeeded G m d) (G.gcov_convert_to_gcda m buf d).1 index hi
      obtain ⟨h1, h2, h3, h4, h5, h6⟩ := ih (G.gcov_convert_to_gcda m buf d).1
        (emit_descriptor o (G.gcov_info_filename m d) (bytesNeeded G m d)
          (G.gcov_convert_to_gcda m buf d).1 index).2 hi'
      refine ⟨?_, h2, ?_, ?_, ?_, ?_⟩
      · rw [h1]; simp
      · rw [convert_calls_append, convert_calls_append, h3, convert_calls_emit_descriptor]
        simp [convert_calls, convert_call_of]
      · rw [stores_append, stores_append, h4, stores_emit_descriptor,
          emit_descriptor_index _ _ _ _ _ hi]
        by_cases hm : o.GCOV_OPT_OUTPUT_BINARY_MEMORY = true
        · simp only [hm, if_true]
          rw [at_offsets_append _ _ _ (hi hm)]
          simp [stores, store_of]
        · simp [hm, stores, store_of]
      · rw [h5, emit_descriptor_index _ _ _ _ _ hi]
        by_cases hm : o.GCOV_OPT_OUTPUT_BINARY_MEMORY = true
        · simp only [hm, if_true, List.length_append]
          omega
        · simp [hm]
      · rw [file_bytes_append, file_bytes_append, h6, file_bytes_emit_descriptor]
        cases o.GCOV_OPT_OUTPUT_BINARY_FILE
        · simp [file_bytes, file_byte_of]
        · simp [file_bytes, file_byte_of]

theorem emit_descriptor_congr (o : Options) (name : Option (List Nat)) (n : Nat)
    (b b' : Nat → Nat) (index : Nat)
    (h : ∀ i, i < n → buffer_byte o.big_endian b i = buffer_byte o.big_endian b' i) :
    emit_descriptor o name n b index = emit_descriptor o name n b' index := by
  have h1 : buffer_bytes o.big_endian b n = buffer_bytes o.big_endian b' n := by
    simp only [buffer_bytes]
    exact List.map_congr_left (fun i hi => h i (List.mem_range.mp hi))
  have h2 : hexdump o.big_endian b n name = hexdump o.big_endian b' n name := by
    simp only [hexdump]
    congr 1
    apply List.flatMap_congr
    intro i hi
    rw [h i (List.mem_range.mp hi)]
  simp only [emit_descriptor, h1, h2]

theorem loop_on_list_congr {μ : Type} (o : Options) (G : GcovGcc μ) (m : μ)
    (hG : ∀ (b b' : Nat → Nat) (d i : Nat), i < bytesNeeded G m d →
      buffer_byte o.big_endian (G.gcov_convert_to_gcda m b d).1 i
        = buffer_byte o.big_endian (G.gcov_convert_to_gcda m b' d).1 i) :
    ∀ (l : List Nat) (b b' : Nat → Nat) (index : Nat),
      (loop_on_list o G m l b index).events = (loop_on_list o G m l b' index).events ∧
      (loop_on_list o G m l b index).index = (loop_on_list o G m l b' index).index ∧
      (loop_on_list o G m l b index).finished = (loop_on_list o G m l b' index).finished := by
  intro l
  induction l with
  | nil => intro b b' index; exact ⟨rfl, rfl, rfl⟩
  | cons d l ih =>
    intro b b' index
    by_cases hbig : G.gcov_convert_to_gcda_null m d % 4294967296 > gcov_buf_bytes
    · simp only [loop_on_list, hbig, if_true]
      exact ⟨trivial, trivial, trivial⟩
    · simp only [loop_on_list, hbig, if_false]
      have e := emit_descriptor_congr o (G.gcov_info_filename m d)
        (G.gcov_convert_to_gcda_null m d % 4294967296)
        (G.gcov_convert_to_gcda m b d).1 (G.gcov_convert_to_gcda m b' d).1 index
        (fun i hi => hG b b' d i hi)
      rw [e]
      obtain ⟨h1, h2, h3⟩ := ih (G.gcov_convert_to_gcda m b d).1 (G.gcov_convert_to_gcda m b' d).1
        (emit_descriptor o (G.gcov_info_filename m d)
          (G.gcov_convert_to_gcda_null m d % 4294967296)
          (G.gcov_convert_to_gcda m b' d).1 index).2
      exact ⟨by rw [h1], h2, h3⟩

theorem exit_on_list_index0 {μ : Type} (o : Options) (G : GcovGcc μ) (l : List Nat)
    (s : State μ) :
    (if o.GCOV_OPT_OUTPUT_BINARY_MEMORY then 0 else (exit_on_list o G l s).state.gcov_output_index)
      = (if o.GCOV_OPT_OUTPUT_BINARY_MEMORY then 0 else s.gcov_output_index) := by
  by_cases hm : o.GCOV_OPT_OUTPUT_BINARY_MEMORY = true
  · simp [hm]
  · have hi : o.GCOV_OPT_OUTPUT_BINARY_MEMORY = true → s.gcov_output_index < 4294967296 :=
      fun h => absurd h hm
    have h5 := (loop_on_list_emitted o G s.descriptors l s.gcov_buf s.gcov_output_index hi).2.2.2.2.1
    simp only [hm, if_false] at h5
    rcases Bool.eq_false_or_eq_true
        (loop_on_list o G s.descriptors l s.gcov_buf s.gcov_output_index).finished with hfin | hfin
    · simp [exit_on_list, hm, hfin, emit_end, h5]
    · simp [exit_on_list, hm, hfin, h5]

theorem exit_on_list_twice {μ : Type} (o : Options) (G : GcovGcc μ) (l : List Nat)
    (s : State μ)
    (hG : ∀ (b b' : Nat → Nat) (d i : Nat), i < bytesNeeded G s.descriptors d →
      buffer_byte o.big_endian (G.gcov_convert_to_gcda s.descriptors b d).1 i
        = buffer_byte o.big_endian (G.gcov_convert_to_gcda s.descriptors b' d).1 i) :
    (exit_on_list o G l (exit_on_list o G l s).state).events = (exit_on_list o G l s).events ∧
    (exit_on_list o G l (exit_on_list o G l s).state).outcome = (exit_on_list o G l s).outcome := by
  have hd : (exit_on_list o G l s).state.descriptors = s.descriptors := by
    rcases Bool.eq_false_or_eq_true (loop_on_list o G s.descriptors l s.gcov_buf
        (if o.GCOV_OPT_OUTPUT_BINARY_MEMORY then 0 else s.gcov_output_index)).finished
      with hfin | hfin <;> simp [exit_on_list, hfin]
  have h0 := exit_on_list_index0 o G l s
  obtain ⟨c1, c2, c3⟩ := loop_on_list_congr o G s.descriptors hG l
    (exit_on_list o G l s).state.gcov_buf s.gcov_buf
    (if o.GCOV_OPT_OUTPUT_BINARY_MEMORY then 0 else s.gcov_output_index)
  have e : ∀ t : State μ, t.descriptors = s.descriptors →
      (if o.GCOV_OPT_OUTPUT_BINARY_MEMORY then 0 else t.gcov_output_index)
        = (if o.GCOV_OPT_OUTPUT_BINARY_MEMORY then 0 else s.gcov_output_index) →
      (loop_on_list o G s.descriptors l t.gcov_buf
          (if o.GCOV_OPT_OUTPUT_BINARY_MEMORY then 0 else s.gcov_output_index)).events
        = (loop_on_list o G s.descriptors l s.gcov_buf
          (if o.GCOV_OPT_OUTPUT_BINARY_MEMORY then 0 else s.gcov_output_index)).events →
      (loop_on_list o G s.descriptors l t.gcov_buf
          (if o.GCOV_OPT_OUTPUT_BINARY_MEMORY then 0 else s.gcov_output_index)).index
        = (loop_on_list o G s.descriptors l s.gcov_buf
          (if o.GCOV_OPT_OUTPUT_BINARY_MEMORY then 0 else s.gcov_output_index)).index →
      (loop_on_list o G s.descriptors l t.gcov_buf
          (if o.GCOV_OPT_OUTPUT_BINARY_MEMORY then 0 else s.gcov_output_index)).finished
        = (loop_on_list o G s.descriptors l s.gcov_buf
          (if o.GCOV_OPT_OUTPUT_BINARY_MEMORY then 0 else s.gcov_output_index)).finished →
      (exit_on_list o G l t).events = (exit_on_list o G l s).events ∧
      (exit_on_list o G l t).outcome = (exit_on_list o G l s).outcome := by
    intro t ht hidx he hi hfin
    simp only [exit_on_list, ht, hidx, he, hi, hfin]
    rcases Bool.eq_false_or_eq_true (loop_on_list o G s.descriptors l s.gcov_buf
        (if o.GCOV_OPT_OUTPUT_BINARY_MEMORY then 0 else s.gcov_output_index)).finished
      with hf | hf <;> simp [hf]
  exact e _ hd h0 c1 c2 c3

theorem gcov_gcc_fill_independent (counters : Nat) (be : Bool) (m : Nat → gcov_info)
    (b b' : Nat → Nat) (d i : Nat) (hi : i < bytesNeeded (gcov_gcc counters) m d) :
    buffer_byte be ((gcov_gcc counters).gcov_convert_to_gcda m b d).1 i
      = buffer_byte be ((gcov_gcc counters).gcov_convert_to_gcda m b' d).1 i := by
  have hlt : i / 4 < (gcda_words counters (m d)).length := by
    have h1 : bytesNeeded (gcov_gcc counters) m d ≤ 4 * (gcda_words counters (m d)).length := by
      simp only [bytesNeeded, gcov_gcc, gcov_convert_to_gcda_words]
      exact Nat.mod_le _ _
    omega
  have e : ∀ c : Nat → Nat,
      ((gcov_gcc counters).gcov_convert_to_gcda m c d).1 (i / 4)
        = (gcda_words counters (m d)).getD (i / 4) 0 := by
    intro c
    simp only [gcov_gcc, gcov_convert_to_gcda_words, Option.map_some', Option.getD_some]
    rw [write_words_inside _ _ _ _ (Nat.zero_le _) (by omega)]
    simp
  simp only [buffer_byte, e]

theorem stores_out_of_memory (o : Options) : stores (out_of_memory o).1 = [] := by
  simp only [out_of_memory, stores_append, stores_status]
  cases o.GCOV_OPT_USE_STDLIB <;> simp [stores, store_of]

theorem file_bytes_out_of_memory (o : Options) : file_bytes (out_of_memory o).1 = [] := by
  simp only [out_of_memory, file_bytes_append, file_bytes_status]
  cases o.GCOV_OPT_USE_STDLIB <;> simp [file_bytes, file_byte_of]

theorem convert_calls_out_of_memory (o : Options) : convert_calls (out_of_memory o).1 = [] := by
  simp only [out_of_memory, convert_calls_append, convert_calls_status]
  cases o.GCOV_OPT_USE_STDLIB <;> simp [convert_calls, convert_call_of]

theorem exit_on_list_emitted {μ : Type} (o : Options) (G : GcovGcc μ) (l : List Nat)
    (s : State μ) :
    (exit_on_list o G l s).outcome
      = (if fitting_head G s.descriptors l = l then Outcome.returned
         else (out_of_memory o).2) ∧
    convert_calls (exit_on_list o G l s).events = loop_calls G s.descriptors l ∧
    stores (exit_on_list o G l s).events =
      (if o.GCOV_OPT_OUTPUT_BINARY_MEMORY then
         at_offsets 0 (emitted o G s.descriptors l s.gcov_buf ++
           (if fitting_head G s.descriptors l = l then gcov_end_marker else []))
       else []) ∧
    file_bytes (exit_on_list o G l s).events =
      (if o.GCOV_OPT_OUTPUT_BINARY_FILE then
         emitted o G s.descriptors l s.gcov_buf ++
           (if fitting_head G s.descriptors l = l then gcov_end_marker else [])
       else []) ∧
    (exit_on_list o G l s).state.gcov_headGcov = s.gcov_headGcov ∧
    (exit_on_list o G l s).state.gcov_GcovInfo = s.gcov_GcovInfo ∧
    (exit_on_list o G l s).state.gcov_GcovIndex = s.gcov_GcovIndex ∧
    (exit_on_list o G l s).state.descriptors = s.descriptors := by
  have hi : o.GCOV_OPT_OUTPUT_BINARY_MEMORY = true →
      (if o.GCOV_OPT_OUTPUT_BINARY_MEMORY then 0 else s.gcov_output_index) < 4294967296 := by
    intro hm; simp [hm]
  obtain ⟨h1, _, h3, h4, h5, h6⟩ := loop_on_list_emitted o G s.descriptors l s.gcov_buf
    (if o.GCOV_OPT_OUTPUT_BINARY_MEMORY then 0 else s.gcov_output_index) hi
  rcases Bool.eq_false_or_eq_true (loop_on_list o G s.descriptors l s.gcov_buf
      (if o.GCOV_OPT_OUTPUT_BINARY_MEMORY then 0 else s.gcov_output_index)).finished
    with hfin | hfin
  · have hp : fitting_head G s.descriptors l = l := h1.mp hfin
    simp only [exit_on_list, hfin, if_true, hp]
    refine ⟨trivial, ?_, ?_, ?_, trivial, trivial, trivial, trivial⟩
    · simp only [convert_calls_append, convert_calls_status, convert_calls_opening, h3,
        convert_calls_emit_end]
      simp
    · simp only [stores_append, stores_status, stores_opening, h4, stores_emit_end, h5]
      by_cases hm : o.GCOV_OPT_OUTPUT_BINARY_MEMORY = true
      · simp only [hm, if_true]
        rw [at_offsets_append _ _ 0 (by norm_num)]
        simp
      · simp [hm]
    · simp only [file_bytes_append, file_bytes_status, file_bytes_opening, h6,
        file_bytes_emit_end]
      cases o.GCOV_OPT_OUTPUT_BINARY_FILE <;> simp
  · have hp : ¬ fitting_head G s.descriptors l = l := by
      intro h; rw [h1.mpr h] at hfin; cases hfin
    simp only [exit_on_list, hfin, hp, if_false, Bool.false_eq_true]
    refine ⟨trivial, ?_, ?_, ?_, trivial, trivial, trivial, trivial⟩
    · simp only [convert_calls_append, convert_calls_status, convert_calls_opening, h3,
        convert_calls_out_of_memory]
      simp
    · simp only [stores_append, stores_status, stores_opening, h4, stores_out_of_memory]
      by_cases hm : o.GCOV_OPT_OUTPUT_BINARY_MEMORY = true <;> simp [hm]
    · simp only [file_bytes_append, file_bytes_status, file_bytes_opening, h6,
        file_bytes_out_of_memory]
      simp

theorem gcov_exit_open_fails {μ : Type} (o : Options) (G : GcovGcc μ) (fuel : Nat)
    (s : State μ) (hfile : o.GCOV_OPT_OUTPUT_BINARY_FILE = true) :
    ∃ r, __gcov_exit o G false fuel s = some r ∧
      r.events = (if o.GCOV_OPT_PRINT_STATUS then [print_lit "gcov_exit", print_lit "\n"]
                  else []) ++ [Event.GCOV_OPEN_FILE] ++
        (if o.GCOV_OPT_PRINT_STATUS then
           [print_lit "Unable to open gcov output file!", print_lit "\n"] else []) ++
        (if o.GCOV_OPT_USE_STDLIB then [Event.exit_call 1] else []) ∧
      r.outcome = (if o.GCOV_OPT_USE_STDLIB then Outcome.exited else Outcome.returned) ∧
      r.state = { s with gcov_output_index :=
        if o.GCOV_OPT_OUTPUT_BINARY_MEMORY then 0 else s.gcov_output_index } ∧
      stores r.events = [] ∧ file_bytes r.events = [] ∧ convert_calls r.events = [] := by
  refine ⟨_, by simp only [__gcov_exit, hfile, Bool.not_false, Bool.and_self, if_true]; rfl,
    rfl, rfl, rfl, ?_, ?_, ?_⟩
  · simp only [stores_append, stores_status]
    cases o.GCOV_OPT_USE_STDLIB <;> simp [stores, store_of]
  · simp only [file_bytes_append, file_bytes_status]
    cases o.GCOV_OPT_USE_STDLIB <;> simp [file_bytes, file_byte_of]
  · simp only [convert_calls_append, convert_calls_status]
    cases o.GCOV_OPT_USE_STDLIB <;> simp [convert_calls, convert_call_of]

theorem gcov_exit_twice_opened {μ : Type} (o : Options) (G : GcovGcc μ) (ok1 ok2 : Bool)
    (s : State μ) (n : Nat) (l : List Nat) (fuel : Nat)
    (hG : ∀ (b b' : Nat → Nat) (d i : Nat), i < bytesNeeded G s.descriptors d →
      buffer_byte o.big_endian (G.gcov_convert_to_gcda s.descriptors b d).1 i
        = buffer_byte o.big_endian (G.gcov_convert_to_gcda s.descriptors b' d).1 i)
    (h1 : o.GCOV_OPT_OUTPUT_BINARY_FILE = false ∨ ok1 = true)
    (h2 : o.GCOV_OPT_OUTPUT_BINARY_FILE = false ∨ ok2 = true)
    (hl : registry_walk s.gcov_GcovInfo n s.gcov_headGcov = some l) (hf : l.length ≤ fuel) :
    __gcov_exit o G ok1 fuel s = some (exit_on_list o G l s) ∧
    __gcov_exit o G ok2 fuel (exit_on_list o G l s).state
      = some (exit_on_list o G l (exit_on_list o G l s).state) ∧
    (exit_on_list o G l (exit_on_list o G l s).state).events = (exit_on_list o G l s).events ∧
    (exit_on_list o G l (exit_on_list o G l s).state).outcome
      = (exit_on_list o G l s).outcome := by
  obtain ⟨_, _, _, _, e1, e2, _, _⟩ := exit_on_list_emitted o G l s
  have hl' : registry_walk (exit_on_list o G l s).state.gcov_GcovInfo n
      (exit_on_list o G l s).state.gcov_headGcov = some l := by rw [e1, e2]; exact hl
  obtain ⟨t1, t2⟩ := exit_on_list_twice o G l s hG
  exact ⟨gcov_exit_eq o G ok1 s n l h1 hl fuel hf,
    gcov_exit_eq o G ok2 _ n l h2 hl' fuel hf, t1, t2⟩

theorem stores_at_offsets_ite (c : Bool) (bytes : List Nat) :
    (if c then at_offsets 0 bytes else []) = at_offsets 0 (if c then bytes else []) := by
  cases c <;> rfl

theorem gcov_exit_calls {μ : Type} (o : Options) (G : GcovGcc μ) (ok : Bool) (s : State μ)
    (n : Nat) (l : List Nat) (fuel : Nat)
    (hl : registry_walk s.gcov_GcovInfo n s.gcov_headGcov = some l) (hf : l.length ≤ fuel) :
    ∃ r, __gcov_exit o G ok fuel s = some r ∧
      (convert_calls r.events = [] ∨ convert_calls r.events = loop_calls G s.descriptors l) := by
  by_cases hopen : o.GCOV_OPT_OUTPUT_BINARY_FILE = false ∨ ok = true
  · exact ⟨_, gcov_exit_eq o G ok s n l hopen hl fuel hf,
      Or.inr (exit_on_list_emitted o G l s).2.1⟩
  · have hfile : o.GCOV_OPT_OUTPUT_BINARY_FILE = true := by
      cases h : o.GCOV_OPT_OUTPUT_BINARY_FILE
      · exact absurd (Or.inl h) hopen
      · rfl
    have hok : ok = false := by
      cases h : ok
      · rfl
      · exact absurd (Or.inr h) hopen
    subst hok
    obtain ⟨r, a1, _, _, _, _, _, a7⟩ := gcov_exit_open_fails o G fuel s hfile
    exact ⟨r, a1, Or.inl a7⟩

theorem oversize_split {μ : Type} (o : Options) (G : GcovGcc μ) (m : μ) (d : Nat)
    (post : List Nat) (hd : bytesNeeded G m d > gcov_buf_bytes) :
    ∀ (pre : List Nat) (buf : Nat → Nat),
      (∀ x ∈ pre, G.gcov_convert_to_gcda_null m x ≤ gcov_buf_bytes) →
      fitting_head G m (pre ++ d :: post) = pre ∧
      emitted o G m (pre ++ d :: post) buf = stream o G m pre buf ∧
      loop_calls G m (pre ++ d :: post)
        = pre.flatMap (fun x => [(false, x), (true, x)]) ++ [(false, d)] := by
  intro pre
  induction pre with
  | nil =>
    intro buf _
    simp [fitting_head, emitted, loop_calls, stream, hd]
  | cons x pre ih =>
    intro buf hpre
    have hx : G.gcov_convert_to_gcda_null m x ≤ gcov_buf_bytes := hpre x (List.mem_cons_self _ _)
    have hb : gcov_buf_bytes = 32768 := rfl
    have hx' : bytesNeeded G m x = G.gcov_convert_to_gcda_null m x := by
      simp only [bytesNeeded]
      exact Nat.mod_eq_of_lt (by omega)
    have hnot : ¬ (bytesNeeded G m x > gcov_buf_bytes) := by omega
    obtain ⟨h1, h2, h3⟩ := ih (G.gcov_convert_to_gcda m buf x).1
      (fun y hy => hpre y (List.mem_cons_of_mem _ hy))
    have hnot' : ¬ (gcov_buf_bytes < G.gcov_convert_to_gcda_null m x) := by omega
    simp only [List.cons_append, fitting_head, emitted, loop_calls, stream, hx', hnot',
      if_false, List.flatMap_cons]
    simp
    exact ⟨h1, h2, h3⟩

theorem exit_on_list_oom_state {μ : Type} (o : Options) (G : GcovGcc μ) (l : List Nat)
    (s : State μ) (hp : fitting_head G s.descriptors l ≠ l) :
    (exit_on_list o G l s).state =
      { s with
        gcov_buf := buf_after G s.descriptors (fitting_head G s.descriptors l) s.gcov_buf
        gcov_output_index :=
          if o.GCOV_OPT_OUTPUT_BINARY_MEMORY then
            (emitted o G s.descriptors l s.gcov_buf).length % 4294967296
          else s.gcov_output_index } := by
  have hi : o.GCOV_OPT_OUTPUT_BINARY_MEMORY = true →
      (if o.GCOV_OPT_OUTPUT_BINARY_MEMORY then 0 else s.gcov_output_index) < 4294967296 := by
    intro hm; simp [hm]
  obtain ⟨h1, h2, _, _, h5, _⟩ := loop_on_list_emitted o G s.descriptors l s.gcov_buf
    (if o.GCOV_OPT_OUTPUT_BINARY_MEMORY then 0 else s.gcov_output_index) hi
  have hfin : (loop_on_list o G s.descriptors l s.gcov_buf
      (if o.GCOV_OPT_OUTPUT_BINARY_MEMORY then 0 else s.gcov_output_index)).finished = false := by
    rcases Bool.eq_false_or_eq_true (loop_on_list o G s.descriptors l s.gcov_buf
      (if o.GCOV_OPT_OUTPUT_BINARY_MEMORY then 0 else s.gcov_output_index)).finished with h | h
    · exact absurd (h1.mp h) hp
    · exact h
  simp only [exit_on_list, hfin, Bool.false_eq_true, if_false, h2, h5]
  by_cases hm : o.GCOV_OPT_OUTPUT_BINARY_MEMORY = true <;> simp [hm]

theorem gcov_clear_loop_eq {μ : Type} (G : GcovGcc μ) (pool : Nat → GcovInfo) :
    ∀ (n : Nat) (p : Option Nat) (l : List Nat), registry_walk pool n p = some l →
      ∀ (fuel : Nat) (m : μ), l.length ≤ fuel →
        gcov_clear_loop G pool fuel p m
          = some (l.foldl G.gcov_clear_counters m, l.map Event.gcov_clear_counters) := by
  intro n
  induction n with
  | zero =>
    intro p l h fuel m _
    cases p with
    | none =>
      simp [registry_walk] at h; subst h
      cases fuel <;> simp [gcov_clear_loop]
    | some k => simp [registry_walk] at h
  | succ n ih =>
    intro p l h fuel m hf
    cases p with
    | none =>
      simp [registry_walk] at h; subst h
      cases fuel <;> simp [gcov_clear_loop]
    | some k =>
      simp only [registry_walk, Option.map_eq_some'] at h
      obtain ⟨l', hl', rfl⟩ := h
      cases fuel with
      | zero => simp at hf
      | succ fuel =>
        simp only [List.length_cons, Nat.add_le_add_iff_right] at hf
        simp only [gcov_clear_loop]
        rw [ih _ _ hl' fuel _ hf]
        simp

theorem clear_calls_map (l : List Nat) : clear_calls (l.map Event.gcov_clear_counters) = l := by
  induction l with
  | nil => rfl
  | cons a l ih => simpa [clear_calls, clear_call_of] using ih

theorem clear_kinds_idem (counters : Nat) (cs : List (Option (List Nat))) :
    ∀ i, clear_kinds counters i (clear_kinds counters i cs) = clear_kinds counters i cs := by
  induction cs with
  | nil => intro i; rfl
  | cons c cs ih =>
    intro i
    by_cases hi : i ≥ counters
    · simp [clear_kinds, hi]
    · simp only [clear_kinds, hi, if_false, ih]
      cases c <;> simp

theorem gcov_clear_counters_idem (counters : Nat) (gi : gcov_info) :
    gcov_clear_counters counters (gcov_clear_counters counters gi)
      = gcov_clear_counters counters gi := by
  simp only [gcov_clear_counters, List.map_map]
  congr 1
  apply List.map_congr_left
  intro f _
  simp [Function.comp, clear_kinds_idem]

theorem clear_kinds_zero (counters : Nat) (cs : List (Option (List Nat))) :
    ∀ (i k : Nat) (vs : List Nat), i + k < counters →
      (clear_kinds counters i cs)[k]? = some (some vs) → ∀ v ∈ vs, v = 0 := by
  induction cs with
  | nil => intro i k vs _ h; simp [clear_kinds] at h
  | cons c cs ih =>
    intro i k vs hk h
    have hi : ¬ (i ≥ counters) := by omega
    simp only [clear_kinds, hi, if_false] at h
    cases k with
    | zero =>
      simp only [List.getElem?_cons_zero, Option.some.injEq] at h
      cases c with
      | none => simp at h
      | some ws =>
        simp only [Option.map_some', Option.some.injEq] at h
        subst h
        intro v hv
        simp only [List.mem_map] at hv
        obtain ⟨_, _, rfl⟩ := hv
        rfl
    | succ k =>
      simp only [List.getElem?_cons_succ] at h
      exact ih (i + 1) k vs (by omega) h

theorem gcov_clear_counters_zero (counters : Nat) (gi : gcov_info) :
    all_counters_zero counters (gcov_clear_counters counters gi) := by
  intro f hf k hk vs hvs
  simp only [gcov_clear_counters, List.mem_map] at hf
  obtain ⟨g, _, rfl⟩ := hf
  exact clear_kinds_zero counters g.ctrs 0 k vs (by omega) hvs

theorem clear_fold_value (counters : Nat) (l : List Nat) :
    ∀ (m : Nat → gcov_info) (a : Nat),
      (l.foldl (gcov_gcc counters).gcov_clear_counters m) a
        = if a ∈ l then gcov_clear_counters counters (m a) else m a := by
  induction l with
  | nil => intro m a; simp
  | cons x l ih =>
    intro m a
    simp only [List.foldl_cons, ih, List.mem_cons]
    by_cases hax : a = x
    · subst hax
      by_cases hal : a ∈ l
      · simp [hal, gcov_gcc, gcov_clear_counters_idem]
      · simp [hal, gcov_gcc]
    · by_cases hal : a ∈ l
      · simp [hal, hax, gcov_gcc, Function.update]
      · simp [hal, hax, gcov_gcc, Function.update]

theorem clear_fold_twice (counters : Nat) (l : List Nat) (m : Nat → gcov_info) :
    l.foldl (gcov_gcc counters).gcov_clear_counters
        (l.foldl (gcov_gcc counters).gcov_clear_counters m)
      = l.foldl (gcov_gcc counters).gcov_clear_counters m := by
  funext a
  rw [clear_fold_value counters l _ a, clear_fold_value counters l m a]
  by_cases hal : a ∈ l
  · simp [hal, gcov_clear_counters_idem]
  · simp [hal]

theorem gcov_clear_eq {μ : Type} (o : Options) (G : GcovGcc μ) (s : State μ)
    (n : Nat) (l : List Nat) (fuel : Nat)
    (hl : registry_walk s.gcov_GcovInfo n s.gcov_headGcov = some l) (hf : l.length ≤ fuel) :
    __gcov_clear o G fuel s = some
      { state := { s with descriptors := l.foldl G.gcov_clear_counters s.descriptors }
        events := (if o.GCOV_OPT_PRINT_STATUS then [print_lit "gcov_clear", print_lit "\n"]
                   else []) ++ l.map Event.gcov_clear_counters
        outcome := Outcome.returned } := by
  have h := gcov_clear_loop_eq G s.gcov_GcovInfo n s.gcov_headGcov l hl fuel s.descriptors hf
  simp only [__gcov_clear, h, Option.map_some']

theorem to_int32_small (x : Nat) (h : x < 2147483648) : to_int32 x = (x : Int) := by
  have h1 : x % 4294967296 = x := Nat.mod_eq_of_lt (by omega)
  simp only [to_int32, h1, h, if_true]

theorem digit_char_glyph (uc : Int) (d : Nat) (h : d < 36) :
    digit_char (d : Int) uc = digit_glyph uc d := by
  simp only [digit_char, digit_glyph]
  by_cases h10 : d < 10
  · have : ((d : Int) < 10) := by exact_mod_cast h10
    simp only [this, h10, if_true]
    omega
  · have : ¬ ((d : Int) < 10) := by
      intro hc
      exact h10 (by exact_mod_cast hc)
    simp only [this, h10, if_false]
    by_cases hu : uc = 0
    · subst hu
      simp only [ne_eq, not_true_eq_false, if_false]
      omega
    · simp only [ne_eq, hu, not_false_eq_true, if_true]
      omega

theorem div_lt_of_lt_pow_succ (b k num : Nat) (hb : 2 ≤ b) (hnum : num < b ^ (k + 1)) :
    num / b ^ k < b := by
  have hpos : 0 < b ^ k := pow_pos (by omega) k
  rw [Nat.div_lt_iff_lt_mul hpos]
  rw [pow_succ] at hnum
  rw [Nat.mul_comm]
  exact hnum

theorem a2_scale_spec (num b : Nat) (hb : 2 ≤ b) (hnum : num < 4294967296) :
    ∀ (fuel j : Nat), 33 ≤ j + fuel → (j = 0 ∨ b ^ j ≤ num) →
      ∃ k, a2_scale num b fuel (b ^ j) = Run.done (b ^ k) ∧ num < b ^ (k + 1) ∧
        (k = 0 ∨ b ^ k ≤ num) := by
  intro fuel
  induction fuel with
  | zero =>
    intro j hj hjn
    exfalso
    have h2 : 2 ^ j ≤ b ^ j := Nat.pow_le_pow_left hb j
    have h3 : 2 ^ 33 ≤ 2 ^ j := Nat.pow_le_pow_right (by norm_num) (by omega)
    have h4 : (2 : Nat) ^ 33 = 8589934592 := by norm_num
    rcases hjn with h | h
    · omega
    · omega
  | succ fuel ih =>
    intro j hj hjn
    have hpos : 0 < b ^ j := pow_pos (by omega) j
    have hne : b ^ j ≠ 0 := by omega
    simp only [a2_scale, hne, if_false]
    by_cases hge : num / b ^ j ≥ b
    · have hle : b ^ (j + 1) ≤ num := by
        rw [pow_succ]
        calc b ^ j * b ≤ b ^ j * (num / b ^ j) := Nat.mul_le_mul_left _ hge
          _ ≤ num := Nat.mul_div_le num (b ^ j)
      have hmod : b ^ j * b % 4294967296 = b ^ (j + 1) := by
        rw [← pow_succ]
        exact Nat.mod_eq_of_lt (by omega)
      simp only [hge, if_true, hmod]
      exact ih (j + 1) (by omega) (Or.inr hle)
    · simp only [hge, if_false]
      refine ⟨j, rfl, ?_, hjn⟩
      have hlt : num / b ^ j < b := by omega
      rw [pow_succ]
      calc num < b ^ j * (num / b ^ j + 1) := Nat.lt_mul_div_succ num hpos
        _ ≤ b ^ j * b := Nat.mul_le_mul_left _ hlt

theorem a2_digits_spec (b : Nat) (uc : Int) (hb : 2 ≤ b) (hb' : b ≤ 2147483648) :
    ∀ (k num n fuel : Nat), num < b ^ (k + 1) → (n ≠ 0 ∨ k = 0 ∨ b ^ k ≤ num) → k + 1 ≤ fuel →
      a2_digits b uc fuel num (b ^ k) n
        = Run.done ((msd_digits b (k + 1) num).map (fun (d : Nat) => digit_char (Int.ofNat d) uc)) := by
  intro k
  induction k with
  | zero =>
    intro num n fuel hnum _ hf
    obtain ⟨f, rfl⟩ : ∃ f, fuel = f + 1 := ⟨fuel - 1, by omega⟩
    have hb0 : b ≠ 0 := by omega
    have hd : 1 / b = 0 := Nat.div_eq_of_lt (by omega)
    have hz : a2_digits b uc f 0 0 (n + 1) = Run.done [] := by
      cases f <;> simp [a2_digits]
    have h32 := to_int32_small num (by simp at hnum; omega)
    simp only [pow_zero, a2_digits, one_ne_zero, if_false, hb0, hd, or_true, if_true,
      Nat.div_one, Nat.mod_one, hz, msd_digits, List.map_cons, List.map_nil, h32]
    rfl
  | succ k ih =>
    intro num n fuel hnum hcond hf
    obtain ⟨f, rfl⟩ : ∃ f, fuel = f + 1 := ⟨fuel - 1, by omega⟩
    have hb0 : b ≠ 0 := by omega
    have hpos : 0 < b ^ (k + 1) := pow_pos (by omega) _
    have hne : b ^ (k + 1) ≠ 0 := by omega
    have hdiv : b ^ (k + 1) / b = b ^ k := by
      rw [pow_succ]; exact Nat.mul_div_cancel _ (by omega)
    have hq : num / b ^ (k + 1) < b := div_lt_of_lt_pow_succ b (k + 1) num hb hnum
    have hq32 := to_int32_small (num / b ^ (k + 1)) (by omega)
    have hemit : n ≠ 0 ∨ to_int32 (num / b ^ (k + 1)) > 0 ∨ b ^ (k + 1) / b = 0 := by
      rcases hcond with h | h | h
      · exact Or.inl h
      · omega
      · right; left
        rw [hq32]
        have : 1 ≤ num / b ^ (k + 1) := (Nat.one_le_div_iff hpos).mpr h
        exact_mod_cast this
    have hrec := ih (num % b ^ (k + 1)) (n + 1) f (Nat.mod_lt _ hpos) (Or.inl (by omega))
      (by omega)
    rw [a2_digits]
    simp only [hne, if_false, hb0, hemit, if_true]
    rw [hdiv, hrec, hq32]
    rfl

theorem msd_digits_lt (b : Nat) (hb : 2 ≤ b) :
    ∀ (k num : Nat), num < b ^ k → ∀ d ∈ msd_digits b k num, d < b := by
  intro k
  induction k with
  | zero => intro num _ d hd; simp [msd_digits] at hd
  | succ k ih =>
    intro num hnum d hd
    have hpos : 0 < b ^ k := pow_pos (by omega) k
    simp only [msd_digits, List.mem_cons] at hd
    rcases hd with rfl | hd
    · exact div_lt_of_lt_pow_succ b k num hb hnum
    · exact ih _ (Nat.mod_lt _ hpos) d hd

theorem foldl_msd_digits (b : Nat) :
    ∀ (k num acc : Nat), num < b ^ k →
      (msd_digits b k num).foldl (fun a d => a * b + d) acc = acc * b ^ k + num := by
  intro k
  induction k with
  | zero =>
    intro num acc h
    simp only [pow_zero, Nat.lt_one_iff] at h
    simp [msd_digits, h]
  | succ k ih =>
    intro num acc _
    have hpos : 0 < b ^ k := by
      rcases Nat.eq_zero_or_pos b with h0 | h0
      · subst h0
        cases k with
        | zero => simp
        | succ k => simp_all
      · exact pow_pos h0 k
    simp only [msd_digits, List.foldl_cons]
    rw [ih _ _ (Nat.mod_lt _ hpos), pow_succ]
    have := Nat.div_add_mod num (b ^ k)
    nlinarith [Nat.div_add_mod num (b ^ k)]

theorem msd_digits_canonical (b k num : Nat) (hb : 2 ≤ b) (hnum : num < b ^ (k + 1))
    (hk : k = 0 ∨ b ^ k ≤ num) : canonical_numeral b num (msd_digits b (k + 1) num) := by
  have hpos : 0 < b ^ k := pow_pos (by omega) k
  refine ⟨by simp [msd_digits], msd_digits_lt b hb (k + 1) num hnum, ?_, ?_, ?_⟩
  · simp only [read_digits]
    rw [foldl_msd_digits b (k + 1) num 0 hnum]
    omega
  · intro h0
    subst h0
    rcases hk with h | h
    · subst h; simp [msd_digits]
    · omega
  · intro hne
    simp only [msd_digits, List.head?_cons, ne_eq, Option.some.injEq]
    have : 1 ≤ num / b ^ k := by
      rcases hk with h | h
      · subst h; simp; omega
      · exact (Nat.one_le_div_iff hpos).mpr h
    omega

theorem a2_body_spec (num b : Nat) (uc : Int) (fuel : Nat) (hb : 2 ≤ b) (hb' : b ≤ 36)
    (hnum : num < 4294967296) (hf : 33 ≤ fuel) :
    ∃ k, a2_body num b uc fuel
        = Run.done ((msd_digits b (k + 1) num).map (digit_glyph uc) ++ [0]) ∧
      num < b ^ (k + 1) ∧ (k = 0 ∨ b ^ k ≤ num) ∧ k < 32 := by
  have hbm : b % 4294967296 = b := Nat.mod_eq_of_lt (by omega)
  obtain ⟨k, h1, h2, h3⟩ := a2_scale_spec num b hb hnum fuel 0 (by omega) (Or.inl rfl)
  have hk : k < 32 := by
    rcases h3 with h | h
    · omega
    · by_contra hc
      have h4 : 2 ^ k ≤ b ^ k := Nat.pow_le_pow_left hb k
      have h5 : 2 ^ 32 ≤ 2 ^ k := Nat.pow_le_pow_right (by norm_num) (by omega)
      have h6 : (2 : Nat) ^ 32 = 4294967296 := by norm_num
      omega
  have hd := a2_digits_spec b uc hb (by omega) k num 0 fuel h2 (Or.inr h3) (by omega)
  refine ⟨k, ?_, h2, h3, hk⟩
  simp only [pow_zero] at h1
  simp only [a2_body, hbm, h1, hd]
  congr 2
  apply List.map_congr_left
  intro d hd'
  exact digit_char_glyph uc d (by have := msd_digits_lt b hb (k + 1) num h2 d hd'; omega)

theorem values_words_length (vs : List Nat) : (values_words vs).length = 2 * vs.length := by
  induction vs with
  | nil => rfl
  | cons v vs ih => simp only [values_words, List.length_cons, ih]; omega

theorem GCOV_COUNTERS_values (gnuc gnuc_minor : Nat) :
    GCOV_COUNTERS gnuc gnuc_minor = 8 ∨ GCOV_COUNTERS gnuc gnuc_minor = 9 := by
  simp only [GCOV_COUNTERS]
  split
  · exact Or.inl rfl
  · split
    · exact Or.inr rfl
    · exact Or.inl rfl

theorem c_string_addr : c_string "%08x: " = [37, 48, 56, 120, 58, 32, 0] := by decide

theorem c_string_data : c_string "%02x " = [37, 48, 50, 120, 32, 0] := by decide

theorem c_string_str : c_string "%s" = [37, 115, 0] := by decide

theorem gcov_printf_addr (lb f v : Nat) (bf : List Nat)
    (h : gcov_ui2a v 16 0 (f + 40) = Run.done bf) :
    gcov_printf lb (f + 40) (c_string "%08x: ") [Arg.int v]
      = Run.done (gcov_putchw 8 1 bf ++ [58, 32]) := by
  rw [c_string_addr]
  simp [gcov_printf, gcov_format, parse_conversion, parse_long, gcov_a2i, gcov_a2d, convert,
    put_number, Run.emit, h, to_int32]

theorem gcov_printf_data (lb f v : Nat) (bf : List Nat)
    (h : gcov_ui2a v 16 0 (f + 40) = Run.done bf) :
    gcov_printf lb (f + 40) (c_string "%02x ") [Arg.int v]
      = Run.done (gcov_putchw 2 1 bf ++ [32]) := by
  rw [c_string_data]
  simp [gcov_printf, gcov_format, parse_conversion, parse_long, gcov_a2i, gcov_a2d, convert,
    put_number, Run.emit, h, to_int32]

theorem gcov_printf_str (lb f : Nat) (p : List Nat) :
    gcov_printf lb (f + 40) (c_string "%s") [Arg.str (some p)] = Run.done (cstr (some p)) := by
  rw [c_string_str]
  have hs : putchw_skip 0 p = 0 := by cases p <;> simp [putchw_skip]
  simp [gcov_printf, gcov_format, parse_conversion, parse_long, convert, Run.emit,
    gcov_putchw, hs]

theorem putchw_skip_digits (digs : List Nat) (hd : ∀ c ∈ digs, c % 256 ≠ 0) :
    ∀ (n : Int), (digs.length : Int) ≤ n →
      putchw_skip n (digs ++ [0]) = n - digs.length := by
  induction digs with
  | nil => intro n _; simp [putchw_skip]
  | cons c cs ih =>
    intro n hn
    have hc : c % 256 ≠ 0 := hd c (List.mem_cons_self _ _)
    simp only [List.length_cons, Nat.cast_add, Nat.cast_one] at hn
    have hpos : n > 0 := by omega
    have hrec := ih (fun x hx => hd x (List.mem_cons_of_mem _ hx)) (n - 1) (by omega)
    simp only [List.cons_append, putchw_skip, hc, hpos, ne_eq, not_false_eq_true, and_self,
      if_true, List.append_eq, hrec, List.length_cons, Nat.cast_add, Nat.cast_one]
    omega

theorem cstr_digits (digs : List Nat) (hd : ∀ c ∈ digs, c % 256 ≠ 0 ∧ c < 256) :
    cstr (some (digs ++ [0])) = digs := by
  induction digs with
  | nil => simp [cstr]
  | cons c cs ih =>
    have hc := hd c (List.mem_cons_self _ _)
    have hmod : c % 256 = c := Nat.mod_eq_of_lt hc.2
    have ih' := ih (fun x hx => hd x (List.mem_cons_of_mem _ hx))
    simp only [cstr] at ih'
    have hne : c ≠ 0 := by omega
    simp [cstr, hmod, hne, List.takeWhile_cons]
    simpa using ih'

theorem gcov_putchw_digits (w : Nat) (digs : List Nat)
    (hd : ∀ c ∈ digs, c % 256 ≠ 0 ∧ c < 256) (hw : digs.length ≤ w) :
    gcov_putchw w 1 (digs ++ [0]) = List.replicate (w - digs.length) 48 ++ digs := by
  have hs := putchw_skip_digits digs (fun c hc => (hd c hc).1) (w : Int) (by exact_mod_cast hw)
  simp only [gcov_putchw, hs, cstr_digits digs hd]
  have : ((w : Int) - (digs.length : Int)).toNat = w - digs.length := by omega
  simp [this]

theorem msd_digits_pad (b : Nat) (hb : 2 ≤ b) (k num : Nat) (hnum : num < b ^ k) :
    ∀ j, msd_digits b (k + j) num = List.replicate j 0 ++ msd_digits b k num := by
  intro j
  induction j with
  | zero => simp
  | succ j ih =>
    have hle : b ^ k ≤ b ^ (k + j) := Nat.pow_le_pow_right (by omega) (by omega)
    have hlt : num < b ^ (k + j) := by omega
    have e : k + (j + 1) = (k + j) + 1 := by omega
    rw [e]
    simp only [msd_digits, Nat.div_eq_of_lt hlt, Nat.mod_eq_of_lt hlt, ih]
    rfl

theorem msd_digits_range (b : Nat) (hb : 2 ≤ b) :
    ∀ (k num : Nat), num < b ^ k →
      msd_digits b k num = (List.range k).map (fun j => num / b ^ (k - 1 - j) % b) := by
  intro k
  induction k with
  | zero => intro num _; rfl
  | succ k ih =>
    intro num hnum
    have hpos : 0 < b ^ k := pow_pos (by omega) k
    have hq : num / b ^ k < b := div_lt_of_lt_pow_succ b k num hb hnum
    simp only [msd_digits]
    rw [ih _ (Nat.mod_lt _ hpos), List.range_succ_eq_map, List.map_cons, List.map_map]
    congr 1
    · simp [Nat.mod_eq_of_lt hq]
    · apply List.map_congr_left
      intro j hj
      have hj' : j < k := List.mem_range.mp hj
      simp only [Function.comp, Nat.add_sub_cancel, Nat.succ_eq_add_one]
      have e1 : k - (j + 1) = k - 1 - j := by omega
      rw [e1]
      have e2 : b ^ k = b ^ (k - 1 - j) * b ^ (j + 1) := by
        rw [← pow_add]; congr 1; omega
      rw [e2, Nat.mod_mul_right_div_self]
      exact Nat.mod_mod_of_dvd _ (dvd_pow_self b (by omega))

theorem hex_field_msd (w v : Nat) (hv : v < 16 ^ w) :
    hex_field w v = (msd_digits 16 w v).map (digit_glyph 0) := by
  rw [msd_digits_range 16 (by norm_num) w v hv, List.map_map]
  rfl

theorem msd_digits_length (b : Nat) : ∀ (k num : Nat), (msd_digits b k num).length = k := by
  intro k
  induction k with
  | zero => intro num; rfl
  | succ k ih => intro num; simp [msd_digits, ih]

theorem digit_glyph_hex (d : Nat) (h : d < 16) :
    digit_glyph 0 d % 256 ≠ 0 ∧ digit_glyph 0 d < 256 := by
  simp only [digit_glyph]
  split
  · omega
  · simp only [ne_eq, not_true_eq_false, if_false]; omega

theorem gcov_ui2a_hex_field (w v fuel : Nat) (hw : 1 ≤ w) (hv : v < 16 ^ w)
    (hv32 : v < 4294967296) (hf : 33 ≤ fuel) :
    ∃ bf, gcov_ui2a v 16 0 fuel = Run.done bf ∧ gcov_putchw w 1 bf = hex_field w v := by
  obtain ⟨k, h1, h2, h3, _⟩ := a2_body_spec v 16 0 fuel (by norm_num) (by norm_num) hv32 hf
  have hkw : k + 1 ≤ w := by
    rcases h3 with h | h
    · omega
    · by_contra hc
      have : 16 ^ w ≤ 16 ^ k := Nat.pow_le_pow_right (by norm_num) (by omega)
      omega
  refine ⟨(msd_digits 16 (k + 1) v).map (digit_glyph 0) ++ [0],
    by simp only [gcov_ui2a, Nat.mod_eq_of_lt hv32, h1], ?_⟩
  have hd : ∀ c ∈ (msd_digits 16 (k + 1) v).map (digit_glyph 0), c % 256 ≠ 0 ∧ c < 256 := by
    intro c hc
    simp only [List.mem_map] at hc
    obtain ⟨d, hd, rfl⟩ := hc
    exact digit_glyph_hex d (msd_digits_lt 16 (by norm_num) (k + 1) v h2 d hd)
  rw [gcov_putchw_digits w _ hd (by simp [msd_digits_length]; omega)]
  rw [hex_field_msd w v hv]
  have e : w = (k + 1) + (w - (k + 1)) := by omega
  have hp := msd_digits_pad 16 (by norm_num) (k + 1) v h2 (w - (k + 1))
  rw [← e] at hp
  rw [hp]
  simp [msd_digits_length, digit_glyph]

theorem render_text_of (lb fuel : Nat) (hf : 40 ≤ fuel) (e : Event)
    (he : match e with
      | Event.GCOV_PRINT_STR none => False
      | Event.GCOV_PRINT_NUM _ => False
      | Event.GCOV_PRINT_HEXDUMP_ADDR num => num < 4294967296
      | Event.GCOV_PRINT_HEXDUMP_DATA num => num < 256
      | _ => True) :
    render lb fuel e = Run.done (text_of e) := by
  obtain ⟨f, rfl⟩ : ∃ f, fuel = f + 40 := ⟨fuel - 40, by omega⟩
  cases e with
  | GCOV_PRINT_STR str =>
    cases str with
    | none => exact absurd he id
    | some p => exact gcov_printf_str lb f p
  | GCOV_PRINT_NUM num => exact absurd he id
  | GCOV_PRINT_HEXDUMP_ADDR num =>
    obtain ⟨bf, h1, h2⟩ := gcov_ui2a_hex_field 8 num (f + 40) (by norm_num)
      (by simp only at he; norm_num; exact he) he (by omega)
    have h3 : gcov_putchw 8 1 bf = hex_field 8 num := by simpa using h2
    simp only [render, text_of, gcov_printf_addr lb f num bf h1, h3]
  | GCOV_PRINT_HEXDUMP_DATA num =>
    obtain ⟨bf, h1, h2⟩ := gcov_ui2a_hex_field 2 num (f + 40) (by norm_num)
      (by simp only at he; norm_num; exact he) (by simp only at he; omega) (by omega)
    have h3 : gcov_putchw 2 1 bf = hex_field 2 num := by simpa using h2
    simp only [render, text_of, gcov_printf_data lb f num bf h1, h3]
  | _ => rfl

theorem render_all_text (lb fuel : Nat) (es : List Event)
    (h : ∀ e ∈ es, render lb fuel e = Run.done (text_of e)) :
    render_all lb fuel es = Run.done (es.flatMap text_of) := by
  induction es with
  | nil => rfl
  | cons e es ih =>
    simp only [render_all, h e (List.mem_cons_self _ _),
      ih (fun x hx => h x (List.mem_cons_of_mem _ hx)), List.flatMap_cons]

theorem buffer_byte_lt (be : Bool) (buffer : Nat → Nat) (i : Nat) :
    buffer_byte be buffer i < 256 := by
  simp only [buffer_byte]
  split <;> exact Nat.mod_lt _ (by norm_num)

theorem hexdump_renders (lb fuel : Nat) (be : Bool) (buffer : Nat → Nat) (n : Nat)
    (name : List Nat) (hn : n ≤ 4294967296) (hf : 40 ≤ fuel) :
    ∀ e ∈ hexdump be buffer n (some name), render lb fuel e = Run.done (text_of e) := by
  intro e he
  apply render_text_of lb fuel hf
  simp only [hexdump, List.mem_append, List.mem_flatMap, List.mem_range] at he
  rcases he with ⟨i, hi0, hi⟩ | he
  · rcases hi with (hi | hi) | hi
    · split at hi
      · simp at hi; subst hi; simp only; omega
      · simp at hi
    · simp at hi; subst hi; exact buffer_byte_lt be buffer i
    · split at hi
      · simp at hi; subst hi; simp only [print_lit]
      · simp at hi
  · simp at he
    rcases he with he | he | he <;> subst he <;> simp only [print_lit]

theorem hexdump_flat_text (be : Bool) (buffer : Nat → Nat) (n : Nat) (name : List Nat) :
    (hexdump be buffer n (some name)).flatMap text_of
      = hexdump_text (buffer_bytes be buffer n) (cstr (some name)) := by
  have hnl : cstr (some (lit "\n")) = [10] := by decide
  simp only [hexdump, hexdump_text, List.flatMap_append, List.flatMap_assoc, buffer_bytes,
    List.length_map, List.length_range]
  congr 1
  · apply List.flatMap_congr
    intro i hi
    have hi' : i < n := List.mem_range.mp hi
    have hg : ((List.range n).map (buffer_byte be buffer)).getD i 0 = buffer_byte be buffer i := by
      simp [List.getD, hi']
    rw [hg]
    by_cases h0 : i % 16 = 0 <;> by_cases h15 : i % 16 = 15 <;>
      simp [h0, h15, text_of, print_lit, hnl]

theorem hexdump_data (be : Bool) (buffer : Nat → Nat) (n : Nat) (name : Option (List Nat)) :
    (hexdump be buffer n name).filterMap hexdump_data_of = buffer_bytes be buffer n := by
  simp only [hexdump, List.filterMap_append, buffer_bytes]
  have htail : [print_lit "\n", Event.GCOV_PRINT_STR name, print_lit "\n"].filterMap
      hexdump_data_of = [] := rfl
  rw [htail, List.append_nil]
  induction n with
  | zero => rfl
  | succ n ih =>
    rw [List.range_succ, List.flatMap_append, List.filterMap_append, ih, List.map_append]
    congr 1
    by_cases h0 : n % 16 = 0 <;> by_cases h15 : n % 16 = 15 <;>
      simp [h0, h15, hexdump_data_of, print_lit]

theorem hexdump_addr (be : Bool) (buffer : Nat → Nat) (n : Nat) (name : Option (List Nat)) :
    (hexdump be buffer n name).filterMap hexdump_addr_of
      = (List.range ((n + 15) / 16)).map (fun j => 16 * j) := by
  simp only [hexdump, List.filterMap_append]
  have htail : [print_lit "\n", Event.GCOV_PRINT_STR name, print_lit "\n"].filterMap
      hexdump_addr_of = [] := rfl
  rw [htail, List.append_nil]
  induction n with
  | zero => rfl
  | succ n ih =>
    rw [List.range_succ, List.flatMap_append, List.filterMap_append, ih]
    by_cases h0 : n % 16 = 0
    · have e : (n + 1 + 15) / 16 = (n + 15) / 16 + 1 := by omega
      have e2 : 16 * ((n + 15) / 16) = n := by omega
      rw [e, List.range_succ, List.map_append]
      congr 1
      by_cases h15 : n % 16 = 15 <;> simp [h0, h15, hexdump_addr_of, print_lit, e2]
    · have e : (n + 1 + 15) / 16 = (n + 15) / 16 := by omega
      rw [e]
      by_cases h15 : n % 16 = 15 <;> simp [h0, h15, hexdump_addr_of, print_lit]

theorem putchw_skip_text (t rest : List Nat) (ht : ∀ c ∈ t, c % 256 ≠ 0) :
    ∀ (n : Int), 0 ≤ n → putchw_skip n (t ++ 0 :: rest) = max (n - t.length) 0 := by
  induction t with
  | nil => intro n hn; simp [putchw_skip, hn]
  | cons c cs ih =>
    intro n hn
    have hc : c % 256 ≠ 0 := ht c (List.mem_cons_self _ _)
    have ih' := ih (fun x hx => ht x (List.mem_cons_of_mem _ hx))
    by_cases hpos : n > 0
    · have hrec := ih' (n - 1) (by omega)
      simp only [List.cons_append, putchw_skip, hc, hpos, ne_eq, not_false_eq_true, and_self,
        if_true, List.append_eq, hrec, List.length_cons, Nat.cast_add, Nat.cast_one]
      omega
    · simp only [List.cons_append, putchw_skip, hpos, and_false, if_false, List.length_cons,
        Nat.cast_add, Nat.cast_one]
      omega

theorem cstr_text (t rest : List Nat) (ht : ∀ c ∈ t, c ≠ 0 ∧ c < 256) :
    cstr (some (t ++ 0 :: rest)) = t := by
  induction t with
  | nil => simp [cstr]
  | cons c cs ih =>
    have hc := ht c (List.mem_cons_self _ _)
    have hmod : c % 256 = c := Nat.mod_eq_of_lt hc.2
    have ih' := ih (fun x hx => ht x (List.mem_cons_of_mem _ hx))
    simp only [cstr] at ih'
    simp [cstr, hmod, hc.1, List.takeWhile_cons]
    simpa using ih'

theorem a2_body_length (num b K : Nat) (uc : Int) (fuel : Nat) (hb : 2 ≤ b) (hb' : b ≤ 36)
    (hnum : num < 4294967296) (hK : num < b ^ K) (hK1 : 1 ≤ K) (hf : 33 ≤ fuel) :
    ∃ bf, a2_body num b uc fuel = Run.done bf ∧ bf.length ≤ K + 1 := by
  obtain ⟨k, h1, _, h3, _⟩ := a2_body_spec num b uc fuel hb hb' hnum hf
  refine ⟨_, h1, ?_⟩
  have hk : k + 1 ≤ K := by
    rcases h3 with h | h
    · omega
    · by_contra hc
      have : b ^ K ≤ b ^ k := Nat.pow_le_pow_right (by omega) (by omega)
      omega
  simp [msd_digits_length]
  omega

theorem gcov_ui2a_length (v b K : Nat) (uc : Int) (fuel : Nat) (hb : 2 ≤ b) (hb' : b ≤ 36)
    (hv : v < 4294967296) (hK : v < b ^ K) (hK1 : 1 ≤ K) (hf : 33 ≤ fuel) :
    ∃ bf, gcov_ui2a v b uc fuel = Run.done bf ∧ bf.length ≤ K + 1 := by
  simp only [gcov_ui2a, Nat.mod_eq_of_lt hv]
  exact a2_body_length v b K uc fuel hb hb' hv hK hK1 hf

theorem gcov_i2a_length (n : Int) (fuel : Nat) (hf : 33 ≤ fuel) :
    ∃ bf, gcov_i2a n fuel = Run.done bf ∧ bf.length ≤ 12 := by
  by_cases hneg : n < 0
  · obtain ⟨bf, h1, h2⟩ := gcov_ui2a_length ((-n) % 4294967296).toNat 10 10 0 fuel
      (by norm_num) (by norm_num) (by omega) (by norm_num; omega) (by norm_num) hf
    refine ⟨45 :: bf, ?_, by simp; omega⟩
    simp only [gcov_i2a, hneg, if_true, h1, Run.cons]
  · obtain ⟨bf, h1, h2⟩ := gcov_ui2a_length (n % 4294967296).toNat 10 10 0 fuel
      (by norm_num) (by norm_num) (by omega) (by norm_num; omega) (by norm_num) hf
    refine ⟨bf, ?_, by omega⟩
    simp only [gcov_i2a, hneg, if_false, h1]

theorem gcov_i2a_min (fuel : Nat) (hf : 33 ≤ fuel) :
    gcov_i2a (-2147483648) fuel = Run.done (lit "-2147483648" ++ [0]) := by
  obtain ⟨k, h1, h2, h3, _⟩ := a2_body_spec 2147483648 10 0 fuel (by norm_num) (by norm_num)
    (by norm_num) hf
  have hk : k = 9 := by
    have hlt : k < 10 := by
      by_contra hc
      have : 10 ^ 10 ≤ 10 ^ k := Nat.pow_le_pow_right (by norm_num) (by omega)
      rcases h3 with h | h <;> omega
    have hge : 9 ≤ k := by
      by_contra hc
      have : 10 ^ (k + 1) ≤ 10 ^ 9 := Nat.pow_le_pow_right (by norm_num) (by omega)
      omega
    omega
  subst hk
  have e : ((-(-2147483648 : Int)) % 4294967296).toNat = 2147483648 := by decide
  have hneg : (-2147483648 : Int) < 0 := by decide
  simp only [gcov_i2a, hneg, if_true, e, gcov_ui2a, Nat.reduceMod, h1, Run.cons]
  decide

theorem pool_infos_length (pool : Nat → GcovInfo) : ∀ n, (pool_infos pool n).length = n := by
  intro n
  induction n with
  | zero => rfl
  | succ n ih => simp [pool_infos, ih]

theorem registry_nodes_chain (pool : Nat → GcovInfo) :
    ∀ (n : Nat), (∀ k, k < n → (pool k).next = pool_ptr k) →
      ∀ fuel, n ≤ fuel → registry_nodes pool fuel (pool_ptr n) = some (List.range n).reverse := by
  intro n
  induction n with
  | zero => intro _ fuel _; cases fuel <;> rfl
  | succ n ih =>
    intro h fuel hf
    cases fuel with
    | zero => omega
    | succ fuel =>
      simp only [pool_ptr, registry_nodes]
      rw [h n (by omega), ih (fun k hk => h k (by omega)) fuel (by omega)]
      simp [List.range_succ]

theorem registry_nodes_short (pool : Nat → GcovInfo) :
    ∀ (n : Nat), (∀ k, k < n → (pool k).next = pool_ptr k) →
      ∀ fuel, fuel < n → registry_nodes pool fuel (pool_ptr n) = none := by
  intro n
  induction n with
  | zero => intro _ fuel hf; omega
  | succ n ih =>
    intro h fuel hf
    cases fuel with
    | zero => rfl
    | succ fuel =>
      simp only [pool_ptr, registry_nodes]
      rw [h n (by omega), ih (fun k hk => h k (by omega)) fuel (by omega)]
      rfl

theorem gcov_init_full_state {μ : Type} (o : Options) (G : GcovGcc μ) (d : Nat) (s : State μ)
    (hfull : s.gcov_GcovIndex ≥ gcov_GcovInfo_count) : (__gcov_init o G d s).state = s := by
  simp [__gcov_init, hfull]

theorem registry_call_inv {μ : Type} (o : Options) (G : GcovGcc μ) (st : RegistryStep)
    (s : State μ) (h : registry_inv s) : registry_inv (registry_call o G st s).state := by
  cases st with
  | init info =>
    by_cases hlt : s.gcov_GcovIndex < gcov_GcovInfo_count
    · exact (gcov_init_inv o G info s h hlt).2.1
    · simp only [registry_call]
      rw [gcov_init_full_state o G info s (by omega)]
      exact h
  | reset => exact registry_inv_empty _ rfl rfl

theorem registry_steps_inv {μ : Type} (o : Options) (G : GcovGcc μ) :
    ∀ (steps : List RegistryStep) (s : State μ), registry_inv s →
      registry_inv (registry_steps o G steps s) := by
  intro steps
  induction steps with
  | nil => intro s h; exact h
  | cons st rest ih =>
    intro s h
    have h1 := registry_call_inv o G st s h
    have h2 := ih (registry_call o G st s).state h1
    simp only [registry_steps, List.map_cons, run_calls] at h2 ⊢
    cases hout : (registry_call o G st s).outcome with
    | exited => simpa [hout] using h1
    | returned => simpa [hout] using h2

theorem loop_calls_length {μ : Type} (G : GcovGcc μ) (m : μ) :
    ∀ (l : List Nat), (loop_calls G m l).length ≤ 2 * l.length := by
  intro l
  induction l with
  | nil => simp [loop_calls]
  | cons d l ih =>
    simp only [loop_calls]
    split
    · simp only [List.length_cons, List.length_nil]; omega
    · simp only [List.length_cons]; omega

theorem loop_calls_all_fit {μ : Type} (G : GcovGcc μ) (m : μ) :
    ∀ (l : List Nat), (∀ d ∈ l, bytesNeeded G m d ≤ gcov_buf_bytes) →
      loop_calls G m l = l.flatMap (fun d => [(false, d), (true, d)]) := by
  intro l
  induction l with
  | nil => intro _; rfl
  | cons d l ih =>
    intro h
    have hd : ¬ bytesNeeded G m d > gcov_buf_bytes := by
      have := h d (List.mem_cons_self _ _); omega
    simp only [loop_calls, hd, if_false, List.flatMap_cons,
      ih (fun x hx => h x (List.mem_cons_of_mem _ hx))]
    rfl

theorem at_offsets_snd : ∀ (bytes : List Nat) (start : Nat),
    (at_offsets start bytes).map Prod.snd = bytes := by
  intro bytes
  induction bytes with
  | nil => intro _; rfl
  | cons b bs ih => intro start; simp only [at_offsets, List.map_cons, ih]

theorem cstr_nonzero (p : Option (List Nat)) : ∀ c ∈ cstr p, c ≠ 0 := by
  intro c hc
  cases p with
  | none => simp [cstr] at hc
  | some q =>
    simp only [cstr] at hc
    have := List.mem_takeWhile_imp hc
    simpa using this

theorem takeWhile_take_text (rest : List Nat) :
    ∀ (name : List Nat), (∀ c ∈ name, c ≠ 0) → ∀ k,
      ((name ++ 0 :: rest).take k).takeWhile (fun c => decide (c ≠ 0)) = name.take k := by
  intro name
  induction name with
  | nil => intro _ k; cases k <;> simp [List.takeWhile_cons]
  | cons c cs ih =>
    intro h k
    have hc : c ≠ 0 := h c (List.mem_cons_self _ _)
    cases k with
    | zero => simp
    | succ k =>
      simp only [List.cons_append, List.take_succ_cons, List.takeWhile_cons, hc, ne_eq,
        not_false_eq_true, decide_True, if_true]
      rw [ih (fun x hx => h x (List.mem_cons_of_mem _ hx)) k]

theorem take_nine_not_marker (name rest : List Nat) (hnz : ∀ c ∈ name, c ≠ 0)
    (hne : name ≠ lit "Gcov End") : (name ++ 0 :: rest).take 9 ≠ gcov_end_marker := by
  intro h
  have h1 := takeWhile_take_text rest name hnz 9
  rw [h] at h1
  have h2 : gcov_end_marker.takeWhile (fun c => decide (c ≠ 0)) = lit "Gcov End" := by decide
  rw [h2] at h1
  have hlen : (name.take 9).length = 8 := by rw [← h1]; decide
  rw [List.length_take] at hlen
  have hn : name.length = 8 := by omega
  have : name.take 9 = name := List.take_of_length_le (by omega)
  rw [this] at h1
  exact hne h1.symm

theorem dropWhile_text (rest : List Nat) :
    ∀ (name : List Nat), (∀ c ∈ name, c ≠ 0) →
      (name ++ 0 :: rest).dropWhile (fun c => decide (c ≠ 0)) = 0 :: rest ∧
      (name ++ 0 :: rest).takeWhile (fun c => decide (c ≠ 0)) = name := by
  intro name
  induction name with
  | nil => intro _; simp [List.dropWhile_cons, List.takeWhile_cons]
  | cons c cs ih =>
    intro h
    have hc : c ≠ 0 := h c (List.mem_cons_self _ _)
    have ih' := ih (fun x hx => h x (List.mem_cons_of_mem _ hx))
    simp only [List.cons_append, List.dropWhile_cons, List.takeWhile_cons, hc, ne_eq,
      not_false_eq_true, decide_True, if_true, ih'.1, ih'.2, and_self]

theorem read_length_bytes (n : Nat) (h : n < 4294967296) :
    read_length (n / 16777216 % 256) (n / 65536 % 256) (n / 256 % 256) (n % 256) = n := by
  simp only [read_length]
  omega

theorem decode_stream_group (fuel : Nat) (name : Option (List Nat)) (n : Nat)
    (data rest : List Nat) (hne : cstr name ≠ lit "Gcov End") (hn : n < 4294967296)
    (hd : data.length = n) :
    decode_stream (fuel + 1) (envelope name n data ++ rest)
      = (decode_stream fuel rest).map (fun groups => (cstr name, data) :: groups) := by
  have e : envelope name n data ++ rest
      = cstr name ++ 0 :: (n / 16777216 % 256 :: n / 65536 % 256 :: n / 256 % 256 ::
          n % 256 :: (data ++ rest)) := by
    simp [envelope, length_bytes, List.append_assoc]
  have hnz := cstr_nonzero name
  have h9 := take_nine_not_marker (cstr name) (n / 16777216 % 256 :: n / 65536 % 256 ::
    n / 256 % 256 :: n % 256 :: (data ++ rest)) hnz hne
  have hdw := dropWhile_text (n / 16777216 % 256 :: n / 65536 % 256 :: n / 256 % 256 ::
          n % 256 :: (data ++ rest)) (cstr name) hnz
  rw [e]
  simp only [decode_stream, h9, if_false, hdw.1, hdw.2, read_length_bytes n hn]
  have hle : n ≤ (data ++ rest).length := by rw [List.length_append]; omega
  subst hd
  simp only [hle, if_true, List.drop_left, List.take_left]

theorem decode_stream_marker (fuel : Nat) (rest : List Nat) :
    decode_stream (fuel + 1) (gcov_end_marker ++ rest) = some [] := by
  have h : (gcov_end_marker ++ rest).take 9 = gcov_end_marker := by
    have : gcov_end_marker.length = 9 := by decide
    rw [← this, List.take_left]
  simp only [decode_stream, h, if_true]

theorem buffer_bytes_length (be : Bool) (buffer : Nat → Nat) (n : Nat) :
    (buffer_bytes be buffer n).length = n := by
  simp [buffer_bytes]

theorem decode_stream_emitted {μ : Type} (o : Options) (G : GcovGcc μ) (m : μ)
    (rest : List Nat) :
    ∀ (l : List Nat) (buf : Nat → Nat) (fuel : Nat),
      (∀ d ∈ l, bytesNeeded G m d ≤ gcov_buf_bytes) →
      (∀ d ∈ l, cstr (G.gcov_info_filename m d) ≠ lit "Gcov End") →
      l.length < fuel →
      decode_stream fuel (emitted o G m l buf ++ (gcov_end_marker ++ rest))
        = some (records o G m l buf) := by
  intro l
  induction l with
  | nil =>
    intro buf fuel _ _ hf
    obtain ⟨f, rfl⟩ : ∃ f, fuel = f + 1 := ⟨fuel - 1, by simp at hf; omega⟩
    simp only [emitted, records, List.nil_append]
    exact decode_stream_marker f rest
  | cons d l ih =>
    intro buf fuel hfit hname hf
    obtain ⟨f, rfl⟩ : ∃ f, fuel = f + 1 := ⟨fuel - 1, by simp at hf; omega⟩
    have hd : ¬ bytesNeeded G m d > gcov_buf_bytes := by
      have := hfit d (List.mem_cons_self _ _); omega
    have hlt : bytesNeeded G m d < 4294967296 := by
      simp only [bytesNeeded]; exact Nat.mod_lt _ (by norm_num)
    simp only [emitted, hd, if_false, records, List.append_assoc]
    rw [decode_stream_group f _ _ _ _ (hname d (List.mem_cons_self _ _)) hlt
      (buffer_bytes_length _ _ _)]
    rw [ih _ f (fun x hx => hfit x (List.mem_cons_of_mem _ hx))
      (fun x hx => hname x (List.mem_cons_of_mem _ hx)) (by simp at hf; omega)]
    rfl

theorem emitted_length {μ : Type} (o : Options) (G : GcovGcc μ) (m : μ) :
    ∀ (l : List Nat) (buf : Nat → Nat),
      (∀ d ∈ l, bytesNeeded G m d ≤ gcov_buf_bytes) →
      l.length ≤ (emitted o G m l buf).length := by
  intro l
  induction l with
  | nil => intro _ _; simp
  | cons d l ih =>
    intro buf hfit
    have hd : ¬ bytesNeeded G m d > gcov_buf_bytes := by
      have := hfit d (List.mem_cons_self _ _); omega
    have := ih (G.gcov_convert_to_gcda m buf d).1 (fun x hx => hfit x (List.mem_cons_of_mem _ hx))
    simp only [emitted, hd, if_false, List.length_append, List.length_cons, envelope,
      length_bytes, List.length_nil]
    omega

theorem fitting_head_all {μ : Type} (G : GcovGcc μ) (m : μ) :
    ∀ (l : List Nat), (∀ d ∈ l, bytesNeeded G m d ≤ gcov_buf_bytes) → fitting_head G m l = l := by
  intro l
  induction l with
  | nil => intro _; rfl
  | cons d l ih =>
    intro hfit
    have hd : ¬ bytesNeeded G m d > gcov_buf_bytes := by
      have := hfit d (List.mem_cons_self _ _); omega
    simp only [fitting_head, hd, if_false, ih (fun x hx => hfit x (List.mem_cons_of_mem _ hx))]

theorem records_names {μ : Type} (o : Options) (G : GcovGcc μ) (m : μ) :
    ∀ (l : List Nat) (buf : Nat → Nat),
      (records o G m l buf).map Prod.fst = l.map (fun d => cstr (G.gcov_info_filename m d)) := by
  intro l
  induction l with
  | nil => intro _; rfl
  | cons d l ih => intro buf; simp only [records, List.map_cons, ih]

end helpers

/-! ### The claims -/

/-- C1, counterexample: with the file sink and the memory-block sink both enabled, two
registered descriptors that fit the scratch buffer, and a file that fails to open,
`__gcov_exit` stores nothing in the memory block, while the claimed stream is not empty. -/
theorem gcov_exit_memory_stream_fails_when_open_fails :
    example_file_and_memory.GCOV_OPT_OUTPUT_BINARY_MEMORY = true ∧
    registry_walk example_state.gcov_GcovInfo 2 example_state.gcov_headGcov = some [2, 1] ∧
    (gcov_gcc 8).gcov_convert_to_gcda_null example_state.descriptors 2 = 56 ∧
    (gcov_gcc 8).gcov_convert_to_gcda_null example_state.descriptors 1 = 56 ∧
    (__gcov_exit example_file_and_memory (gcov_gcc 8) false 2 example_state).map
      (fun r => stores r.events) = some [] ∧
    (stream example_file_and_memory (gcov_gcc 8) example_state.descriptors [2, 1]
      example_state.gcov_buf ++ gcov_end_marker).length = 137 := by
  set_option maxRecDepth 100000 in
  refine ⟨rfl, by decide, by decide, by decide, by decide, by decide⟩

/-- C1, amended: with the memory-block sink enabled, the file sink disabled or its file
opened, and every registered descriptor's size at most 32768, `__gcov_exit` returns and the
stores it makes into the memory block are, in order and at the successive output indices from
0 on, exactly the bytes of: for each descriptor in list order its name bytes, a null, the four
length bytes of its size and the first size bytes of the filled buffer; then the 9 marker
bytes. The final output index is the number of these bytes (modulo 2^32), and when they fit
the 32-bit index range the memory block holds them from offset 0 and is unchanged elsewhere. -/
theorem gcov_exit_memory_stream {μ : Type} (o : Options) (G : GcovGcc μ) (open_ok : Bool)
    (s : State μ) (n : Nat) (l : List Nat) (fuel : Nat)
    (hmem : o.GCOV_OPT_OUTPUT_BINARY_MEMORY = true)
    (hopen : o.GCOV_OPT_OUTPUT_BINARY_FILE = false ∨ open_ok = true)
    (hl : registry_walk s.gcov_GcovInfo n s.gcov_headGcov = some l)
    (hfit : ∀ d ∈ l, G.gcov_convert_to_gcda_null s.descriptors d ≤ 32768)
    (hf : l.length ≤ fuel) :
    ∃ r, __gcov_exit o G open_ok fuel s = some r ∧ r.outcome = Outcome.returned ∧
      stores r.events
        = at_offsets 0 (stream o G s.descriptors l s.gcov_buf ++ gcov_end_marker) ∧
      gcov_end_marker = [71, 99, 111, 118, 32, 69, 110, 100, 0] ∧
      r.state.gcov_output_index
        = ((stream o G s.descriptors l s.gcov_buf).length + 9) % 4294967296 ∧
      ((stream o G s.descriptors l s.gcov_buf).length + 9 ≤ 4294967296 →
        ∀ (mem : Nat → Nat) (i : Nat),
          apply_stores mem (stores r.events) i
            = if i < (stream o G s.descriptors l s.gcov_buf).length + 9 then
                (stream o G s.descriptors l s.gcov_buf ++ gcov_end_marker).getD i 0
              else mem i) := by
  refine ⟨exit_on_list o G l s, gcov_exit_eq o G open_ok s n l hopen hl fuel hf, ?_⟩
  obtain ⟨h1, h2, _, h4, _⟩ := exit_on_list_fits o G l s hfit
  refine ⟨h1, ?_, by decide, ?_, ?_⟩
  · rw [h4]; simp [hmem]
  · rw [h2]; simp [hmem]
  · intro hlen mem i
    rw [h4]
    simp only [hmem, if_true]
    have hlen' : 0 + (stream o G s.descriptors l s.gcov_buf ++ gcov_end_marker).length
        ≤ 4294967296 := by
      simp only [List.length_append]
      have : gcov_end_marker.length = 9 := rfl
      omega
    rw [apply_stores_at_offsets _ 0 mem i hlen']
    have : gcov_end_marker.length = 9 := rfl
    simp [this]

/-- C1, amended, at a concrete input: the memory-block sink alone and the two example
descriptors registered. -/
theorem gcov_exit_memory_stream_witness :
    example_memory_only.GCOV_OPT_OUTPUT_BINARY_MEMORY = true ∧
    registry_walk example_state.gcov_GcovInfo 2 example_state.gcov_headGcov = some [2, 1] ∧
    ∃ r, __gcov_exit example_memory_only (gcov_gcc 8) false 2 example_state = some r ∧
      r.outcome = Outcome.returned ∧
      stores r.events
        = at_offsets 0 (stream example_memory_only (gcov_gcc 8) example_state.descriptors
            [2, 1] example_state.gcov_buf ++ gcov_end_marker) :=
  ⟨rfl, by decide,
    (gcov_exit_memory_stream example_memory_only (gcov_gcc 8) false example_state 2 [2, 1] 2
      rfl (Or.inl rfl) (by decide) (by decide) (by decide)).imp
      (fun _ h => ⟨h.1, h.2.1, h.2.2.1⟩)⟩

/-- C2: for every 32-bit record length `L`, the four length bytes are each below 256 and
`b0 * 2^24 + b1 * 2^16 + b2 * 2^8 + b3 = L`; the file sink passes them to `GCOV_WRITE_BYTE`
and the memory sink stores them, in this order, between the null that ends the name and the
record bytes. -/
theorem length_bytes_most_significant_first (L : Nat) (h : L < 4294967296) :
    ∃ b0 b1 b2 b3, length_bytes L = [b0, b1, b2, b3] ∧
      b0 < 256 ∧ b1 < 256 ∧ b2 < 256 ∧ b3 < 256 ∧
      b0 * 2 ^ 24 + b1 * 2 ^ 16 + b2 * 2 ^ 8 + b3 = L ∧
      (∀ (o : Options) (name : Option (List Nat)) (buffer : Nat → Nat) (index : Nat),
        o.GCOV_OPT_OUTPUT_BINARY_FILE = true →
        file_bytes (emit_descriptor o name L buffer index).1
          = cstr name ++ [0] ++ [b0, b1, b2, b3] ++ buffer_bytes o.big_endian buffer L) ∧
      (∀ (o : Options) (name : Option (List Nat)) (buffer : Nat → Nat) (index : Nat),
        o.GCOV_OPT_OUTPUT_BINARY_MEMORY = true →
        stores (emit_descriptor o name L buffer index).1
          = at_offsets index
              (cstr name ++ [0] ++ [b0, b1, b2, b3] ++ buffer_bytes o.big_endian buffer L)) := by
  refine ⟨(L / 16777216) % 256, (L / 65536) % 256, (L / 256) % 256, L % 256, rfl,
    Nat.mod_lt _ (by norm_num), Nat.mod_lt _ (by norm_num), Nat.mod_lt _ (by norm_num),
    Nat.mod_lt _ (by norm_num), by omega, ?_, ?_⟩
  · intro o name buffer index ho
    rw [file_bytes_emit_descriptor]
    simp [ho, envelope, length_bytes]
  · intro o name buffer index ho
    rw [stores_emit_descriptor]
    simp [ho, envelope, length_bytes]

/-- C2 at a concrete input: the length 32768 is written as the bytes 0, 0, 128, 0. -/
theorem length_bytes_most_significant_first_witness :
    (32768 : Nat) < 4294967296 ∧ length_bytes 32768 = [0, 0, 128, 0] ∧
    ∃ b0 b1 b2 b3, length_bytes 32768 = [b0, b1, b2, b3] ∧
      b0 * 2 ^ 24 + b1 * 2 ^ 16 + b2 * 2 ^ 8 + b3 = 32768 :=
  ⟨by decide, by decide,
    (length_bytes_most_significant_first 32768 (by decide)).imp fun _ h =>
      h.imp fun _ h => h.imp fun _ h => h.imp fun _ h => ⟨h.1, h.2.2.2.2.2.1⟩⟩

/-- C3 (on the serializer modelled from the spec): for every descriptor and every buffer, the
fill pass returns the byte count that the size-only pass returns, stores exactly the words of
the record below that count, and leaves every word and every byte of the buffer at or beyond
that count as it was; the size-only pass stores nothing. -/
theorem gcov_convert_to_gcda_fill_matches_size (counters : Nat) (buffer : Nat → Nat)
    (d : gcov_info) :
    ∃ filled, gcov_convert_to_gcda counters (some buffer) d
        = (some filled, (gcov_convert_to_gcda counters none d).2) ∧
      (gcov_convert_to_gcda counters none d).1 = none ∧
      (gcov_convert_to_gcda counters none d).2 = 4 * (gcda_words counters d).length ∧
      (∀ i, i < (gcda_words counters d).length → filled i = (gcda_words counters d).getD i 0) ∧
      (∀ i, (gcov_convert_to_gcda counters none d).2 ≤ 4 * i → filled i = buffer i) ∧
      (∀ be j, (gcov_convert_to_gcda counters none d).2 ≤ j →
        buffer_byte be filled j = buffer_byte be buffer j) := by
  refine ⟨write_words buffer 0 (gcda_words counters d), ?_, ?_, ?_, ?_, ?_, ?_⟩
  · rw [gcov_convert_to_gcda_words, gcov_convert_to_gcda_words]; rfl
  · rw [gcov_convert_to_gcda_words]; rfl
  · rw [gcov_convert_to_gcda_words]
  · intro i hi
    rw [write_words_inside _ _ _ _ (Nat.zero_le _) (by omega)]
    simp
  · intro i hi
    rw [gcov_convert_to_gcda_words] at hi
    exact write_words_outside _ _ _ _ (Or.inr (by simp only at hi; omega))
  · intro be j hj
    rw [gcov_convert_to_gcda_words] at hj
    have : write_words buffer 0 (gcda_words counters d) (j / 4) = buffer (j / 4) :=
      write_words_outside _ _ _ _ (Or.inr (by simp only at hj; omega))
    simp only [buffer_byte, this]

/-- C4: starting from an empty registry, after `__gcov_init` on `d1, ..., dn` in this order
with `n ≤ 100`, every call has returned, the cursor is `n`, and the list read from the head is
`[dn, ..., d1]`; in particular one more registration puts its descriptor in front of the
list read before it. -/
theorem gcov_init_list_is_reverse {μ : Type} (o : Options) (G : GcovGcc μ) (ds : List Nat)
    (s : State μ) (hhead : s.gcov_headGcov = none) (hidx : s.gcov_GcovIndex = 0)
    (hlen : ds.length ≤ 100) :
    (run_calls (gcov_init_calls o G ds) s).outcome = Outcome.returned ∧
    (run_calls (gcov_init_calls o G ds) s).state.gcov_GcovIndex = ds.length ∧
    (∀ fuel, ds.length ≤ fuel →
      registry_walk (run_calls (gcov_init_calls o G ds) s).state.gcov_GcovInfo fuel
        (run_calls (gcov_init_calls o G ds) s).state.gcov_headGcov = some ds.reverse) ∧
    (∀ d fuel, ds.length < 100 → ds.length + 1 ≤ fuel →
      registry_walk (run_calls (gcov_init_calls o G (ds ++ [d])) s).state.gcov_GcovInfo fuel
        (run_calls (gcov_init_calls o G (ds ++ [d])) s).state.gcov_headGcov
        = some (d :: ds.reverse)) := by
  have key := gcov_init_calls_from_empty o G s hhead hidx
  obtain ⟨k1, k2, k3⟩ := key ds hlen
  refine ⟨k1, k2, k3, ?_⟩
  intro d fuel hlt hf
  have := (key (ds ++ [d]) (by simp only [List.length_append, List.length_singleton]; omega)).2.2
    fuel (by simp only [List.length_append, List.length_singleton]; exact hf)
  simpa using this

/-- C4 at a concrete input: three registrations from the initial state. -/
theorem gcov_init_list_is_reverse_witness :
    (State.initial example_descriptors).gcov_headGcov = none ∧
    (State.initial example_descriptors).gcov_GcovIndex = 0 ∧
    registry_walk
      (run_calls (gcov_init_calls example_memory_only (gcov_gcc 8) [11, 22, 33])
        (State.initial example_descriptors)).state.gcov_GcovInfo 3
      (run_calls (gcov_init_calls example_memory_only (gcov_gcc 8) [11, 22, 33])
        (State.initial example_descriptors)).state.gcov_headGcov = some [33, 22, 11] :=
  ⟨rfl, rfl,
    (gcov_init_list_is_reverse example_memory_only (gcov_gcc 8) [11, 22, 33]
      (State.initial example_descriptors) rfl rfl (by decide)).2.2.1 3 (by decide)⟩

/-- C5: the pool holds 100 entries. Starting from an empty registry, every one of the first
100 calls of `__gcov_init` returns having added its descriptor (after `k ≤ 100` calls the
cursor is `k` and the list is the first `k` descriptors, newest first), and a 101st call in
the build without stdlib returns and leaves the whole state, hence the list of 100
descriptors, their order and the cursor, as it was. -/
theorem gcov_init_capacity {μ : Type} (o : Options) (G : GcovGcc μ) (ds : List Nat) (d : Nat)
    (s : State μ) (hhead : s.gcov_headGcov = none) (hidx : s.gcov_GcovIndex = 0)
    (hlen : ds.length = 100) (hstd : o.GCOV_OPT_USE_STDLIB = false) :
    (∀ k, k ≤ 100 →
      (run_calls (gcov_init_calls o G (ds.take k)) s).outcome = Outcome.returned ∧
      (run_calls (gcov_init_calls o G (ds.take k)) s).state.gcov_GcovIndex = k ∧
      registry_walk (run_calls (gcov_init_calls o G (ds.take k)) s).state.gcov_GcovInfo k
        (run_calls (gcov_init_calls o G (ds.take k)) s).state.gcov_headGcov
        = some (ds.take k).reverse) ∧
    (__gcov_init o G d (run_calls (gcov_init_calls o G ds) s).state).outcome
      = Outcome.returned ∧
    (__gcov_init o G d (run_calls (gcov_init_calls o G ds) s).state).state
      = (run_calls (gcov_init_calls o G ds) s).state ∧
    (__gcov_init o G d (run_calls (gcov_init_calls o G ds) s).state).state.gcov_GcovIndex
      = 100 ∧
    registry_walk
      (__gcov_init o G d (run_calls (gcov_init_calls o G ds) s).state).state.gcov_GcovInfo 100
      (__gcov_init o G d (run_calls (gcov_init_calls o G ds) s).state).state.gcov_headGcov
      = some ds.reverse := by
  have key := gcov_init_calls_from_empty o G s hhead hidx
  obtain ⟨_, k2, k3⟩ := key ds (by omega)
  have hfull := gcov_init_full o G d (run_calls (gcov_init_calls o G ds) s).state
    (by rw [k2]; omega) hstd
  refine ⟨?_, hfull.2, hfull.1, ?_, ?_⟩
  · intro k hk
    have hl : (ds.take k).length = k := by rw [List.length_take]; omega
    obtain ⟨a1, a2, a3⟩ := key (ds.take k) (by omega)
    exact ⟨a1, by rw [a2, hl], a3 k (by omega)⟩
  · rw [hfull.1, k2, hlen]
  · rw [hfull.1]
    exact k3 100 (by omega)

/-- C5 at a concrete input: the descriptors at addresses 0 to 99, then the one at 100. -/
theorem gcov_init_capacity_witness :
    (State.initial example_descriptors).gcov_headGcov = none ∧
    (State.initial example_descriptors).gcov_GcovIndex = 0 ∧
    (List.range 100).length = 100 ∧
    example_memory_only.GCOV_OPT_USE_STDLIB = false ∧
    (__gcov_init example_memory_only (gcov_gcc 8) 100
      (run_calls (gcov_init_calls example_memory_only (gcov_gcc 8) (List.range 100))
        (State.initial example_descriptors)).state).state.gcov_GcovIndex = 100 :=
  ⟨rfl, rfl, List.length_range 100, rfl,
    (gcov_init_capacity example_memory_only (gcov_gcc 8) (List.range 100) 100
      (State.initial example_descriptors) rfl rfl (List.length_range 100) rfl).2.2.2.1⟩

/-- C6: from every state, `__gcov_call_constructors` with no constructor leaves the empty list
and cursor 0, and with constructors that are `n ≤ 100` calls of `__gcov_init` (in particular
100 of them) every call returns having added its descriptor: the cursor is `n` and the list
is the descriptors, newest first. -/
theorem gcov_call_constructors_resets {μ : Type} (o : Options) (G : GcovGcc μ) (ds : List Nat)
    (s : State μ) (hlen : ds.length ≤ 100) :
    (__gcov_call_constructors [] s).state.gcov_headGcov = none ∧
    (__gcov_call_constructors [] s).state.gcov_GcovIndex = 0 ∧
    (∀ fuel, registry_walk (__gcov_call_constructors [] s).state.gcov_GcovInfo fuel
      (__gcov_call_constructors [] s).state.gcov_headGcov = some []) ∧
    (__gcov_call_constructors (gcov_init_calls o G ds) s).outcome = Outcome.returned ∧
    (__gcov_call_constructors (gcov_init_calls o G ds) s).state.gcov_GcovIndex = ds.length ∧
    (∀ fuel, ds.length ≤ fuel →
      registry_walk (__gcov_call_constructors (gcov_init_calls o G ds) s).state.gcov_GcovInfo
        fuel (__gcov_call_constructors (gcov_init_calls o G ds) s).state.gcov_headGcov
        = some ds.reverse) := by
  refine ⟨rfl, rfl, ?_, ?_⟩
  · intro fuel
    cases fuel <;> rfl
  · exact gcov_init_calls_from_empty o G
      { s with gcov_headGcov := none, gcov_GcovIndex := 0 } rfl rfl ds hlen

/-- C6 at a concrete input: the reset from a full pool, followed by 100 registrations. -/
theorem gcov_call_constructors_resets_witness :
    (List.range 100).length ≤ 100 ∧
    (__gcov_call_constructors
      (gcov_init_calls example_memory_only (gcov_gcc 8) (List.range 100))
      example_full_state).state.gcov_GcovIndex = (List.range 100).length :=
  ⟨(List.length_range 100).le,
    (gcov_call_constructors_resets example_memory_only (gcov_gcc 8) (List.range 100)
      example_full_state (List.length_range 100).le).2.2.2.2.1⟩

/-- C7, counterexample: with the file sink and the memory-block sink both enabled, after a
reset with no registration, when the file fails to open `__gcov_exit` writes the marker to no
sink: no store, no file byte, and the final output index is 0, not 9. -/
theorem gcov_exit_after_reset_no_marker_when_open_fails :
    (__gcov_exit example_file_and_memory (gcov_gcc 8) false 0
      (__gcov_call_constructors [] example_state).state).map
        (fun r => (stores r.events, file_bytes r.events, r.state.gcov_output_index))
      = some ([], [], 0) := by
  decide

/-- C7, amended: after a reset with no registration, provided the file sink is disabled or
its file opens, `__gcov_exit` returns, calls the serializer zero times, and does nothing but
the opening status line, the opening of the file and the end of stream: the file sink
receives exactly the marker, the memory-block sink exactly the marker at offsets 0 to 8, the
final output index is 9 and the memory block holds the marker bytes at offsets 0 to 8 and is
unchanged elsewhere. -/
theorem gcov_exit_after_reset {μ : Type} (o : Options) (G : GcovGcc μ) (open_ok : Bool)
    (s : State μ) (fuel : Nat)
    (hopen : o.GCOV_OPT_OUTPUT_BINARY_FILE = false ∨ open_ok = true) :
    ∃ r, __gcov_exit o G open_ok fuel (__gcov_call_constructors [] s).state = some r ∧
      r.outcome = Outcome.returned ∧
      convert_calls r.events = [] ∧
      r.events =
        (if o.GCOV_OPT_PRINT_STATUS then [print_lit "gcov_exit", print_lit "\n"] else []) ++
        (if o.GCOV_OPT_OUTPUT_BINARY_FILE then [Event.GCOV_OPEN_FILE] else []) ++
        (emit_end o (if o.GCOV_OPT_OUTPUT_BINARY_MEMORY then 0 else s.gcov_output_index)).1 ∧
      file_bytes r.events = (if o.GCOV_OPT_OUTPUT_BINARY_FILE then gcov_end_marker else []) ∧
      (o.GCOV_OPT_OUTPUT_BINARY_MEMORY = true →
        stores r.events
          = [(0, 71), (1, 99), (2, 111), (3, 118), (4, 32), (5, 69), (6, 110), (7, 100), (8, 0)] ∧
        r.state.gcov_output_index = 9 ∧
        ∀ (mem : Nat → Nat) (i : Nat),
          apply_stores mem (stores r.events) i
            = if i < 9 then gcov_end_marker.getD i 0 else mem i) := by
  have hw : registry_walk (__gcov_call_constructors [] s).state.gcov_GcovInfo 0
      (__gcov_call_constructors [] s).state.gcov_headGcov = some [] := rfl
  refine ⟨_, gcov_exit_eq o G open_ok _ 0 [] hopen hw fuel (Nat.zero_le _), ?_⟩
  obtain ⟨h1, h2, h3, h4, h5⟩ := exit_on_list_fits o G []
    (__gcov_call_constructors [] s).state (by intro d hd; cases hd)
  refine ⟨h1, h3, ?_, ?_, ?_⟩
  · simp [exit_on_list, loop_on_list, __gcov_call_constructors, run_calls]
  · rw [h5]; simp [stream]
  · intro hm
    have e : at_offsets 0 gcov_end_marker
        = [(0, 71), (1, 99), (2, 111), (3, 118), (4, 32), (5, 69), (6, 110), (7, 100), (8, 0)] := by
      decide
    refine ⟨?_, ?_, ?_⟩
    · rw [h4]; simp only [hm, if_true, stream, List.nil_append]; exact e
    · rw [h2]; simp [hm, stream]
    · intro mem i
      rw [h4]
      simp only [hm, if_true, stream, List.nil_append]
      rw [apply_stores_at_offsets _ 0 mem i (by decide)]
      have : gcov_end_marker.length = 9 := rfl
      simp [this]

/-- C7, amended, at a concrete input: the memory-block sink alone, the reset made from the
example state. -/
theorem gcov_exit_after_reset_witness :
    (example_memory_only.GCOV_OPT_OUTPUT_BINARY_FILE = false ∨ false = true) ∧
    ∃ r, __gcov_exit example_memory_only (gcov_gcc 8) false 0
        (__gcov_call_constructors [] example_state).state = some r ∧
      r.outcome = Outcome.returned ∧ convert_calls r.events = [] :=
  ⟨Or.inl rfl,
    (gcov_exit_after_reset example_memory_only (gcov_gcc 8) false example_state 0
      (Or.inl rfl)).imp (fun _ h => ⟨h.1, h.2.1, h.2.2.1⟩)⟩

/-- C8, counterexample: the marker that `__gcov_exit` writes to the file sink and stores in
the memory block is 9 bytes in all, and its ninth byte (offset 8) is the null: there are
eight non-null marker bytes before the null, not nine. -/
theorem gcov_exit_marker_is_nine_bytes_with_null :
    (__gcov_exit example_file_and_memory (gcov_gcc 8) true 0
      (State.initial example_descriptors)).map (fun r => file_bytes r.events)
      = some [71, 99, 111, 118, 32, 69, 110, 100, 0] ∧
    (__gcov_exit example_file_and_memory (gcov_gcc 8) true 0
      (State.initial example_descriptors)).map (fun r => stores r.events)
      = some [(0, 71), (1, 99), (2, 111), (3, 118), (4, 32), (5, 69), (6, 110), (7, 100),
              (8, 0)] ∧
    gcov_end_marker.length = 9 ∧ gcov_end_marker.getD 8 1 = 0 := by
  decide

/-- C8, amended: the end-of-stream marker is the eight ASCII bytes of "Gcov End", none of
them null, followed by one null byte, 9 bytes in all; the end of `__gcov_exit` passes exactly
these bytes to the file sink, and stores exactly these bytes in the memory block at the
successive output indices, whenever the sink is enabled. -/
theorem gcov_end_marker_bytes :
    gcov_end_marker = [71, 99, 111, 118, 32, 69, 110, 100, 0] ∧
    gcov_end_marker.length = 9 ∧
    (∀ b ∈ gcov_end_marker.take 8, 0 < b ∧ b < 128) ∧
    gcov_end_marker.drop 8 = [0] ∧
    (∀ (o : Options) (index : Nat), file_bytes (emit_end o index).1
      = if o.GCOV_OPT_OUTPUT_BINARY_FILE then gcov_end_marker else []) ∧
    (∀ (o : Options) (index : Nat), stores (emit_end o index).1
      = if o.GCOV_OPT_OUTPUT_BINARY_MEMORY then at_offsets index gcov_end_marker else []) := by
  refine ⟨by decide, by decide, by decide, by decide, file_bytes_emit_end, stores_emit_end⟩

/-- C10, counterexample: with the file sink enabled and two registered descriptors that fit
the scratch buffer, when the file fails to open `__gcov_exit` visits no descriptor: the
serializer is not called at all. -/
theorem gcov_exit_visits_nothing_when_open_fails :
    registry_walk example_state.gcov_GcovInfo 2 example_state.gcov_headGcov = some [2, 1] ∧
    (gcov_gcc 8).gcov_convert_to_gcda_null example_state.descriptors 2 = 56 ∧
    (gcov_gcc 8).gcov_convert_to_gcda_null example_state.descriptors 1 = 56 ∧
    (__gcov_exit example_file_and_memory (gcov_gcc 8) false 2 example_state).map
      (fun r => convert_calls r.events) = some [] := by
  decide

/-- C10, amended: when every descriptor fits the scratch buffer and the file sink is disabled
or its file opens, `__gcov_exit` returns, and its calls of the serializer are, in order, for
each descriptor of the list in list order one call with a NULL buffer followed by one call
with the buffer; the head, the pool, the cursor and the descriptor memory are unchanged, so
the list reads as before. -/
theorem gcov_exit_visits_each_once {μ : Type} (o : Options) (G : GcovGcc μ) (open_ok : Bool)
    (s : State μ) (n : Nat) (l : List Nat) (fuel : Nat)
    (hopen : o.GCOV_OPT_OUTPUT_BINARY_FILE = false ∨ open_ok = true)
    (hl : registry_walk s.gcov_GcovInfo n s.gcov_headGcov = some l)
    (hfit : ∀ d ∈ l, G.gcov_convert_to_gcda_null s.descriptors d ≤ 32768)
    (hf : l.length ≤ fuel) :
    ∃ r, __gcov_exit o G open_ok fuel s = some r ∧ r.outcome = Outcome.returned ∧
      convert_calls r.events = l.flatMap (fun d => [(false, d), (true, d)]) ∧
      r.state.gcov_headGcov = s.gcov_headGcov ∧
      r.state.gcov_GcovInfo = s.gcov_GcovInfo ∧
      r.state.gcov_GcovIndex = s.gcov_GcovIndex ∧
      r.state.descriptors = s.descriptors ∧
      registry_walk r.state.gcov_GcovInfo n r.state.gcov_headGcov = some l := by
  refine ⟨exit_on_list o G l s, gcov_exit_eq o G open_ok s n l hopen hl fuel hf, ?_⟩
  obtain ⟨h1, h2, h3, _, _⟩ := exit_on_list_fits o G l s hfit
  refine ⟨h1, h3, ?_, ?_, ?_, ?_, ?_⟩ <;> rw [h2]
  exact hl

/-- C10, amended, at a concrete input: the memory-block sink alone and the two example
descriptors registered. -/
theorem gcov_exit_visits_each_once_witness :
    (example_memory_only.GCOV_OPT_OUTPUT_BINARY_FILE = false ∨ false = true) ∧
    registry_walk example_state.gcov_GcovInfo 2 example_state.gcov_headGcov = some [2, 1] ∧
    ∃ r, __gcov_exit example_memory_only (gcov_gcc 8) false 2 example_state = some r ∧
      r.outcome = Outcome.returned ∧
      convert_calls r.events = [(false, 2), (true, 2), (false, 1), (true, 1)] :=
  ⟨Or.inl rfl, by decide,
    (gcov_exit_visits_each_once example_memory_only (gcov_gcc 8) false example_state 2 [2, 1] 2
      (Or.inl rfl) (by decide) (by decide) (by decide)).imp
      (fun _ h => ⟨h.1, h.2.1, h.2.2.1⟩)⟩

/-- C9, counterexample: with the file sink and the memory-block sink both enabled and the
registry and counters unchanged, a first `__gcov_exit` whose file opens stores 137 bytes in
the memory block, and a second one whose file fails to open stores none. -/
theorem gcov_exit_twice_differs_when_second_open_fails :
    (__gcov_exit example_file_and_memory (gcov_gcc 8) true 2 example_state).map
      (fun r => (stores r.events).length) = some 137 ∧
    ((__gcov_exit example_file_and_memory (gcov_gcc 8) true 2 example_state).bind
      (fun r => __gcov_exit example_file_and_memory (gcov_gcc 8) false 2 r.state)).map
      (fun r => (stores r.events).length) = some 0 := by
  set_option maxRecDepth 100000 in
  decide

/-- C9, amended: let the serializer's fill pass determine the bytes below `bytesNeeded`
whatever the buffer held before, and let the file sink be disabled or the file open with the
same outcome on both calls. Then for a registry whose list reads `l`, `__gcov_exit` called
twice in a row returns both times with the same events, in particular the same stores into the
memory block, and each time these stores are some bytes placed at the successive output
indices from 0 on. -/
theorem gcov_exit_twice_same_output {μ : Type} (o : Options) (G : GcovGcc μ) (ok1 ok2 : Bool)
    (s : State μ) (n : Nat) (l : List Nat) (fuel : Nat)
    (hG : ∀ (b b' : Nat → Nat) (d i : Nat), i < bytesNeeded G s.descriptors d →
      buffer_byte o.big_endian (G.gcov_convert_to_gcda s.descriptors b d).1 i
        = buffer_byte o.big_endian (G.gcov_convert_to_gcda s.descriptors b' d).1 i)
    (hopen : o.GCOV_OPT_OUTPUT_BINARY_FILE = false ∨ ok1 = ok2)
    (hl : registry_walk s.gcov_GcovInfo n s.gcov_headGcov = some l) (hf : l.length ≤ fuel) :
    ∃ r1 r2, __gcov_exit o G ok1 fuel s = some r1 ∧
      __gcov_exit o G ok2 fuel r1.state = some r2 ∧
      r2.events = r1.events ∧ r2.outcome = r1.outcome ∧
      stores r2.events = stores r1.events ∧
      ∃ bytes, stores r1.events = at_offsets 0 bytes ∧ stores r2.events = at_offsets 0 bytes := by
  by_cases hfile : o.GCOV_OPT_OUTPUT_BINARY_FILE = true
  · have hok : ok1 = ok2 := by
      rcases hopen with h | h
      · rw [hfile] at h; cases h
      · exact h
    subst hok
    cases ok1 with
    | false =>
      obtain ⟨r1, a1, a2, a3, a4, a5, _⟩ := gcov_exit_open_fails o G fuel s hfile
      obtain ⟨r2, b1, b2, b3, _, b5, _⟩ := gcov_exit_open_fails o G fuel r1.state hfile
      refine ⟨r1, r2, a1, b1, by rw [a2, b2], by rw [a3, b3], by rw [a5, b5], [], ?_, ?_⟩
      · rw [a5]; rfl
      · rw [b5]; rfl
    | true =>
      obtain ⟨c1, c2, c3, c4⟩ := gcov_exit_twice_opened o G true true s n l fuel hG
        (Or.inr rfl) (Or.inr rfl) hl hf
      obtain ⟨_, _, e3, _⟩ := exit_on_list_emitted o G l s
      have hb : ∃ bytes, stores (exit_on_list o G l s).events = at_offsets 0 bytes :=
        ⟨_, e3.trans (stores_at_offsets_ite _ _)⟩
      obtain ⟨bytes, hb⟩ := hb
      exact ⟨_, _, c1, c2, c3, c4, by rw [c3], bytes, hb, by rw [c3]; exact hb⟩
  · have hfile' : o.GCOV_OPT_OUTPUT_BINARY_FILE = false := by
      cases h : o.GCOV_OPT_OUTPUT_BINARY_FILE
      · rfl
      · exact absurd h hfile
    obtain ⟨c1, c2, c3, c4⟩ := gcov_exit_twice_opened o G ok1 ok2 s n l fuel hG
      (Or.inl hfile') (Or.inl hfile') hl hf
    obtain ⟨_, _, e3, _⟩ := exit_on_list_emitted o G l s
    have hb : ∃ bytes, stores (exit_on_list o G l s).events = at_offsets 0 bytes :=
      ⟨_, e3.trans (stores_at_offsets_ite _ _)⟩
    obtain ⟨bytes, hb⟩ := hb
    exact ⟨_, _, c1, c2, c3, c4, by rw [c3], bytes, hb, by rw [c3]; exact hb⟩

/-- C9, amended, at a concrete input: the memory-block sink alone, the modelled serializer
and the two example descriptors registered. -/
theorem gcov_exit_twice_same_output_witness :
    (example_memory_only.GCOV_OPT_OUTPUT_BINARY_FILE = false ∨ false = false) ∧
    registry_walk example_state.gcov_GcovInfo 2 example_state.gcov_headGcov = some [2, 1] ∧
    ∃ r1 r2, __gcov_exit example_memory_only (gcov_gcc 8) false 2 example_state = some r1 ∧
      __gcov_exit example_memory_only (gcov_gcc 8) false 2 r1.state = some r2 ∧
      r2.events = r1.events :=
  ⟨Or.inl rfl, by decide,
    (gcov_exit_twice_same_output example_memory_only (gcov_gcc 8) false false example_state 2
      [2, 1] 2 (gcov_gcc_fill_independent 8 _ _) (Or.inl rfl) (by decide) (by decide)).imp
      (fun _ h => h.imp (fun _ h => ⟨h.1, h.2.1, h.2.2.1⟩))⟩

/-- C12, counterexample: without stdlib, with the file sink and the memory-block sink both
enabled and a registry whose list reads a descriptor of size 8 and then one of size 40000,
when the file fails to open the memory block receives nothing, not the group of the first
descriptor. -/
theorem gcov_exit_oversize_nothing_when_open_fails :
    example_file_and_memory.GCOV_OPT_USE_STDLIB = false ∧
    registry_walk example_oversize_state.gcov_GcovInfo 2 example_oversize_state.gcov_headGcov
      = some [8, 40000] ∧
    bytesNeeded address_sized () 8 = 8 ∧ bytesNeeded address_sized () 40000 = 40000 ∧
    (stream example_file_and_memory address_sized () [8] example_oversize_state.gcov_buf).length
      = 14 ∧
    (__gcov_exit example_file_and_memory address_sized false 2 example_oversize_state).map
      (fun r => stores r.events) = some [] := by
  decide

/-- C12, amended: in the build without stdlib, with the file sink disabled or its file
opened, if the list reads `pre`, then `d`, then `post`, every descriptor of `pre` has a size
of at most 32768 and the `bytesNeeded` of `d` exceeds 32768, then `__gcov_exit` returns, its
serializer calls are the two calls for each descriptor of `pre` and then the size call for `d`
alone, and each enabled binary sink has received exactly the groups of the descriptors of
`pre`: nothing for `d`, nothing for `post`, no end marker. The output index is left right
after these groups. -/
theorem gcov_exit_halts_at_first_oversize {μ : Type} (o : Options) (G : GcovGcc μ) (ok : Bool)
    (s : State μ) (n : Nat) (pre : List Nat) (d : Nat) (post : List Nat) (fuel : Nat)
    (hstd : o.GCOV_OPT_USE_STDLIB = false)
    (hopen : o.GCOV_OPT_OUTPUT_BINARY_FILE = false ∨ ok = true)
    (hl : registry_walk s.gcov_GcovInfo n s.gcov_headGcov = some (pre ++ d :: post))
    (hpre : ∀ x ∈ pre, G.gcov_convert_to_gcda_null s.descriptors x ≤ 32768)
    (hd : bytesNeeded G s.descriptors d > 32768)
    (hf : (pre ++ d :: post).length ≤ fuel) :
    ∃ r, __gcov_exit o G ok fuel s = some r ∧ r.outcome = Outcome.returned ∧
      convert_calls r.events = pre.flatMap (fun x => [(false, x), (true, x)]) ++ [(false, d)] ∧
      stores r.events =
        (if o.GCOV_OPT_OUTPUT_BINARY_MEMORY then
           at_offsets 0 (stream o G s.descriptors pre s.gcov_buf) else []) ∧
      file_bytes r.events =
        (if o.GCOV_OPT_OUTPUT_BINARY_FILE then stream o G s.descriptors pre s.gcov_buf
         else []) ∧
      r.state.gcov_output_index =
        (if o.GCOV_OPT_OUTPUT_BINARY_MEMORY then
           (stream o G s.descriptors pre s.gcov_buf).length % 4294967296
         else s.gcov_output_index) := by
  obtain ⟨p1, p2, p3⟩ := oversize_split o G s.descriptors d post hd pre s.gcov_buf hpre
  have hne : fitting_head G s.descriptors (pre ++ d :: post) ≠ pre ++ d :: post := by
    rw [p1]
    intro h
    have := congrArg List.length h
    simp at this
  obtain ⟨e1, e2, e3, e4, _⟩ := exit_on_list_emitted o G (pre ++ d :: post) s
  have e5 := exit_on_list_oom_state o G (pre ++ d :: post) s hne
  refine ⟨_, gcov_exit_eq o G ok s n _ hopen hl fuel hf, ?_, ?_, ?_, ?_, ?_⟩
  · rw [e1]; simp [hne, out_of_memory, hstd]
  · rw [e2, p3]
  · rw [e3, p2]; simp [hne]
  · rw [e4, p2]; simp [hne]
  · rw [e5, p2]

/-- C12, amended, at a concrete input: the memory-block sink alone and a list that reads a
descriptor of size 8 and then one of size 40000. -/
theorem gcov_exit_halts_at_first_oversize_witness :
    example_memory_only.GCOV_OPT_USE_STDLIB = false ∧
    registry_walk example_oversize_state.gcov_GcovInfo 2 example_oversize_state.gcov_headGcov
      = some ([8] ++ 40000 :: []) ∧
    bytesNeeded address_sized () 40000 > 32768 ∧
    ∃ r, __gcov_exit example_memory_only address_sized false 2 example_oversize_state = some r ∧
      r.outcome = Outcome.returned ∧
      convert_calls r.events = [(false, 8), (true, 8), (false, 40000)] :=
  ⟨rfl, by decide, by decide,
    (gcov_exit_halts_at_first_oversize example_memory_only address_sized false
      example_oversize_state 2 [8] 40000 [] 2 rfl (Or.inl rfl) (by decide) (by decide)
      (by decide) (by decide)).imp (fun _ h => ⟨h.1, h.2.1, h.2.2.1⟩)⟩

/-- C13: when the file sink is enabled and the file fails to open, `__gcov_exit` ends at
once, for every registry content and every fuel: it passes no byte to the file sink, stores
no byte in the memory block, prints no hex-dump line, calls the serializer for no descriptor,
and its only actions are the opening status line, the attempt to open, the failure message
(both texts only when status printing is on) and `exit(1)` with stdlib; the registry, the
scratch buffer and the descriptors are unchanged. -/
theorem gcov_exit_open_failure_emits_nothing {μ : Type} (o : Options) (G : GcovGcc μ)
    (fuel : Nat) (s : State μ) (hfile : o.GCOV_OPT_OUTPUT_BINARY_FILE = true) :
    ∃ r, __gcov_exit o G false fuel s = some r ∧
      file_bytes r.events = [] ∧ stores r.events = [] ∧ convert_calls r.events = [] ∧
      (∀ e ∈ r.events, is_hexdump e = false) ∧
      (o.GCOV_OPT_PRINT_STATUS = false → text_events r.events = []) ∧
      r.events = (if o.GCOV_OPT_PRINT_STATUS then [print_lit "gcov_exit", print_lit "\n"]
                  else []) ++ [Event.GCOV_OPEN_FILE] ++
        (if o.GCOV_OPT_PRINT_STATUS then
           [print_lit "Unable to open gcov output file!", print_lit "\n"] else []) ++
        (if o.GCOV_OPT_USE_STDLIB then [Event.exit_call 1] else []) ∧
      r.outcome = (if o.GCOV_OPT_USE_STDLIB then Outcome.exited else Outcome.returned) ∧
      r.state.gcov_headGcov = s.gcov_headGcov ∧ r.state.gcov_GcovInfo = s.gcov_GcovInfo ∧
      r.state.gcov_GcovIndex = s.gcov_GcovIndex ∧ r.state.gcov_buf = s.gcov_buf ∧
      r.state.descriptors = s.descriptors := by
  obtain ⟨r, a1, a2, a3, a4, a5, a6, a7⟩ := gcov_exit_open_fails o G fuel s hfile
  refine ⟨r, a1, a6, a5, a7, ?_, ?_, a2, a3, ?_, ?_, ?_, ?_, ?_⟩
  · intro e he
    have hall : ∀ (a b : Bool),
        ((if a then [print_lit "gcov_exit", print_lit "\n"] else []) ++ [Event.GCOV_OPEN_FILE] ++
          (if a then [print_lit "Unable to open gcov output file!", print_lit "\n"] else []) ++
          (if b then [Event.exit_call 1] else [])).all (fun e => !is_hexdump e) = true := by
      intro a b
      cases a <;> cases b <;> rfl
    rw [a2] at he
    have := List.all_eq_true.mp (hall _ _) e he
    simpa using this
  · intro hs
    rw [a2]
    cases hl : o.GCOV_OPT_USE_STDLIB <;> simp [hs, text_events, is_text]
  all_goals rw [a4]

/-- C13 at a concrete input: both binary sinks enabled, the example registry. -/
theorem gcov_exit_open_failure_emits_nothing_witness :
    example_file_and_memory.GCOV_OPT_OUTPUT_BINARY_FILE = true ∧
    ∃ r, __gcov_exit example_file_and_memory (gcov_gcc 8) false 2 example_state = some r ∧
      file_bytes r.events = [] ∧ stores r.events = [] ∧ convert_calls r.events = [] :=
  ⟨rfl,
    (gcov_exit_open_failure_emits_nothing example_file_and_memory (gcov_gcc 8) 2 example_state
      rfl).imp (fun _ h => ⟨h.1, h.2.1, h.2.2.1, h.2.2.2.1⟩)⟩

/-- C14: for a registry whose list reads `l`, `__gcov_clear` returns, its calls of
`gcov_clear_counters` are exactly the descriptors of `l`, each once per entry and in list
order, the descriptor memory is the result of these calls in this order, and the head, the
pool, the cursor, the scratch buffer and the output index are unchanged; with an empty
registry there is no call and the descriptor memory is unchanged. -/
theorem gcov_clear_calls_each_once {μ : Type} (o : Options) (G : GcovGcc μ) (s : State μ)
    (n : Nat) (l : List Nat) (fuel : Nat)
    (hl : registry_walk s.gcov_GcovInfo n s.gcov_headGcov = some l) (hf : l.length ≤ fuel) :
    ∃ r, __gcov_clear o G fuel s = some r ∧ r.outcome = Outcome.returned ∧
      clear_calls r.events = l ∧
      r.state.descriptors = l.foldl G.gcov_clear_counters s.descriptors ∧
      r.state.gcov_headGcov = s.gcov_headGcov ∧ r.state.gcov_GcovInfo = s.gcov_GcovInfo ∧
      r.state.gcov_GcovIndex = s.gcov_GcovIndex ∧ r.state.gcov_buf = s.gcov_buf ∧
      r.state.gcov_output_index = s.gcov_output_index ∧
      convert_calls r.events = [] ∧ stores r.events = [] ∧ file_bytes r.events = [] ∧
      (l = [] → clear_calls r.events = [] ∧ r.state.descriptors = s.descriptors) := by
  have h := gcov_clear_loop_eq G s.gcov_GcovInfo n s.gcov_headGcov l hl fuel s.descriptors hf
  have hr : __gcov_clear o G fuel s = some
      { state := { s with descriptors := l.foldl G.gcov_clear_counters s.descriptors }
        events := (if o.GCOV_OPT_PRINT_STATUS then [print_lit "gcov_clear", print_lit "\n"]
                   else []) ++ l.map Event.gcov_clear_counters
        outcome := Outcome.returned } := by
    simp only [__gcov_clear, h, Option.map_some']
  refine ⟨_, hr, rfl, ?_, rfl, rfl, rfl, rfl, rfl, rfl, ?_, ?_, ?_, ?_⟩
  · have : clear_calls (if o.GCOV_OPT_PRINT_STATUS then
        [print_lit "gcov_clear", print_lit "\n"] else []) = [] := by
      cases o.GCOV_OPT_PRINT_STATUS <;> simp [clear_calls, clear_call_of, print_lit]
    simp only [clear_calls] at this
    simp only [clear_calls, List.filterMap_append, this, List.nil_append]
    exact clear_calls_map l
  · rw [convert_calls_append, convert_calls_status]
    simp [convert_calls, List.filterMap_map, Function.comp_def, convert_call_of]
  · rw [stores_append, stores_status]
    simp [stores, List.filterMap_map, Function.comp_def, store_of]
  · rw [file_bytes_append, file_bytes_status]
    simp [file_bytes, List.filterMap_map, Function.comp_def, file_byte_of]
  · intro hnil
    subst hnil
    cases o.GCOV_OPT_PRINT_STATUS <;> simp [clear_calls, clear_call_of, print_lit]

/-- C14 at a concrete input: the two example descriptors registered. -/
theorem gcov_clear_calls_each_once_witness :
    registry_walk example_state.gcov_GcovInfo 2 example_state.gcov_headGcov = some [2, 1] ∧
    ∃ r, __gcov_clear example_memory_only (gcov_gcc 8) 2 example_state = some r ∧
      r.outcome = Outcome.returned ∧ clear_calls r.events = [2, 1] :=
  ⟨by decide,
    (gcov_clear_calls_each_once example_memory_only (gcov_gcc 8) example_state 2 [2, 1] 2
      (by decide) (by decide)).imp (fun _ h => ⟨h.1, h.2.1, h.2.2.1⟩)⟩

/-- C15 (on `gcov_clear_counters` modelled from the spec): for a registry whose list reads
`l` and every counter state, `__gcov_clear` called twice in a row returns both times, the
state after the second call is the state after the first, and after the first call every
counter (of the kinds below the counter-kind count, those the walk visits) of every
registered descriptor is zero, while the descriptors that are not registered are as before. -/
theorem gcov_clear_idempotent (o : Options) (counters : Nat) (s : State (Nat → gcov_info))
    (n : Nat) (l : List Nat) (fuel : Nat)
    (hl : registry_walk s.gcov_GcovInfo n s.gcov_headGcov = some l) (hf : l.length ≤ fuel) :
    ∃ r1 r2, __gcov_clear o (gcov_gcc counters) fuel s = some r1 ∧
      __gcov_clear o (gcov_gcc counters) fuel r1.state = some r2 ∧
      r2.state = r1.state ∧
      (∀ a ∈ l, all_counters_zero counters (r1.state.descriptors a)) ∧
      (∀ a, a ∉ l → r1.state.descriptors a = s.descriptors a) := by
  have h1 := gcov_clear_eq o (gcov_gcc counters) s n l fuel hl hf
  have h2 := gcov_clear_eq o (gcov_gcc counters)
    { s with descriptors := l.foldl (gcov_gcc counters).gcov_clear_counters s.descriptors }
    n l fuel hl hf
  refine ⟨_, _, h1, h2, ?_, ?_, ?_⟩
  · simp only [clear_fold_twice]
  · intro a ha
    simp only [clear_fold_value counters l s.descriptors a, ha, if_true]
    exact gcov_clear_counters_zero counters _
  · intro a ha
    simp only [clear_fold_value counters l s.descriptors a, ha, if_false]

/-- C15 at a concrete input: the two example descriptors registered. -/
theorem gcov_clear_idempotent_witness :
    registry_walk example_state.gcov_GcovInfo 2 example_state.gcov_headGcov = some [2, 1] ∧
    ∃ r1 r2, __gcov_clear example_memory_only (gcov_gcc 8) 2 example_state = some r1 ∧
      __gcov_clear example_memory_only (gcov_gcc 8) 2 r1.state = some r2 ∧
      r2.state = r1.state :=
  ⟨by decide,
    (gcov_clear_idempotent example_memory_only 8 example_state 2 [2, 1] 2
      (by decide) (by decide)).imp
      (fun _ h => h.imp (fun _ h => ⟨h.1, h.2.1, h.2.2.1⟩))⟩

/-- C18: for every value `n` of an `unsigned int` (any `n`, reduced modulo 2^32), base 10 or
16 and every `uc`, `gcov_ui2a` ends (within 33 rounds of fuel) and stores the canonical
numeral of `n` in that base followed by a null: digits below the base, most significant
first, the single digit '0' for 0 and no leading zero otherwise, which read back give `n`;
the digits ten to fifteen are 'a' to 'f' when `uc` is 0 and 'A' to 'F' otherwise, and no
digit character is null. -/
theorem gcov_ui2a_canonical (n b : Nat) (uc : Int) (fuel : Nat) (hb : b = 10 ∨ b = 16)
    (hf : 33 ≤ fuel) :
    ∃ ds, gcov_ui2a n b uc fuel = Run.done (ds.map (digit_glyph uc) ++ [0]) ∧
      canonical_numeral b (n % 4294967296) ds ∧
      (∀ d ∈ ds, d < 10 → digit_glyph uc d = 48 + d) ∧
      (∀ d ∈ ds, 10 ≤ d → uc = 0 → digit_glyph uc d = 97 + (d - 10)) ∧
      (∀ d ∈ ds, 10 ≤ d → uc ≠ 0 → digit_glyph uc d = 65 + (d - 10)) ∧
      (∀ d ∈ ds, digit_glyph uc d ≠ 0) := by
  have hb2 : 2 ≤ b ∧ b ≤ 36 := by rcases hb with h | h <;> subst h <;> omega
  obtain ⟨k, h1, h2, h3, _⟩ := a2_body_spec (n % 4294967296) b uc fuel hb2.1 hb2.2
    (Nat.mod_lt _ (by norm_num)) hf
  refine ⟨_, h1, msd_digits_canonical b k _ hb2.1 h2 h3, ?_, ?_, ?_, ?_⟩
  · intro d _ hd; simp [digit_glyph, hd]
  · intro d _ hd hu
    have : ¬ d < 10 := by omega
    simp [digit_glyph, this, hu]
  · intro d _ hd hu
    have : ¬ d < 10 := by omega
    simp [digit_glyph, this, hu]
  · intro d _
    simp only [digit_glyph]
    split
    · omega
    · split <;> omega

/-- C18 at a concrete input: the largest value in base 16 with upper-case digits. -/
theorem gcov_ui2a_canonical_witness :
    ((16 : Nat) = 10 ∨ (16 : Nat) = 16) ∧ 33 ≤ 33 ∧
    gcov_ui2a 4294967295 16 1 33 = Run.done (lit "FFFFFFFF" ++ [0]) ∧
    ∃ ds, gcov_ui2a 4294967295 16 1 33 = Run.done (ds.map (digit_glyph 1) ++ [0]) ∧
      canonical_numeral 16 (4294967295 % 4294967296) ds :=
  ⟨Or.inr rfl, le_refl _, by decide,
    (gcov_ui2a_canonical 4294967295 16 1 33 (Or.inr rfl) (le_refl _)).imp
      (fun _ h => ⟨h.1, h.2.1⟩)⟩

/-- C19: for every value `n` of an `int`, the minimum -2147483648 included, `gcov_i2a` ends
and stores the signed decimal numeral of `n` followed by a null: a '-' and then the canonical
decimal digits of the absolute value when `n` is negative, the canonical decimal digits of
`n` with no sign otherwise. -/
theorem gcov_i2a_signed_decimal (n : Int) (fuel : Nat) (hlo : -2147483648 ≤ n)
    (hhi : n < 2147483648) (hf : 33 ≤ fuel) :
    ∃ ds, gcov_i2a n fuel
        = Run.done ((if n < 0 then [45] else []) ++ ds.map (fun d => 48 + d) ++ [0]) ∧
      canonical_numeral 10 n.natAbs ds := by
  have key : ∀ m : Nat, m < 4294967296 →
      ∃ ds, gcov_ui2a m 10 0 fuel = Run.done (ds.map (fun d => 48 + d) ++ [0]) ∧
        canonical_numeral 10 m ds := by
    intro m hm
    obtain ⟨k, h1, h2, h3, _⟩ := a2_body_spec m 10 0 fuel (by norm_num) (by norm_num) hm hf
    have hc := msd_digits_canonical 10 k m (by norm_num) h2 h3
    refine ⟨_, ?_, hc⟩
    simp only [gcov_ui2a, Nat.mod_eq_of_lt hm, h1]
    congr 2
    apply List.map_congr_left
    intro d hd
    have : d < 10 := hc.2.1 d hd
    simp [digit_glyph, this]
  by_cases hneg : n < 0
  · have e : ((-n) % 4294967296).toNat = n.natAbs := by omega
    obtain ⟨ds, h1, h2⟩ := key n.natAbs (by omega)
    refine ⟨ds, ?_, h2⟩
    simp only [gcov_i2a, hneg, if_true, e, h1, Run.cons]
    simp
  · have e : (n % 4294967296).toNat = n.natAbs := by omega
    obtain ⟨ds, h1, h2⟩ := key n.natAbs (by omega)
    refine ⟨ds, ?_, h2⟩
    simp only [gcov_i2a, hneg, if_false, e, h1]
    simp

/-- C19 at a concrete input: the minimum value of an `int`. -/
theorem gcov_i2a_signed_decimal_witness :
    (-2147483648 : Int) ≤ -2147483648 ∧ (-2147483648 : Int) < 2147483648 ∧ 33 ≤ 33 ∧
    gcov_i2a (-2147483648) 33 = Run.done (lit "-2147483648" ++ [0]) ∧
    ∃ ds, gcov_i2a (-2147483648) 33
        = Run.done ((if (-2147483648 : Int) < 0 then [45] else []) ++
            ds.map (fun d => 48 + d) ++ [0]) ∧
      canonical_numeral 10 (-2147483648 : Int).natAbs ds :=
  ⟨le_refl _, by decide, le_refl _, by decide,
    gcov_i2a_signed_decimal (-2147483648) 33 (le_refl _) (by decide) (le_refl _)⟩

/-- C20, the code at failing inputs: with `unsigned long` 64 bits wide, `gcov_uli2a` divides
by zero for 4294967296 in base 16 (its `unsigned int d` wraps to 0), also when reached
through `gcov_printf("%lx", ...)`, and for 10000000000 in base 10 it stores the digits
7091869609, which is not the numeral of that value; below 2^32 it stores the canonical
numeral. -/
theorem gcov_uli2a_fails_on_long_values :
    gcov_uli2a 64 4294967296 16 0 40 = Run.div_by_zero ∧
    gcov_printf 64 40 (c_string "%lx") [Arg.long 4294967296] = Run.div_by_zero ∧
    gcov_uli2a 64 10000000000 10 0 40 = Run.done (lit "7091869609" ++ [0]) ∧
    gcov_uli2a 64 4294967295 16 0 40 = Run.done (lit "ffffffff" ++ [0]) := by
  decide

/-- C17, counterexample: for the counter count 2^31 the macro `GCOV_TAG_COUNTER_LENGTH`,
whose product is taken on a `gcov_unsigned_t`, gives 0 and not `2 * 2^31`, while 2^31
counters stored as 64-bit values take `2 * 2^31` words of 4 bytes. -/
theorem counter_length_wraps :
    GCOV_TAG_COUNTER_LENGTH 2147483648 = 0 ∧
    GCOV_TAG_COUNTER_LENGTH 2147483648 ≠ 2 * 2147483648 ∧
    (convert_values (List.replicate 2147483648 0) none 0).2 = 4 * (2 * 2147483648) := by
  refine ⟨by decide, by decide, ?_⟩
  rw [convert_values_words _ _ _ (Nat.zero_mod 4), values_words_length, List.length_replicate,
    Nat.zero_add]

/-- C17, amended (the macros are those of `gcov_gcc.h`, the block layout is that of the
serializer modelled from the spec): for every counter-kind index `k` (below `GCOV_COUNTERS`,
whatever the compiler version) `GCOV_TAG_FOR_COUNTER(k)` is `0x01a10000 + k * 2^17`, computed
without 32-bit wrap; for every counter count `n` below 2^31, `GCOV_TAG_COUNTER_LENGTH(n)` is
`2 * n`, which is the number of 32-bit words that `n` counters stored as 64-bit values occupy
(for any count the macro gives `2 * n` modulo 2^32); and a counter block of kind `k` holding
`n` counters, written at byte offset `pos`, starts with the word `0x01a10000 + k * 2^17`
followed by the word `2 * n`, and its counters take `2 * n` words after these two. -/
theorem counter_block_header (gnuc gnuc_minor k n : Nat)
    (hk : k < GCOV_COUNTERS gnuc gnuc_minor) (hn : n < 2147483648) :
    GCOV_TAG_FOR_COUNTER k = 0x01a10000 + k * 2 ^ 17 ∧
    0x01a10000 + k * 2 ^ 17 < 4294967296 ∧
    GCOV_TAG_COUNTER_LENGTH n = 2 * n ∧
    (∀ c, GCOV_TAG_COUNTER_LENGTH c = (2 * c) % 4294967296) ∧
    (∀ (vs : List Nat) (buffer : Option (Nat → Nat)) (pos : Nat), vs.length = n →
      pos % 4 = 0 →
      (convert_values vs buffer pos).2 = pos + 4 * (2 * n) ∧
      (convert_values vs buffer pos).2 = pos + 4 * GCOV_TAG_COUNTER_LENGTH n) ∧
    (∀ (counters : Nat) (vs : List Nat) (cs : List (Option (List Nat))) (b : Nat → Nat)
        (pos : Nat), vs.length = n → pos % 4 = 0 → k < counters →
      ∃ b', (convert_kinds counters k (some vs :: cs) (some b) pos).1 = some b' ∧
        b' (pos / 4) = 0x01a10000 + k * 2 ^ 17 ∧
        b' (pos / 4 + 1) = 2 * n ∧
        (convert_kinds counters k (some vs :: cs) (some b) pos).2
          = (convert_kinds counters (k + 1) cs (some b) (pos + 4 * 2 + 4 * (2 * n))).2) := by
  have hk9 : k < 10 := by
    rcases GCOV_COUNTERS_values gnuc gnuc_minor with h | h <;> omega
  have htagv : GCOV_TAG_FOR_COUNTER k = 0x01a10000 + k * 2 ^ 17 := by
    simp only [GCOV_TAG_FOR_COUNTER, GCOV_TAG_COUNTER_BASE]
    omega
  have hlenv : GCOV_TAG_COUNTER_LENGTH n = 2 * n := by
    simp only [GCOV_TAG_COUNTER_LENGTH]
    omega
  refine ⟨htagv, by omega, hlenv, ?_, ?_, ?_⟩
  · intro c
    simp only [GCOV_TAG_COUNTER_LENGTH]
    omega
  · intro vs buffer pos hvs hp
    rw [convert_values_words vs buffer pos hp, values_words_length, hlenv, hvs]
    exact ⟨rfl, rfl⟩
  · intro counters vs cs b pos hvs hp hkc
    have hw := convert_kinds_words counters (some vs :: cs) k (some b) pos hp
    have hnot : ¬ (k ≥ counters) := by omega
    have hwords : kinds_words counters k (some vs :: cs)
        = GCOV_TAG_FOR_COUNTER k % 4294967296 ::
          GCOV_TAG_COUNTER_LENGTH vs.length % 4294967296 ::
          (values_words vs ++ kinds_words counters (k + 1) cs) := by
      simp only [kinds_words, hnot, if_false]
    have hlen : (kinds_words counters k (some vs :: cs)).length
        = 2 + 2 * vs.length + (kinds_words counters (k + 1) cs).length := by
      rw [hwords]
      simp only [List.length_cons, List.length_append, values_words_length]
      omega
    have htag : GCOV_TAG_FOR_COUNTER k % 4294967296 = 0x01a10000 + k * 2 ^ 17 := by
      rw [htagv]; omega
    have hlw : GCOV_TAG_COUNTER_LENGTH vs.length % 4294967296 = 2 * n := by
      rw [hvs, hlenv]; omega
    have h0 : write_words b (pos / 4) (kinds_words counters k (some vs :: cs)) (pos / 4)
        = 0x01a10000 + k * 2 ^ 17 := by
      rw [write_words_inside _ _ _ _ (le_refl _) (by omega), hwords]
      simp [htag]
    have h1 : write_words b (pos / 4) (kinds_words counters k (some vs :: cs)) (pos / 4 + 1)
        = 2 * n := by
      rw [write_words_inside _ _ _ _ (by omega) (by omega), hwords]
      simp [hlw]
    refine ⟨_, by rw [hw]; rfl, h0, h1, ?_⟩
    rw [hw, convert_kinds_words counters cs (k + 1) (some b) _ (by omega)]
    simp only [hlen, hvs]
    omega

/-- C17, amended, at a concrete input: with GCC 10 the kind index 1 is a counter kind, its
tag is `0x01a30000`, and three counters give the length word 6. -/
theorem counter_block_header_witness :
    1 < GCOV_COUNTERS 10 0 ∧ 3 < 2147483648 ∧ GCOV_TAG_FOR_COUNTER 1 = 0x01a30000 ∧
    GCOV_TAG_COUNTER_LENGTH 3 = 6 :=
  ⟨by decide, by decide,
   (counter_block_header 10 0 1 3 (by decide) (by decide)).1.trans (by decide),
   (counter_block_header 10 0 1 3 (by decide) (by decide)).2.2.1⟩

/-- C16: with the shipped `gcov_printf` macros, the hex dump of a record of `n` bytes and a
non-NULL name prints exactly the text `hexdump_text`: for `i = 0 .. n-1` in order the offset
`i` as eight zero-padded lowercase hexadecimal digits and ": " when `i % 16 = 0`, the byte as
two zero-padded lowercase hexadecimal digits and a space, a newline when `i % 16 = 15`, and
after the last byte a newline, the name and a newline. The bytes printed are the `n` bytes of
the record in order, the offsets printed are `0, 16, 32, ...`, `(n + 15) / 16` of them, and
this dump is what the loop body of `__gcov_exit` prints last when the hex dump sink is on. -/
theorem hexdump_prints_record (long_bits fuel : Nat) (o : Options) (buffer : Nat → Nat)
    (n index : Nat) (name : List Nat) (hn : n ≤ 4294967296) (hf : 40 ≤ fuel) :
    render_all long_bits fuel (hexdump o.big_endian buffer n (some name))
        = Run.done (hexdump_text (buffer_bytes o.big_endian buffer n) (cstr (some name)))
    ∧ (hexdump o.big_endian buffer n (some name)).filterMap hexdump_data_of
        = buffer_bytes o.big_endian buffer n
    ∧ (buffer_bytes o.big_endian buffer n).length = n
    ∧ (hexdump o.big_endian buffer n (some name)).filterMap hexdump_addr_of
        = (List.range ((n + 15) / 16)).map (fun j => 16 * j)
    ∧ (o.GCOV_OPT_OUTPUT_SERIAL_HEXDUMP = true →
        ∃ before, (emit_descriptor o (some name) n buffer index).1
          = before ++ hexdump o.big_endian buffer n (some name)) := by
  refine ⟨?_, hexdump_data _ _ _ _, by simp [buffer_bytes], hexdump_addr _ _ _ _, ?_⟩
  · rw [render_all_text _ _ _ (hexdump_renders long_bits fuel _ buffer n name hn hf),
      hexdump_flat_text]
  · intro h
    simp only [emit_descriptor, h, if_true]
    exact ⟨_, rfl⟩

/-- The dump of the 17 bytes of the example buffer under the name "a.gcda": two lines of
bytes, the second labelled 00000010, then the name. -/
theorem hexdump_prints_record_witness :
    17 ≤ 4294967296 ∧ 40 ≤ 40 ∧
    render_all 64 40 (hexdump example_hexdump.big_endian example_buffer 17 (some (lit "a.gcda")))
      = Run.done (lit ("00000000: 61 64 63 67 01 00 00 00 02 00 00 00 03 00 00 00 \n" ++
          "00000010: 04 \na.gcda\n")) ∧
    (hexdump example_hexdump.big_endian example_buffer 17 (some (lit "a.gcda"))).filterMap
        hexdump_addr_of = [0, 16] :=
  ⟨by decide, by decide,
   (hexdump_prints_record 64 40 example_hexdump example_buffer 17 0 (lit "a.gcda")
      (by decide) (by decide)).1.trans (by decide),
   (hexdump_prints_record 64 40 example_hexdump example_buffer 17 0 (lit "a.gcda")
      (by decide) (by decide)).2.2.2.1.trans (by decide)⟩

/-- C21: for every field width `w ≥ 0`, flag `z` and text `t` (bytes that are not null)
followed in memory by its terminating null, `gcov_putchw(w, z, t)` writes `w - len(t)` padding
characters when `w` exceeds `len(t)` and none otherwise, '0' when `z` is not zero and ' '
when it is, and then the whole of `t`; the output has `max(w, len(t))` characters. -/
theorem gcov_putchw_pads_and_keeps_text (w z : Nat) (t rest : List Nat)
    (ht : ∀ c ∈ t, c ≠ 0 ∧ c < 256) (hz : z < 256) :
    gcov_putchw (w : Int) z (t ++ 0 :: rest)
      = List.replicate (w - t.length) (if z = 0 then 32 else 48) ++ t ∧
    (gcov_putchw (w : Int) z (t ++ 0 :: rest)).length = max w t.length := by
  have hs := putchw_skip_text t rest
    (fun c hc => by have := ht c hc; rw [Nat.mod_eq_of_lt this.2]; exact this.1)
    (w : Int) (by omega)
  have hn : (max ((w : Int) - (t.length : Int)) 0).toNat = w - t.length := by omega
  have hpad : (if z % 256 ≠ 0 then 48 else 32) = (if z = 0 then 32 else 48) := by
    rw [Nat.mod_eq_of_lt hz]
    by_cases h0 : z = 0 <;> simp [h0]
  have e : gcov_putchw (w : Int) z (t ++ 0 :: rest)
      = List.replicate (w - t.length) (if z = 0 then 32 else 48) ++ t := by
    simp only [gcov_putchw, hs, hn, cstr_text t rest ht, hpad]
  refine ⟨e, ?_⟩
  rw [e, List.length_append, List.length_replicate]
  omega

/-- C21 at a concrete input: width 5 with the zero flag pads "-12" to "00-12", and width 2
leaves "-12" whole. -/
theorem gcov_putchw_pads_and_keeps_text_witness :
    (∀ c ∈ lit "-12", c ≠ 0 ∧ c < 256) ∧ 1 < 256 ∧
    gcov_putchw 5 1 (lit "-12" ++ 0 :: [7]) = lit "00-12" ∧
    gcov_putchw 2 0 (lit "-12" ++ 0 :: [7]) = lit "-12" :=
  ⟨by decide, by decide,
   (gcov_putchw_pads_and_keeps_text 5 1 (lit "-12") [7] (by decide) (by decide)).1.trans
     (by decide),
   (gcov_putchw_pads_and_keeps_text 2 0 (lit "-12") [7] (by decide) (by decide)).1.trans
     (by decide)⟩

/-- C22: in the build without stdlib `__gcov_merge_add` returns, whatever counter array and
count it is given, and leaves the whole state as it was: the descriptor memory (every counter
value), the registry list (head pointer and pool) and the allocation cursor. It calls neither
the serializer nor `gcov_clear_counters` and stores nothing; all it may do is print. -/
theorem gcov_merge_add_changes_nothing {μ : Type} (o : Options) (counters n_counters : Nat)
    (s : State μ) (hstd : o.GCOV_OPT_USE_STDLIB = false) :
    (__gcov_merge_add o counters n_counters s).outcome = Outcome.returned ∧
    (__gcov_merge_add o counters n_counters s).state = s ∧
    (__gcov_merge_add o counters n_counters s).state.descriptors = s.descriptors ∧
    (__gcov_merge_add o counters n_counters s).state.gcov_headGcov = s.gcov_headGcov ∧
    (__gcov_merge_add o counters n_counters s).state.gcov_GcovInfo = s.gcov_GcovInfo ∧
    (__gcov_merge_add o counters n_counters s).state.gcov_GcovIndex = s.gcov_GcovIndex ∧
    (∀ e ∈ (__gcov_merge_add o counters n_counters s).events, is_text e = true) := by
  refine ⟨by simp [__gcov_merge_add, hstd], rfl, rfl, rfl, rfl, rfl, ?_⟩
  intro e he
  simp only [__gcov_merge_add, hstd, List.append_nil] at he
  by_cases hp : o.GCOV_OPT_PRINT_STATUS = true
  · simp [hp] at he; subst he; rfl
  · simp [hp] at he

/-- C22 at a concrete input: after two registrations, a call with the counter array at
address 5 and count 3 returns and leaves the cursor at 2 and the list reading 2, 1. -/
theorem gcov_merge_add_changes_nothing_witness :
    example_memory_only.GCOV_OPT_USE_STDLIB = false ∧
    (__gcov_merge_add example_memory_only 5 3 example_state).outcome = Outcome.returned ∧
    (__gcov_merge_add example_memory_only 5 3 example_state).state.gcov_GcovIndex = 2 ∧
    registry_walk (__gcov_merge_add example_memory_only 5 3 example_state).state.gcov_GcovInfo
      2 (__gcov_merge_add example_memory_only 5 3 example_state).state.gcov_headGcov
      = some [2, 1] :=
  ⟨rfl, (gcov_merge_add_changes_nothing example_memory_only 5 3 example_state rfl).1,
   (gcov_merge_add_changes_nothing example_memory_only 5 3 example_state rfl).2.2.2.2.2.1.trans
     (by decide),
   by decide⟩

/-- C23, evaluated at the format "%5ad": `gcov_a2i`, called with base 10 on the character '5'
(the rest of the format starting at index 2), returns the conversion character 'd', the
width 60 and the count 2: it has consumed the letter 'a' as a digit of value 10, because its
test is `digit>base`. With the argument 7 the format prints 59 blanks and "7". -/
theorem gcov_a2i_base10_consumes_letter_a :
    gcov_a2d 97 = 10 ∧
    gcov_a2i (c_string "%5ad") 10 40 53 2 0 0 = Run.done (100, 60, 2) ∧
    gcov_printf 64 40 (c_string "%5ad") [Arg.int 7]
      = Run.done (List.replicate 59 32 ++ lit "7") := by
  decide

/-- C28, evaluated at formats that end inside a conversion specification: for "%", whose
terminating null is at index 1, `gcov_format` reads the indices 0, 1 and 2; for "%0", "%5"
and "%l", whose null is at index 2, it reads the indices 0 to 3. The last read is one cell
past the terminator each time. -/
theorem gcov_format_reads_past_terminator :
    ((c_string "%").length = 2 ∧
      gcov_format 64 (c_string "%") 40 0 [] = Run.done { out := [], reads := [0, 1, 2] }) ∧
    ((c_string "%0").length = 3 ∧
      gcov_format 64 (c_string "%0") 40 0 [] = Run.done { out := [], reads := [0, 1, 2, 3] }) ∧
    ((c_string "%5").length = 3 ∧
      gcov_format 64 (c_string "%5") 40 0 [] = Run.done { out := [], reads := [0, 1, 2, 3] }) ∧
    ((c_string "%l").length = 3 ∧
      gcov_format 64 (c_string "%l") 40 0 [] = Run.done { out := [], reads := [0, 1, 2, 3] }) := by
  decide

/-- C30, evaluated at the format "%05d" with the argument -12 (the 32-bit pattern
4294967284): the text printed is "00-12", with the padding zeros in front of the sign,
while without the zero flag it is "  -12" and for 12 it is "00012". -/
theorem gcov_format_zero_pads_before_sign :
    to_int32 4294967284 = -12 ∧
    gcov_printf 64 40 (c_string "%05d") [Arg.int 4294967284] = Run.done (lit "00-12") ∧
    gcov_printf 64 40 (c_string "%5d") [Arg.int 4294967284] = Run.done (lit "  -12") ∧
    gcov_printf 64 40 (c_string "%05d") [Arg.int 12] = Run.done (lit "00012") := by
  decide

/-- C27: whatever the compiler version, `GCOV_COUNTERS` is 8 or 9, and for kind indices
`j ≠ k` below it the tags `GCOV_TAG_FOR_COUNTER(j)` and `GCOV_TAG_FOR_COUNTER(k)` are the
sums `0x01a10000 + j * 2^17` and `0x01a10000 + k * 2^17`, which stay below 2^32 (no wrap in
the 32-bit computation), differ from each other and differ from `GCOV_TAG_FUNCTION` and from
`GCOV_DATA_MAGIC`. -/
theorem counter_tags_distinct (gnuc gnuc_minor j k : Nat)
    (hj : j < GCOV_COUNTERS gnuc gnuc_minor) (hk : k < GCOV_COUNTERS gnuc gnuc_minor)
    (hjk : j ≠ k) :
    (GCOV_COUNTERS gnuc gnuc_minor = 8 ∨ GCOV_COUNTERS gnuc gnuc_minor = 9) ∧
    GCOV_TAG_FOR_COUNTER j = GCOV_TAG_COUNTER_BASE + j * 2 ^ 17 ∧
    GCOV_TAG_FOR_COUNTER k = GCOV_TAG_COUNTER_BASE + k * 2 ^ 17 ∧
    GCOV_TAG_COUNTER_BASE + j * 2 ^ 17 < 4294967296 ∧
    GCOV_TAG_COUNTER_BASE + k * 2 ^ 17 < 4294967296 ∧
    GCOV_TAG_FOR_COUNTER j ≠ GCOV_TAG_FOR_COUNTER k ∧
    GCOV_TAG_FOR_COUNTER j ≠ GCOV_TAG_FUNCTION ∧ GCOV_TAG_FOR_COUNTER k ≠ GCOV_TAG_FUNCTION ∧
    GCOV_TAG_FOR_COUNTER j ≠ GCOV_DATA_MAGIC ∧ GCOV_TAG_FOR_COUNTER k ≠ GCOV_DATA_MAGIC := by
  have hc := GCOV_COUNTERS_values gnuc gnuc_minor
  have hj9 : j < 9 := by rcases hc with h | h <;> omega
  have hk9 : k < 9 := by rcases hc with h | h <;> omega
  simp only [GCOV_TAG_FOR_COUNTER, GCOV_TAG_COUNTER_BASE, GCOV_TAG_FUNCTION, GCOV_DATA_MAGIC]
  refine ⟨hc, ?_, ?_, ?_, ?_, ?_, ?_, ?_, ?_, ?_⟩ <;> omega

/-- C27 at a concrete input: GCC 7 has 9 counter kinds; the tags of the kinds 0 and 8 are
`0x01a10000` and `0x01b10000`. -/
theorem counter_tags_distinct_witness :
    0 < GCOV_COUNTERS 7 5 ∧ 8 < GCOV_COUNTERS 7 5 ∧ 0 ≠ 8 ∧
    GCOV_COUNTERS 7 5 = 9 ∧ GCOV_COUNTERS 11 1 = 8 ∧
    GCOV_TAG_FOR_COUNTER 0 = 0x01a10000 ∧ GCOV_TAG_FOR_COUNTER 8 = 0x01b10000 ∧
    GCOV_TAG_FOR_COUNTER 0 ≠ GCOV_TAG_FOR_COUNTER 8 :=
  ⟨by decide, by decide, by decide, by decide, by decide,
   (counter_tags_distinct 7 5 0 8 (by decide) (by decide) (by decide)).2.1.trans (by decide),
   (counter_tags_distinct 7 5 0 8 (by decide) (by decide) (by decide)).2.2.1.trans (by decide),
   (counter_tags_distinct 7 5 0 8 (by decide) (by decide) (by decide)).2.2.2.2.2.1⟩

/-- C29: for every 32-bit argument `v` each numeric conversion without the `l` flag stores at
most 12 bytes in `bf`, the terminating null included: `gcov_ui2a` stores at most 10 digits
and the null in base 10 and at most 8 digits and the null in base 16, `gcov_i2a` stores at
most 11 characters and the null, which is what it stores for -2147483648; hence in the
`switch` of `gcov_format` the conversions `u`, `d`, `x` and `X` hand to `gcov_putchw` a `bf`
of at most 12 bytes. -/
theorem numeric_conversions_fit_bf (v fuel : Nat) (hv : v < 4294967296) (hf : 33 ≤ fuel) :
    (∃ bf, gcov_ui2a v 10 0 fuel = Run.done bf ∧ bf.length ≤ 10 + 1) ∧
    (∀ uc, ∃ bf, gcov_ui2a v 16 uc fuel = Run.done bf ∧ bf.length ≤ 8 + 1) ∧
    (∃ bf, gcov_i2a (to_int32 v) fuel = Run.done bf ∧ bf.length ≤ 11 + 1) ∧
    (gcov_i2a (-2147483648) fuel = Run.done (lit "-2147483648" ++ [0]) ∧
      (lit "-2147483648" ++ [0]).length = 12) ∧
    (∀ (long_bits : Nat) (c : Conversion) (rest : List Arg), c.lng = 0 →
      c.ch = 117 ∨ c.ch = 100 ∨ c.ch = 120 ∨ c.ch = 88 →
      ∃ bf, bf.length ≤ 12 ∧
        convert long_bits c fuel (Arg.int v :: rest) = Run.done (gcov_putchw c.w c.lz bf, rest)) := by
  have h10 : ∃ bf, gcov_ui2a v 10 0 fuel = Run.done bf ∧ bf.length ≤ 10 + 1 :=
    gcov_ui2a_length v 10 10 0 fuel (by norm_num) (by norm_num) hv (by norm_num; omega)
      (by norm_num) hf
  have h16 : ∀ uc, ∃ bf, gcov_ui2a v 16 uc fuel = Run.done bf ∧ bf.length ≤ 8 + 1 :=
    fun uc => gcov_ui2a_length v 16 8 uc fuel (by norm_num) (by norm_num) hv
      (by norm_num; omega) (by norm_num) hf
  have hi : ∃ bf, gcov_i2a (to_int32 v) fuel = Run.done bf ∧ bf.length ≤ 11 + 1 :=
    gcov_i2a_length (to_int32 v) fuel hf
  refine ⟨h10, h16, hi, ⟨gcov_i2a_min fuel hf, by decide⟩, ?_⟩
  intro long_bits c rest hl hch
  rcases hch with h | h | h | h
  · obtain ⟨bf, h1, h2⟩ := h10
    exact ⟨bf, by omega, by simp [convert, h, hl, h1, put_number]⟩
  · obtain ⟨bf, h1, h2⟩ := hi
    exact ⟨bf, by omega, by simp [convert, h, hl, h1, put_number]⟩
  · obtain ⟨bf, h1, h2⟩ := h16 0
    exact ⟨bf, by omega, by simp [convert, h, hl, h1, put_number]⟩
  · obtain ⟨bf, h1, h2⟩ := h16 1
    exact ⟨bf, by omega, by simp [convert, h, hl, h1, put_number]⟩

/-- C29 at concrete inputs: the largest unsigned value takes 10 digits in base 10 and 8 in
base 16, and the pattern of -2147483648 takes 11 characters; with the null the last one fills
the 12 bytes of `bf`. -/
theorem numeric_conversions_fit_bf_witness :
    2147483648 < 4294967296 ∧ 33 ≤ 33 ∧
    gcov_ui2a 4294967295 10 0 33 = Run.done (lit "4294967295" ++ [0]) ∧
    gcov_ui2a 4294967295 16 0 33 = Run.done (lit "ffffffff" ++ [0]) ∧
    gcov_i2a (to_int32 2147483648) 33 = Run.done (lit "-2147483648" ++ [0]) ∧
    ∃ bf, gcov_i2a (to_int32 2147483648) 33 = Run.done bf ∧ bf.length ≤ 11 + 1 :=
  ⟨by decide, le_refl _, by decide, by decide, by decide,
   (numeric_conversions_fit_bf 2147483648 33 (by decide) (le_refl _)).2.2.1⟩

/-- C24, counterexample: after the registrations of a descriptor of size 8 and then of one
of size 40000 the cursor is 2 and the list reads 40000, 8; `__gcov_exit` leaves its traversal
in the first iteration, by the return of the out-of-memory branch: its only serializer call
is the size-only call for the first entry, so it has not made 2 steps. -/
theorem gcov_exit_traversal_cut_short :
    (registry_steps example_memory_only address_sized
      [RegistryStep.init 8, RegistryStep.init 40000] (State.initial ())).gcov_GcovIndex = 2 ∧
    registry_walk
      (registry_steps example_memory_only address_sized
        [RegistryStep.init 8, RegistryStep.init 40000] (State.initial ())).gcov_GcovInfo 2
      (registry_steps example_memory_only address_sized
        [RegistryStep.init 8, RegistryStep.init 40000] (State.initial ())).gcov_headGcov
      = some [40000, 8] ∧
    (__gcov_exit example_memory_only address_sized true 2
      (registry_steps example_memory_only address_sized
        [RegistryStep.init 8, RegistryStep.init 40000] (State.initial ()))).map
      (fun r => (convert_calls r.events, r.outcome))
      = some ([(false, 40000)], Outcome.returned) := by
  decide

/-- C24, amended: in the state `s` reached from the initial state by any sequence of
`__gcov_init` calls and resets, the allocation cursor is at most 100; following `next` from
the head meets exactly the pool slots `cursor-1, cursor-2, ..., 0` in this order and then
NULL, so the registry list has as many entries as the cursor says and no slot occurs twice;
NULL is reached after exactly `cursor` steps (with fewer the walk is not over); `__gcov_clear`
run for `cursor` iterations returns, having called `gcov_clear_counters` `cursor` times;
`__gcov_exit` run for `cursor` iterations returns, having made at most two serializer calls
for each of the `cursor` entries, and exactly two for each entry in list order when the file
sink is off or its file opens and every descriptor fits the scratch buffer. -/
theorem registry_invariant {μ : Type} (o : Options) (G : GcovGcc μ)
    (steps : List RegistryStep) (m : μ) :
    ∃ s : State μ, s = registry_steps o G steps (State.initial m) ∧
      s.gcov_GcovIndex ≤ 100 ∧
      registry_nodes s.gcov_GcovInfo s.gcov_GcovIndex s.gcov_headGcov
        = some (List.range s.gcov_GcovIndex).reverse ∧
      (List.range s.gcov_GcovIndex).reverse.Nodup ∧
      (∀ fuel, fuel < s.gcov_GcovIndex →
        registry_nodes s.gcov_GcovInfo fuel s.gcov_headGcov = none) ∧
      (∃ l, registry_walk s.gcov_GcovInfo s.gcov_GcovIndex s.gcov_headGcov = some l ∧
        l.length = s.gcov_GcovIndex) ∧
      (∃ r, __gcov_clear o G s.gcov_GcovIndex s = some r ∧
        (clear_calls r.events).length = s.gcov_GcovIndex) ∧
      (∀ open_ok, ∃ r, __gcov_exit o G open_ok s.gcov_GcovIndex s = some r ∧
        (convert_calls r.events).length ≤ 2 * s.gcov_GcovIndex) ∧
      (∀ open_ok l, (o.GCOV_OPT_OUTPUT_BINARY_FILE = false ∨ open_ok = true) →
        registry_walk s.gcov_GcovInfo s.gcov_GcovIndex s.gcov_headGcov = some l →
        (∀ d ∈ l, bytesNeeded G s.descriptors d ≤ gcov_buf_bytes) →
        ∃ r, __gcov_exit o G open_ok s.gcov_GcovIndex s = some r ∧
          convert_calls r.events = l.flatMap (fun d => [(false, d), (true, d)]) ∧
          (convert_calls r.events).length = 2 * s.gcov_GcovIndex) := by
  have hinv : registry_inv (registry_steps o G steps (State.initial m)) :=
    registry_steps_inv o G steps _ (registry_inv_empty _ rfl rfl)
  refine ⟨_, rfl, ?_⟩
  generalize registry_steps o G steps (State.initial m) = s at hinv
  have hwalk := registry_inv_walk s hinv s.gcov_GcovIndex (le_refl _)
  have hlen := pool_infos_length s.gcov_GcovInfo s.gcov_GcovIndex
  obtain ⟨h1, h2, h3⟩ := hinv
  refine ⟨h1, ?_, ?_, ?_, ⟨_, hwalk, hlen⟩, ?_, ?_, ?_⟩
  · rw [h2]
    exact registry_nodes_chain _ _ h3 _ (le_refl _)
  · exact List.nodup_reverse.mpr (List.nodup_range _)
  · intro fuel hf
    rw [h2]
    exact registry_nodes_short _ _ h3 fuel hf
  · refine ⟨_, gcov_clear_eq o G s _ _ _ hwalk (by rw [hlen]), ?_⟩
    have hst : clear_calls (if o.GCOV_OPT_PRINT_STATUS then
        [print_lit "gcov_clear", print_lit "\n"] else []) = [] := by
      cases o.GCOV_OPT_PRINT_STATUS <;> simp [clear_calls, clear_call_of, print_lit]
    simp only [clear_calls] at hst
    simp only [clear_calls, List.filterMap_append, hst, List.nil_append]
    have := clear_calls_map (pool_infos s.gcov_GcovInfo s.gcov_GcovIndex)
    simp only [clear_calls] at this
    rw [this, hlen]
  · intro open_ok
    obtain ⟨r, hr, hc⟩ := gcov_exit_calls o G open_ok s _ _ s.gcov_GcovIndex hwalk
      (by rw [hlen])
    refine ⟨r, hr, ?_⟩
    rcases hc with hc | hc
    · rw [hc]; simp
    · rw [hc]
      have := loop_calls_length G s.descriptors (pool_infos s.gcov_GcovInfo s.gcov_GcovIndex)
      rw [hlen] at this
      exact this
  · intro open_ok l hopen hl hfit
    have hll : l = pool_infos s.gcov_GcovInfo s.gcov_GcovIndex :=
      Option.some.inj (hl.symm.trans hwalk)
    have hlen2 : l.length = s.gcov_GcovIndex := by rw [hll, hlen]
    refine ⟨_, gcov_exit_eq o G open_ok s _ l hopen hl _ (by rw [hlen2]), ?_⟩
    have hc := (exit_on_list_emitted o G l s).2.1
    rw [loop_calls_all_fit G s.descriptors l hfit] at hc
    refine ⟨hc, ?_⟩
    rw [hc, ← hlen2]
    clear hc hl hll hlen2 hfit
    induction l with
    | nil => rfl
    | cons d l ih => simp only [List.flatMap_cons, List.length_append, List.length_cons, ih,
        List.length_nil]; omega

/-- C24 at a concrete sequence: two registrations, a reset and one more registration leave
the cursor at 1 and the list made of slot 0 alone, which holds the descriptor 3. -/
theorem registry_invariant_witness :
    (registry_steps example_memory_only (gcov_gcc 8)
      [RegistryStep.init 1, RegistryStep.init 2, RegistryStep.reset, RegistryStep.init 3]
      (State.initial example_descriptors)).gcov_GcovIndex = 1 ∧
    registry_walk
      (registry_steps example_memory_only (gcov_gcc 8)
        [RegistryStep.init 1, RegistryStep.init 2, RegistryStep.reset, RegistryStep.init 3]
        (State.initial example_descriptors)).gcov_GcovInfo 1
      (registry_steps example_memory_only (gcov_gcc 8)
        [RegistryStep.init 1, RegistryStep.init 2, RegistryStep.reset, RegistryStep.init 3]
        (State.initial example_descriptors)).gcov_headGcov = some [3] ∧
    ∃ s : State (Nat → gcov_info),
      s = registry_steps example_memory_only (gcov_gcc 8)
        [RegistryStep.init 1, RegistryStep.init 2, RegistryStep.reset, RegistryStep.init 3]
        (State.initial example_descriptors) ∧
      s.gcov_GcovIndex ≤ 100 ∧
      registry_nodes s.gcov_GcovInfo s.gcov_GcovIndex s.gcov_headGcov
        = some (List.range s.gcov_GcovIndex).reverse :=
  ⟨by decide, by decide,
   (registry_invariant example_memory_only (gcov_gcc 8)
      [RegistryStep.init 1, RegistryStep.init 2, RegistryStep.reset, RegistryStep.init 3]
      example_descriptors).imp (fun _ h => ⟨h.1, h.2.1, h.2.2.1⟩)⟩

/-- C25: with the file sink and the memory-block sink both enabled and the file opened, for
every registry (a list that reaches NULL) and every serializer, `__gcov_exit` returns or
exits having passed to `GCOV_WRITE_BYTE` exactly the bytes it has stored in the memory block,
in the same order: the groups of the descriptors up to the first one that exceeds the scratch
buffer, followed by the end marker when no descriptor exceeds it (the success path) and by
nothing otherwise (the out-of-memory path). -/
theorem gcov_exit_file_bytes_equal_memory_bytes {μ : Type} (o : Options) (G : GcovGcc μ)
    (s : State μ) (n : Nat) (l : List Nat) (fuel : Nat)
    (hfile : o.GCOV_OPT_OUTPUT_BINARY_FILE = true)
    (hmem : o.GCOV_OPT_OUTPUT_BINARY_MEMORY = true)
    (hl : registry_walk s.gcov_GcovInfo n s.gcov_headGcov = some l) (hf : l.length ≤ fuel) :
    ∃ r, __gcov_exit o G true fuel s = some r ∧
      file_bytes r.events = (stores r.events).map Prod.snd ∧
      file_bytes r.events
        = emitted o G s.descriptors l s.gcov_buf ++
            (if fitting_head G s.descriptors l = l then gcov_end_marker else []) ∧
      r.outcome = (if fitting_head G s.descriptors l = l then Outcome.returned
                   else (out_of_memory o).2) := by
  refine ⟨_, gcov_exit_eq o G true s n l (Or.inr rfl) hl fuel hf, ?_⟩
  obtain ⟨h1, _, h3, h4, _⟩ := exit_on_list_emitted o G l s
  rw [h3, h4]
  simp only [hfile, hmem, if_true, at_offsets_snd, true_and]
  exact h1

/-- C25 at concrete inputs: with both sinks on and the file opened, the two example
descriptors give 137 bytes to the file and the same 137 bytes to the memory block; with the
descriptors of sizes 8 and 40000 the run stops at the second one and both sinks hold the
same 14 bytes of the first group. -/
theorem gcov_exit_file_bytes_equal_memory_bytes_witness :
    example_file_and_memory.GCOV_OPT_OUTPUT_BINARY_FILE = true ∧
    example_file_and_memory.GCOV_OPT_OUTPUT_BINARY_MEMORY = true ∧
    registry_walk example_state.gcov_GcovInfo 2 example_state.gcov_headGcov = some [2, 1] ∧
    (∃ r, __gcov_exit example_file_and_memory (gcov_gcc 8) true 2 example_state = some r ∧
      file_bytes r.events = (stores r.events).map Prod.snd) ∧
    (__gcov_exit example_file_and_memory (gcov_gcc 8) true 2 example_state).map
      (fun r => (file_bytes r.events).length) = some 137 ∧
    (__gcov_exit example_file_and_memory address_sized true 2 example_oversize_state).map
      (fun r => (file_bytes r.events, (stores r.events).map Prod.snd))
      = some (lit "u" ++ [0, 0, 0, 0, 8] ++ List.replicate 8 0,
              lit "u" ++ [0, 0, 0, 0, 8] ++ List.replicate 8 0) :=
  ⟨rfl, rfl, by decide,
   (gcov_exit_file_bytes_equal_memory_bytes example_file_and_memory (gcov_gcc 8) example_state
      2 [2, 1] 2 rfl rfl (by decide) (by decide)).imp (fun _ h => ⟨h.1, h.2.1⟩),
   by set_option maxRecDepth 100000 in decide,
   by set_option maxRecDepth 100000 in decide⟩

/-- C26: when `__gcov_exit` succeeds with the memory-block sink enabled (the file sink off or
its file opened, every descriptor within the scratch buffer) and no descriptor of the
registry is named "Gcov End", it returns, and the decoder `decode_stream`, run on the bytes
stored in the memory block in the order of the stores, ends at the marker and gives exactly
the name and the record of each descriptor of the registry, in list order. -/
theorem memory_stream_decodes {μ : Type} (o : Options) (G : GcovGcc μ) (open_ok : Bool)
    (s : State μ) (n : Nat) (l : List Nat) (fuel : Nat)
    (hmem : o.GCOV_OPT_OUTPUT_BINARY_MEMORY = true)
    (hopen : o.GCOV_OPT_OUTPUT_BINARY_FILE = false ∨ open_ok = true)
    (hl : registry_walk s.gcov_GcovInfo n s.gcov_headGcov = some l) (hf : l.length ≤ fuel)
    (hfit : ∀ d ∈ l, bytesNeeded G s.descriptors d ≤ gcov_buf_bytes)
    (hname : ∀ d ∈ l, cstr (G.gcov_info_filename s.descriptors d) ≠ lit "Gcov End") :
    ∃ r, __gcov_exit o G open_ok fuel s = some r ∧ r.outcome = Outcome.returned ∧
      decode_stream ((stores r.events).length + 1) ((stores r.events).map Prod.snd)
        = some (records o G s.descriptors l s.gcov_buf) ∧
      (records o G s.descriptors l s.gcov_buf).map Prod.fst
        = l.map (fun d => cstr (G.gcov_info_filename s.descriptors d)) := by
  refine ⟨_, gcov_exit_eq o G open_ok s n l hopen hl fuel hf, ?_⟩
  obtain ⟨h1, _, h3, _⟩ := exit_on_list_emitted o G l s
  have hall := fitting_head_all G s.descriptors l hfit
  simp only [hall, if_true, hmem] at h1 h3
  refine ⟨h1, ?_, ?_⟩
  · have hlen : (stores (exit_on_list o G l s).events).length
        = (emitted o G s.descriptors l s.gcov_buf ++ gcov_end_marker).length := by
      rw [h3, ← List.length_map (at_offsets 0 _) Prod.snd, at_offsets_snd]
    rw [hlen, h3, at_offsets_snd]
    have hd := decode_stream_emitted o G s.descriptors [] l s.gcov_buf
      ((emitted o G s.descriptors l s.gcov_buf ++ gcov_end_marker).length + 1) hfit hname
      (by
        have := emitted_length o G s.descriptors l s.gcov_buf hfit
        rw [List.length_append]; omega)
    rw [List.append_nil] at hd
    exact hd
  · exact records_names o G s.descriptors l s.gcov_buf

/-- C26 at a concrete input: the memory-block sink alone and the two example descriptors
registered; the decoder recovers two groups, both named "a.c", with records of 56 bytes. -/
theorem memory_stream_decodes_witness :
    example_memory_only.GCOV_OPT_OUTPUT_BINARY_MEMORY = true ∧
    (example_memory_only.GCOV_OPT_OUTPUT_BINARY_FILE = false ∨ false = true) ∧
    registry_walk example_state.gcov_GcovInfo 2 example_state.gcov_headGcov = some [2, 1] ∧
    (∀ d ∈ [2, 1], bytesNeeded (gcov_gcc 8) example_state.descriptors d ≤ gcov_buf_bytes) ∧
    (∀ d ∈ [2, 1],
      cstr ((gcov_gcc 8).gcov_info_filename example_state.descriptors d) ≠ lit "Gcov End") ∧
    (records example_memory_only (gcov_gcc 8) example_state.descriptors [2, 1]
      example_state.gcov_buf).map (fun g => (g.1, g.2.length))
      = [(lit "a.c", 56), (lit "a.c", 56)] ∧
    ∃ r, __gcov_exit example_memory_only (gcov_gcc 8) false 2 example_state = some r ∧
      r.outcome = Outcome.returned ∧
      decode_stream ((stores r.events).length + 1) ((stores r.events).map Prod.snd)
        = some (records example_memory_only (gcov_gcc 8) example_state.descriptors [2, 1]
            example_state.gcov_buf) :=
  ⟨rfl, Or.inl rfl, by decide, by decide, by decide,
   by set_option maxRecDepth 100000 in decide,
   (memory_stream_decodes example_memory_only (gcov_gcc 8) false example_state 2 [2, 1] 2
      rfl (Or.inl rfl) (by decide) (by decide) (by decide) (by decide)).imp
      (fun _ h => ⟨h.1, h.2.1, h.2.2.1⟩)⟩

end EmbeddedGcov
